import Mathlib

/-!
# hum2ly: Humdrum to LilyPond conversion

A shallow embedding of `src/hum2ly.cpp` (class `HumdrumToLilypondConverter`).

Conventions of the embedding:

* `std::string` is `String`; text is ASCII, so characters and bytes coincide.
* an `ostream&` parameter is an input/output `String` that only grows by appending.
* `HumNum` (humlib's rational number class) is `ℚ`; `getNumerator`/`getDenominator`
  are `Rat.num`/`Rat.den`.
* a non-NULL `HTp` is a position in the token sequence of one part (`TokenPtr`);
  `HTp` itself is `Option TokenPtr`, with `none` for `NULL`.
* the token and line classification of the parsing library (humlib) is data carried
  by `HumdrumToken`; the pitch and rhythm decoders of humlib's `Convert` class are
  taken as a parameter (`Convert`).
* the member variables of the converter are the fields of `HumdrumToLilypondConverter`
  and are threaded explicitly through every member function.
* in string literals the braces of the LilyPond text are written with their hexadecimal
  escapes, `x7b` for the opening and `x7d` for the closing brace.
-/

namespace Hum2ly

/-! ## `std::string` helpers -/

/-- The value `std::string::npos` (the largest `size_t`, 64 bit). -/
def npos : Nat := 2 ^ 64 - 1

/-- The search loop of `std::string::find`: first position at or after `i` where `pat` starts. -/
def findAux (pat : List Char) : List Char → Nat → Nat
  | [], i => if pat.isEmpty then i else npos
  | c :: cs, i => if pat.isPrefixOf (c :: cs) then i else findAux pat cs (i + 1)

/-- The call `s.find(pat)`: position of the first occurrence of `pat` in `s`, or `npos`. -/
def find (s pat : String) : Nat := findAux pat.toList s.toList 0

/-- The access `s[i]` of `std::string`; the terminating zero is returned at the end. -/
def charAt (s : String) (i : Nat) : Char := s.toList.getD i (Char.ofNat 0)

/-- The call `std::count(text.begin(), text.end(), symbol)` of `characterCount`. -/
def characterCount (text : String) (symbol : Char) : Int := (text.toList.count symbol : Nat)

/-! ## Tokens of the parsing library -/

/-- A token of the parsed score (`HumdrumToken`): its text, its source location, its time
position and the classification computed by the parsing library. -/
structure HumdrumToken where
  text : String
  lineIndex : Nat := 0
  fieldIndex : Nat := 0
  track : Nat := 1
  durationFromStart : ℚ := 0
  isData : Bool := false
  isNull : Bool := false
  isRest : Bool := false
  isChord : Bool := false
  isInterpretation : Bool := false
  isExclusive : Bool := false
  isBarline : Bool := false
  isClef : Bool := false
  isKeySignature : Bool := false
  isKeyDesignation : Bool := false
  isLabel : Bool := false
deriving DecidableEq

/-- The call `token->getLineNumber()`: line numbers start at one. -/
def HumdrumToken.getLineNumber (t : HumdrumToken) : Int := (t.lineIndex : Int) + 1

/-- The call `token->getFieldNumber()`: field numbers start at one. -/
def HumdrumToken.getFieldNumber (t : HumdrumToken) : Int := (t.fieldIndex : Int) + 1

/-- A non-NULL token pointer: the token `tok` inside the token sequence of its part, with the
tokens before it (`before`, nearest first) and after it (`after`, nearest first). -/
structure TokenPtr where
  before : List HumdrumToken
  tok : HumdrumToken
  after : List HumdrumToken
deriving DecidableEq

/-- A token pointer `HTp`; `none` is `NULL`. -/
abbrev HTp := Option TokenPtr

/-- The call `token->getNextToken()`. -/
def TokenPtr.getNextToken (p : TokenPtr) : HTp :=
  match p.after with
  | [] => none
  | t :: rest => some { before := p.tok :: p.before, tok := t, after := rest }

/-- The call `token->getPreviousToken()`. -/
def TokenPtr.getPreviousToken (p : TokenPtr) : HTp :=
  match p.before with
  | [] => none
  | t :: rest => some { before := rest, tok := t, after := p.tok :: p.after }

/-! ## Lines and files of the parsing library -/

/-- A line of the parsed score (`HumdrumLine`): its text, its tokens as pointers into the token
sequences of their parts, and the classification computed by the parsing library. A line
without spines (a global comment, a reference record, an empty line) has a single token that
holds the whole line. -/
structure HumdrumLine where
  text : String := ""
  tokens : List TokenPtr := []
  isData : Bool := false
  isInterpretation : Bool := false
  isExclusive : Bool := false
  isBarline : Bool := false
  hasSpines : Bool := false
deriving DecidableEq

/-- The text of `*infile[i].token(0)`; empty when the line has no token. -/
def HumdrumLine.token0 (line : HumdrumLine) : String :=
  match line.tokens with
  | [] => ""
  | t :: _ => t.tok.text

/-- The call `infile[i].token(0)->isLabel()`. -/
def HumdrumLine.token0IsLabel (line : HumdrumLine) : Bool :=
  match line.tokens with
  | [] => false
  | t :: _ => t.tok.isLabel

/-- A parsed score (`HumdrumFile`): its lines, the list returned by `getKernSpineStartList()`
(the starting tokens of the `**kern` spines, in stream order) and `getSpineCount()`. -/
structure HumdrumFile where
  lines : List HumdrumLine := []
  kernSpineStartList : List TokenPtr := []
  spineCount : Nat := 0
deriving DecidableEq

/-- The call `infile.getLineCount()`. -/
def HumdrumFile.getLineCount (infile : HumdrumFile) : Nat := infile.lines.length

/-- The options of the converter: the value of `m_options.getString("version")`. -/
structure Options where
  version : String := "2.18.2"
deriving DecidableEq

/-! ## Converter state -/

/-- The class `StateVariables`: duration and dots of the last note or rest, pitch of the last
note. -/
structure StateVariables where
  duration : ℚ
  dots : Int
  pitch : Int
deriving DecidableEq

/-- The method `StateVariables::clear`. -/
def StateVariables.clear : StateVariables := { duration := -1, dots := -1, pitch := -99999 }

/-- The member variables of `HumdrumToLilypondConverter`. Line indices and segment boundaries
are natural numbers: the code only stores 0, loop indices and the line count in them. -/
structure HumdrumToLilypondConverter where
  m_kernstarts : List TokenPtr
  m_rkern : List Int
  m_segments : List Nat
  m_labels : List String
  m_infile : HumdrumFile
  m_indent : String
  m_staffout : String
  m_scoreout : String
  m_states : StateVariables
  m_options : Options
  m_errors : List String
deriving DecidableEq

/-- The constructor of `HumdrumToLilypondConverter`. -/
def HumdrumToLilypondConverter.init : HumdrumToLilypondConverter :=
  { m_kernstarts := [], m_rkern := [], m_segments := [], m_labels := [], m_infile := {},
    m_indent := "  ", m_staffout := "", m_scoreout := "", m_states := StateVariables.clear,
    m_options := {}, m_errors := [] }

/-- The method `addErrorMessage(message, token)`: the message, then, for a non-NULL token, its
line and field as two further entries. -/
def addErrorMessage (c : HumdrumToLilypondConverter) (message : String) (token : HTp) :
    HumdrumToLilypondConverter :=
  let c := { c with m_errors := c.m_errors ++ [message] }
  match token with
  | none => c
  | some p =>
    let c := { c with m_errors := c.m_errors ++ ["\tLine:  " ++ toString p.tok.getLineNumber] }
    { c with m_errors := c.m_errors ++ ["\tField: " ++ toString p.tok.getFieldNumber] }

/-! ## Key signatures -/

/-- Both `while` loops of `getKeyDesignation`, over the tokens met in one direction: stop when
the time position differs or at a data token, return the first key designation. -/
def scanKeyDesignation (timestamp : ℚ) : List HumdrumToken → Option HumdrumToken
  | [] => none
  | ttok :: rest =>
    if ttok.durationFromStart = timestamp then
      if ttok.isData then none
      else if ttok.isKeyDesignation then some ttok
      else scanKeyDesignation timestamp rest
    else none

/-- The method `getKeyDesignation(token)`: forward search, then backward search. -/
def getKeyDesignation (token : HTp) : Option HumdrumToken :=
  match token with
  | none => none
  | some p =>
    let timestamp := p.tok.durationFromStart
    match scanKeyDesignation timestamp p.after with
    | some ttok => some ttok
    | none => scanKeyDesignation timestamp p.before

/-- The classification ladder of `convertKeySignature` (lines 665-701): the signed accidental
count, or `none` in the final `else` branch (non-standard key signature). -/
def keyAccids (fs cs gs ds as es bs bb eb ab db gb cb fb : Bool) : Option Int :=
  if fs && !cs && !gs && !ds && !as && !es && !bs then some 1
  else if fs && cs && !gs && !ds && !as && !es && !bs then some 2
  else if fs && cs && gs && !ds && !as && !es && !bs then some 3
  else if fs && cs && gs && ds && !as && !es && !bs then some 4
  else if fs && cs && gs && ds && as && !es && !bs then some 5
  else if fs && cs && gs && ds && as && es && !bs then some 6
  else if fs && cs && gs && ds && as && es && bs then some 7
  else if bb && !eb && !ab && !db && !gb && !cb && !fb then some (-1)
  else if bb && eb && !ab && !db && !gb && !cb && !fb then some (-2)
  else if bb && eb && ab && !db && !gb && !cb && !fb then some (-3)
  else if bb && eb && ab && db && !gb && !cb && !fb then some (-4)
  else if bb && eb && ab && db && gb && !cb && !fb then some (-5)
  else if bb && eb && ab && db && gb && cb && !fb then some (-6)
  else if bb && eb && ab && db && gb && cb && fb then some (-7)
  else if !bb && !eb && !ab && !db && !gb && !cb && !fb
      && !fs && !cs && !gs && !ds && !as && !es && !bs then some 0
  else none

/-- The fourteen `find` calls of `convertKeySignature` (lines 649-663) followed by the
classification ladder. -/
def tokenAccids (text : String) : Option Int :=
  keyAccids (find text "f#" != npos) (find text "c#" != npos) (find text "g#" != npos)
    (find text "d#" != npos) (find text "a#" != npos) (find text "e#" != npos)
    (find text "b#" != npos) (find text "b-" != npos) (find text "e-" != npos)
    (find text "a-" != npos) (find text "d-" != npos) (find text "g-" != npos)
    (find text "c-" != npos) (find text "f-" != npos)

/-- The `switch` of `convertKeySignature` for a missing designation (lines 709-725). -/
def defaultTonic (accids : Int) : String :=
  if accids = 0 then "c"
  else if accids = 1 then "g"
  else if accids = 2 then "d"
  else if accids = 3 then "a"
  else if accids = 4 then "e"
  else if accids = 5 then "b"
  else if accids = 6 then "fis"
  else if accids = 7 then "cis"
  else if accids = -1 then "f"
  else if accids = -2 then "bes"
  else if accids = -3 then "ees"
  else if accids = -4 then "aes"
  else if accids = -5 then "des"
  else if accids = -6 then "ges"
  else if accids = -7 then "ces"
  else ""

/-- The `for` loop of `convertKeySignature` that spells the tonic (lines 727-739), over the
characters of the designation from index 1 on. -/
def tonicLoop : List Char → String → String
  | [], tonic => tonic
  | letter :: rest, tonic =>
    if letter = ':' then tonic
    else if letter = '#' then tonicLoop rest (tonic ++ "is")
    else if letter = '-' then tonicLoop rest (tonic ++ "es")
    else tonicLoop rest (tonic.push letter.toLower)

/-- The tonic spelled from a designation text. -/
def designationTonic (designation : String) : String :=
  tonicLoop (designation.toList.drop 1) ""

/-- The mode chosen for a designation text (lines 741-758). Each `find` result is used directly
as the condition of its `if`, so it counts as true exactly when it is not zero. -/
def designationMode (designation : String) : String :=
  let mode := if (charAt designation 2).isLower then "minor" else "major"
  if find designation "dor" != 0 then "dorian"
  else if find designation "phr" != 0 then "phrygian"
  else if find designation "lyd" != 0 then "lydian"
  else if find designation "mix" != 0 then "mixolydian"
  else if find designation "aeo" != 0 then "aeolian"
  else if find designation "loc" != 0 then "locrian"
  else if find designation "ion" != 0 then "ionian"
  else mode

/-- The seven blocks of lines 762-998: the mode names guarding each block and, in source order,
the `(accids, tonic)` pairs tested by its `if`/`else if` chain. -/
def keyBlocks : List (List String × List (Int × String)) :=
  [ (["major", "ionian"],
      [(0, "c"), (1, "g"), (2, "d"), (3, "a"), (4, "e"), (5, "b"), (6, "fis"), (7, "cis"),
       (-1, "f"), (-2, "bes"), (-3, "ees"), (-4, "aes"), (-5, "des"), (-6, "ges"), (-7, "ces")]),
    (["minor", "aeolian"],
      [(0, "a"), (1, "e"), (2, "b"), (3, "fis"), (4, "cis"), (5, "gis"), (6, "dis"), (7, "ais"),
       (-1, "d"), (-2, "g"), (-3, "c"), (-4, "f"), (-5, "bes"), (-6, "ees"), (-7, "aes")]),
    (["dorian"],
      [(0, "d"), (1, "a"), (2, "e"), (3, "b"), (4, "fis"), (5, "cis"), (6, "gis"), (7, "dis"),
       (-1, "g"), (-2, "c"), (-3, "f"), (-4, "bes"), (-5, "ees"), (-6, "aes"), (-7, "des")]),
    (["phrygian"],
      [(0, "e"), (1, "b"), (2, "fis"), (3, "cis"), (4, "gis"), (5, "dis"), (6, "ais"), (7, "eis"),
       (-1, "a"), (-2, "d"), (-3, "g"), (-4, "c"), (-5, "f"), (-6, "bes"), (-7, "ees")]),
    (["lydian"],
      [(0, "f"), (1, "c"), (2, "g"), (3, "d"), (4, "a"), (5, "e"), (6, "b"), (7, "fis"),
       (-1, "bes"), (-2, "ees"), (-3, "aes"), (-4, "des"), (-5, "ges"), (-6, "ces"), (-7, "fes")]),
    (["mixolydian"],
      [(0, "g"), (1, "d"), (2, "a"), (3, "e"), (4, "b"), (5, "fis"), (6, "cis"), (7, "gis"),
       (-1, "c"), (-2, "f"), (-3, "bes"), (-4, "ees"), (-5, "aes"), (-6, "des"), (-7, "ges")]),
    (["locrian"],
      [(0, "b"), (1, "fis"), (2, "cis"), (3, "gis"), (4, "dis"), (5, "ais"), (6, "eis"), (7, "bis"),
       (-1, "e"), (-2, "a"), (-3, "d"), (-4, "g"), (-5, "c"), (-6, "f"), (-7, "bes")]) ]

/-- Whether one of the blocks of lines 762-998 reaches its `out << ...; return status;`: the
block is guarded by the mode and one of its pairs equals `(accids, tonic)`. -/
def keyBlocksAccept (mode : String) (accids : Int) (tonic : String) : Bool :=
  keyBlocks.any fun block =>
    block.1.contains mode && block.2.any fun entry => accids == entry.1 && tonic == entry.2

/-- The method `convertKeySignature(out, token)`; the result is the converter, the stream `out`
and the returned status. -/
def convertKeySignature (c : HumdrumToLilypondConverter) (out : String) (token : TokenPtr) :
    HumdrumToLilypondConverter × String × Bool :=
  let status := true
  match tokenAccids token.tok.text with
  | none =>
    (addErrorMessage c ("Error: non-standard key signature: " ++ token.tok.text) (some token),
      out, true)
  | some accids =>
    let designation := getKeyDesignation (some token)
    let tonic :=
      match designation with
      | none => defaultTonic accids
      | some d => designationTonic d.text
    let mode :=
      match designation with
      | none => "major"
      | some d => designationMode d.text
    if keyBlocksAccept mode accids tonic then
      (c, out ++ "\\key " ++ tonic ++ " \\" ++ mode, status)
    else
      let error := "Error: Unknown key signatue " ++ token.tok.text
      let error :=
        match designation with
        | none => error
        | some d => error ++ (" in combination with the key " ++ d.text)
      (addErrorMessage c error (some token), out, status)

/-! ## Notes, rests and durations -/

/-- The decoders of the parsing library used by the note and rest renderers: the static
functions of humlib's `Convert` class and `HumdrumToken::getSubtoken`. Durations are in
quarter notes. -/
structure Convert where
  getSubtoken : HumdrumToken → Nat → String
  kernToBase40 : String → Int
  kernToDiatonicPC : String → Int
  kernToAccidentalCount : String → Int
  recipToDuration : String → ℚ
  recipToDurationNoDots : String → ℚ

/-- Reduction of an integer to the range of a 32-bit `int`. -/
def wrapInt (x : Int) : Int := (x + 2147483648) % 4294967296 - 2147483648

/-- The stream output `out << number` of a `HumNum`: the numerator, then `/` and the
denominator unless the denominator is one. -/
def printHumNum (number : ℚ) : String :=
  if number.den = 1 then toString number.num
  else toString number.num ++ "/" ++ toString number.den

/-- The loop `for (i=0; i<dots; i++) out << "."` of `convertDuration`, with the number of
iterations left. -/
def printDots : Nat → String → String
  | 0, out => out
  | n + 1, out => printDots n (out ++ ".")

/-- The method `convertDuration(out, duration, durationnodots, dots)`. A `durationnodots` of
zero (a division by zero inside `HumNum`) is outside the model. -/
def convertDuration (c : HumdrumToLilypondConverter) (out : String)
    (duration durationnodots : ℚ) (dots : Int) : HumdrumToLilypondConverter × String :=
  let c := { c with m_states := { c.m_states with dots := dots } }
  let c := { c with m_states := { c.m_states with duration := duration } }
  let top : Int := durationnodots.num
  let bot : Int := durationnodots.den
  let newdur : ℚ := bot
  let newdur : ℚ := newdur / top
  let newdur : ℚ := newdur * 4
  if newdur.den ≠ 1 then (c, out)
  else (c, printDots dots.toNat (out ++ printHumNum newdur))

/-- The method `convertArticulations(out, stok)`. -/
def convertArticulations (out stok : String) : String :=
  if find stok ";" != npos then out ++ "\\fermata" else out

/-- The method `convertRest(out, token)`. -/
def convertRest (lib : Convert) (c : HumdrumToLilypondConverter) (out : String)
    (token : TokenPtr) : HumdrumToLilypondConverter × String × Bool :=
  let stok := lib.getSubtoken token.tok 0
  let out := out ++ "r"
  let duration := lib.recipToDuration stok
  let dots := characterCount stok '.'
  let r :=
    if dots ≠ c.m_states.dots ∨ duration ≠ c.m_states.duration then
      convertDuration c out duration (lib.recipToDurationNoDots stok) dots
    else (c, out)
  (r.1, convertArticulations r.2 token.tok.text, true)

/-- The method `convertChord(out, token)`; the diagnostic written to `cerr` is not part of the
model. -/
def convertChord (c : HumdrumToLilypondConverter) (out : String) (_token : TokenPtr) :
    HumdrumToLilypondConverter × String × Bool :=
  (c, out, false)

/-- The `switch (diatonic)` of `convertNote`. -/
def diatonicName (diatonic : Int) : String :=
  if diatonic = 0 then "c"
  else if diatonic = 1 then "d"
  else if diatonic = 2 then "e"
  else if diatonic = 3 then "f"
  else if diatonic = 4 then "g"
  else if diatonic = 5 then "a"
  else if diatonic = 6 then "b"
  else ""

/-- The `switch (accidental)` of `convertNote`. -/
def accidentalName (accidental : Int) : String :=
  if accidental = 2 then "isis"
  else if accidental = 1 then "is"
  else if accidental = 0 then ""
  else if accidental = -1 then "es"
  else if accidental = -2 then "eses"
  else ""

/-- The text written by the block `if (states.pitch != pitch) { ... }` of `convertNote`
(lines 1188-1204), for the tracked pitch `lastPitch` and the pitch of the note. -/
def registerMark (lastPitch pitch : Int) : String :=
  if lastPitch ≠ pitch then
    let interval := wrapInt (pitch - lastPitch)
    let sign : Int := if interval < 0 then -1 else 1
    let interval := if interval < 0 then wrapInt (-interval) else interval
    if interval ≤ 20 then ""
    else if interval > 20 ∧ sign > 0 then "'"
    else if interval > 20 ∧ sign < 0 then ","
    else ""
  else ""

/-- The text written for ties by `convertNote` (lines 1218-1222). -/
def tieText (stok : String) : String :=
  if find stok "[" != npos then "~"
  else if find stok "_" != npos then "~"
  else ""

/-- The text written for slurs by `convertNote` (lines 1225-1230). -/
def slurText (stok : String) : String :=
  (if find stok ")" != npos then ")" else "") ++ (if find stok "(" != npos then "(" else "")

/-- The second half of `convertNote` (lines 1208-1234): duration, ties, slurs, articulations. -/
def convertNoteRhythm (lib : Convert) (c : HumdrumToLilypondConverter) (out : String)
    (stok : String) : HumdrumToLilypondConverter × String × Bool :=
  let duration := lib.recipToDuration stok
  let dots := characterCount stok '.'
  let r :=
    if dots ≠ c.m_states.dots ∨ duration ≠ c.m_states.duration then
      convertDuration c out duration (lib.recipToDurationNoDots stok) dots
    else (c, out)
  let out := r.2 ++ tieText stok
  let out := out ++ slurText stok
  (r.1, convertArticulations out stok, true)

/-- The method `convertNote(out, token)`. -/
def convertNote (lib : Convert) (c : HumdrumToLilypondConverter) (out : String)
    (token : TokenPtr) : HumdrumToLilypondConverter × String × Bool :=
  let out := out ++ c.m_indent
  let stok := lib.getSubtoken token.tok 0
  let pitch := lib.kernToBase40 stok
  let diatonic := lib.kernToDiatonicPC stok
  let out := out ++ diatonicName diatonic
  let accidental := lib.kernToAccidentalCount stok
  let out := out ++ accidentalName accidental
  let out := out ++ registerMark c.m_states.pitch pitch
  let c := if c.m_states.pitch ≠ pitch then { c with m_states := { c.m_states with pitch := pitch } }
    else c
  convertNoteRhythm lib c out stok

/-- The method `convertDataToken(out, token)`. -/
def convertDataToken (lib : Convert) (c : HumdrumToLilypondConverter) (out : String)
    (token : TokenPtr) : HumdrumToLilypondConverter × String × Bool :=
  if token.tok.isNull then (c, out, true)
  else if !token.tok.isData then (c, out, true)
  else if token.tok.isRest then convertRest lib c out token
  else if token.tok.isChord then convertChord c out token
  else convertNote lib c out token

/-- A decoder for the tokens of the examples: a quarter-note middle C (`4c`), a dotted eighth
D an octave higher (`8.dd`), a quarter rest (`4r`) and a triplet quarter F (`6f`). -/
def sampleConvert : Convert where
  getSubtoken t _ := t.text
  kernToBase40 stok :=
    if stok = "4c" then 162 else if stok = "8.dd" then 208 else if stok = "6f" then 179
    else -1000
  kernToDiatonicPC stok :=
    if stok = "4c" then 0 else if stok = "8.dd" then 1 else if stok = "6f" then 3 else -1000
  kernToAccidentalCount _ := 0
  recipToDuration stok :=
    if stok = "8.dd" then 3 / 4 else if stok = "6f" then 2 / 3 else 1
  recipToDurationNoDots stok :=
    if stok = "8.dd" then 1 / 2 else if stok = "6f" then 2 / 3 else 1

/-! ## Clefs and the traversal of a part -/

/-- The method `convertClef(out, token)`. -/
def convertClef (c : HumdrumToLilypondConverter) (out : String) (token : TokenPtr) :
    HumdrumToLilypondConverter × String × Bool :=
  let status := true
  if token.tok.text = "*clefG2" then (c, out ++ "\\clef \"treble\"", status)
  else if token.tok.text = "*clefF4" then (c, out ++ "\\clef \"bass\"", status)
  else if token.tok.text = "*clefC3" then (c, out ++ "\\clef \"alto\"", status)
  else if token.tok.text = "*clefGv2" then (c, out ++ "\\clef \"treble_8\"", status)
  else if token.tok.text = "*clefC4" then (c, out ++ "\\clef \"tenor\"", status)
  else if token.tok.text = "*clefX" then (c, out ++ "\\clef \"percussion\"", status)
  else if token.tok.text = "*clefC2" then (c, out ++ "\\clef mezzosoprano\"", status)
  else if token.tok.text = "*clefC5" then (c, out ++ "\\clef baritone\"", status)
  else if token.tok.text = "*clefG1" then (c, out ++ "\\clef french\"", status)
  else if token.tok.text = "*clefC1" then (c, out ++ "\\clef soprano\"", status)
  else if token.tok.text = "*clefF3" then (c, out ++ "\\clef varbaritone\"", status)
  else (addErrorMessage c ("Error: unknown clef: " ++ token.tok.text) (some token), out, status)

/-- The method `convertInterpretationToken(out, token)`. -/
def convertInterpretationToken (c : HumdrumToLilypondConverter) (out : String) (token : HTp) :
    HumdrumToLilypondConverter × String × Bool :=
  match token with
  | none => (c, out, true)
  | some p =>
    if p.tok.isClef then convertClef c (out ++ c.m_indent) p
    else if p.tok.isKeySignature then convertKeySignature c (out ++ c.m_indent) p
    else (c, out, true)

/-- The dispatch of `convertPartSegment` on the kind of its token (lines 587-599); the status
is that of `status &= convertDataToken(out, token)`. -/
def convertPartSegmentToken (lib : Convert) (c : HumdrumToLilypondConverter) (out : String)
    (token : TokenPtr) : HumdrumToLilypondConverter × String × Bool :=
  if token.tok.isNull then (c, out, true)
  else if token.tok.isData then
    let r := convertDataToken lib c out token
    (r.1, r.2.1 ++ "\t\t% " ++ token.tok.text ++ "\n", r.2.2)
  else if token.tok.isInterpretation then
    let r := convertInterpretationToken c out (some token)
    (r.1, r.2.1 ++ "\t\t% " ++ token.tok.text ++ "\n", true)
  else if token.tok.isBarline then (c, out ++ "\t\t% " ++ token.tok.text ++ "\n", true)
  else (c, out ++ "\t\t% " ++ token.tok.text ++ "\n", true)

/-- The method `convertPartSegment(out, token, endline)` for a non-NULL token, given as the
tokens before it, the token and the tokens after it; the recursive calls move to the next
token. -/
def convertPartSegmentFrom (lib : Convert) (endline : Nat) :
    List HumdrumToken → HumdrumToken → List HumdrumToken → HumdrumToLilypondConverter → String →
      HumdrumToLilypondConverter × String × Bool
  | before, tok, [], c, out =>
    if endline ≤ tok.lineIndex then (c, out, true)
    else convertPartSegmentToken lib c out { before := before, tok := tok, after := [] }
  | before, tok, next :: rest, c, out =>
    if endline ≤ tok.lineIndex then (c, out, true)
    else if tok.isExclusive then convertPartSegmentFrom lib endline (tok :: before) next rest c out
    else
      let r := convertPartSegmentToken lib c out
        { before := before, tok := tok, after := next :: rest }
      if r.2.2 = false then r
      else convertPartSegmentFrom lib endline (tok :: before) next rest r.1 r.2.1

/-- The method `convertPartSegment(out, token, endline)`. -/
def convertPartSegment (lib : Convert) (c : HumdrumToLilypondConverter) (out : String)
    (token : HTp) (endline : Nat) : HumdrumToLilypondConverter × String × Bool :=
  match token with
  | none => (c, out, false)
  | some p => convertPartSegmentFrom lib endline p.before p.tok p.after c out

/-- The method `getStartTokens(partindex, startline, endline)`: the tokens of the part's track
on the first line with spines among the lines `startline`, ..., `endline - 1`. -/
def getStartTokens (c : HumdrumToLilypondConverter) (partindex startline endline : Nat) :
    List TokenPtr :=
  match c.m_kernstarts[partindex]? with
  | none => []
  | some kernstart =>
    let targettrack := kernstart.tok.track
    match ((c.m_infile.lines.drop startline).take (endline - startline)).find?
        fun line => line.hasSpines with
    | none => []
    | some line => line.tokens.filter fun t => t.tok.track == targettrack

/-- The method `convertSegment(out, partindex, startline, endline)`. -/
def convertSegment (lib : Convert) (c : HumdrumToLilypondConverter) (out : String)
    (partindex startline endline : Nat) : HumdrumToLilypondConverter × String × Bool :=
  match getStartTokens c partindex startline endline with
  | [] => (c, out, false)
  | starttoken :: _ => convertPartSegment lib c out (some starttoken) endline

/-! ## Starting pitch of a segment -/

/-- The `while` loop of `getSegmentStartingPitch` over the current token and the tokens after
it. -/
def scanStartingPitch (lib : Convert) (endline : Nat) : List HumdrumToken → Int
  | [] => -99999
  | token :: rest =>
    if token.lineIndex < endline then
      if !token.isData then scanStartingPitch lib endline rest
      else if token.isNull then scanStartingPitch lib endline rest
      else if token.isRest then scanStartingPitch lib endline rest
      else lib.kernToBase40 token.text
    else -99999

/-- The method `getSegmentStartingPitch(partindex, startline, endline)`. -/
def getSegmentStartingPitch (lib : Convert) (c : HumdrumToLilypondConverter)
    (partindex startline endline : Nat) : Int :=
  match getStartTokens c partindex startline endline with
  | [] => -99999
  | token :: _ => scanStartingPitch lib endline (token.tok :: token.after)

/-- The loops `for (i=0; i<n; i++) out << mark` of `printRelativeStartingPitch`, with the
number of iterations left. -/
def printMarks (mark : String) : Nat → String → String
  | 0, out => out
  | n + 1, out => printMarks mark n (out ++ mark)

/-- The method `printRelativeStartingPitch(out, partindex, startline, endline)`: the stream and
the returned pitch. Division and remainder are those of C (truncation towards zero). -/
def printRelativeStartingPitch (lib : Convert) (c : HumdrumToLilypondConverter) (out : String)
    (partindex startline endline : Nat) : String × Int :=
  let pitch := getSegmentStartingPitch lib c partindex startline endline
  if pitch ≤ -1000 then (out, pitch)
  else
    let octave := Int.tdiv pitch 40
    let diatonic := Int.tmod pitch 40
    let octave := if diatonic > 19 then octave + 1 else octave
    let out := out ++ " \\relative c"
    let ocount := octave - 3
    let out :=
      if ocount > 0 then printMarks "'" ocount.toNat out
      else if ocount < 0 then printMarks "," (-ocount).toNat out
      else out
    (out, pitch)

/-! ## Segments -/

/-- The `for` loop of `extractSegments` over the lines from index `i` on: the segment
boundaries and the labels. -/
def extractSegmentsLoop :
    List HumdrumLine → Nat → Bool → List Nat → List String → List Nat × List String
  | [], _, _, segments, labels => (segments, labels)
  | line :: rest, i, beforeDataQ, segments, labels =>
    let beforeDataQ := if line.isData then false else beforeDataQ
    if !line.isInterpretation then extractSegmentsLoop rest (i + 1) beforeDataQ segments labels
    else if line.token0IsLabel then
      let label := String.mk (line.token0.toList.drop 2)
      let labels := labels ++ [label]
      let segments :=
        if !beforeDataQ && segments.length == 0 then segments ++ [0]
        else if beforeDataQ then segments ++ [0]
        else segments ++ [i]
      extractSegmentsLoop rest (i + 1) beforeDataQ segments labels
    else extractSegmentsLoop rest (i + 1) beforeDataQ segments labels

/-- The method `extractSegments()`. -/
def extractSegments (c : HumdrumToLilypondConverter) : HumdrumToLilypondConverter :=
  let r := extractSegmentsLoop c.m_infile.lines 0 true c.m_segments c.m_labels
  let segments := if r.1.length == 0 then r.1 ++ [0] else r.1
  let segments := segments ++ [c.m_infile.getLineCount]
  { c with m_segments := segments, m_labels := r.2 }

/-! ## Header and footer comments, error messages -/

/-- The inner loop of `printHeaderComments` and `printFooterComments` over the characters of
a line: every `!` met while `starting` holds is written as `%`. -/
def printCommentLine : List Char → Bool → String → String
  | [], _, out => out
  | ch :: rest, starting, out =>
    if starting && ch == '!' then printCommentLine rest starting (out ++ "%")
    else printCommentLine rest false (out.push ch)

/-- The outer loop of `printHeaderComments`: the number of copied lines and the stream. -/
def printHeaderCommentsLoop : List HumdrumLine → Int → String → Int × String
  | [], count, out => (count, out)
  | line :: rest, count, out =>
    if line.isData then (count, out)
    else if line.isBarline then (count, out)
    else if line.isInterpretation && !line.isExclusive then (count, out)
    else if line.hasSpines then printHeaderCommentsLoop rest count out
    else if line.token0.length = 0 then printHeaderCommentsLoop rest count out
    else
      printHeaderCommentsLoop rest (count + 1)
        (printCommentLine line.token0.toList true out ++ "\n")

/-- The method `printHeaderComments(out)`. -/
def printHeaderComments (c : HumdrumToLilypondConverter) (out : String) : String :=
  let r := printHeaderCommentsLoop c.m_infile.lines 0 out
  if r.1 ≠ 0 then r.2 ++ "\n" else r.2

/-- The loop of `printFooterComments` over the lines `lineCount - 1`, ..., `1` in that order:
the text collected in `tout`. -/
def printFooterCommentsLoop : List HumdrumLine → String → String
  | [], tout => tout
  | line :: rest, tout =>
    if line.isData then tout
    else if line.isBarline then tout
    else if line.isInterpretation && line.text != "*-" then tout
    else if line.hasSpines then printFooterCommentsLoop rest tout
    else if line.token0.length = 0 then printFooterCommentsLoop rest tout
    else printFooterCommentsLoop rest (printCommentLine line.token0.toList true tout ++ "\n")

/-- The method `printFooterComments(out)`; `count` is set to 0 and never changed by the loop. -/
def printFooterComments (c : HumdrumToLilypondConverter) (out : String) : String :=
  let count : Int := 0
  let tout := printFooterCommentsLoop (c.m_infile.lines.drop 1).reverse ""
  if count ≠ 0 then out ++ "\n" ++ tout else out

/-- The method `printHeader(tempout)`. -/
def printHeader (c : HumdrumToLilypondConverter) (tempout : String) : String :=
  tempout ++ "\\header \x7b\n" ++ c.m_indent ++ "tagline = \"\"\n" ++ "\x7d\n\n"

/-- The loop of `printErrorMessages` over the recorded messages. -/
def printErrorLines : List String → String → String
  | [], out => out
  | message :: rest, out => printErrorLines rest (out ++ "% " ++ message ++ "\n")

/-- The method `printErrorMessages(out)`. -/
def printErrorMessages (c : HumdrumToLilypondConverter) (out : String) : String :=
  let out := printErrorLines c.m_errors out
  if c.m_errors.length > 0 then out ++ "\n" else out

/-! ## Part names -/

/-- The `while` loop of `arabicToRomanNumeral` for one symbol, with a bound on the number of
iterations: the remaining value and the output. -/
def romanWhile (number : Int) (symbol : String) : Nat → Int → String → Int × String
  | 0, arabic, output => (arabic, output)
  | fuel + 1, arabic, output =>
    if arabic ≥ number then romanWhile number symbol fuel (arabic - number) (output ++ symbol)
    else (arabic, output)

/-- The `for` loop of `arabicToRomanNumeral` over the table of values and symbols. Every value
is at least 1, so `arabic` iterations suffice for each `while` loop. -/
def romanFor : List (Int × String) → Int → String → String
  | [], _, output => output
  | entry :: rest, arabic, output =>
    let r := romanWhile entry.1 entry.2 arabic.toNat arabic output
    romanFor rest r.1 r.2

/-- The method `arabicToRomanNumeral(arabic, casetype)`. -/
def arabicToRomanNumeral (arabic : Int) (casetype : Int) : String :=
  if arabic < 1 then ""
  else
    let numbers : List Int := [1000, 900, 500, 400, 100, 90, 50, 40, 10, 9, 5, 4, 1]
    let uc := ["M", "CM", "D", "CD", "C", "XC", "L", "XL", "X", "IX", "V", "IV", "I"]
    let lc := ["m", "cm", "d", "cd", "c", "xc", "l", "xl", "x", "ix", "v", "iv", "i"]
    romanFor (numbers.zip (if casetype ≠ 0 then uc else lc)) arabic ""

/-! ## Parts and the whole conversion -/

/-- The body of the `for` loop of `convertPart` for the segment index `i`, up to and including
the call of `convertSegment`: the converter, the stream and the status of the segment. -/
def convertPartIteration (lib : Convert) (partname : String) (partindex i : Nat)
    (c : HumdrumToLilypondConverter) (out : String) :
    HumdrumToLilypondConverter × String × Bool :=
  let segmentname := partname ++ "Z" ++ c.m_labels.getD i ""
  let c := { c with m_staffout := c.m_staffout ++ "\\" ++ segmentname ++ " " }
  let out := out ++ segmentname ++ " ="
  let r := printRelativeStartingPitch lib c out partindex (c.m_segments.getD i 0)
    (c.m_segments.getD (i + 1) 0)
  let c := { c with m_states := { c.m_states with pitch := r.2 } }
  let out := r.1 ++ " \x7b\n"
  convertSegment lib c out partindex (c.m_segments.getD i 0) (c.m_segments.getD (i + 1) 0)

/-- The `for` loop of `convertPart` over the segment indices still to do (labelled case): the
status is combined with that of the segment, a failure leaves the loop, otherwise the block is
closed and the loop goes on. -/
def convertPartLoop (lib : Convert) (partname : String) (partindex : Nat) :
    List Nat → HumdrumToLilypondConverter → String → Bool →
      HumdrumToLilypondConverter × String × Bool
  | [], c, out, status => (c, out, status)
  | i :: rest, c, out, status =>
    let s := convertPartIteration lib partname partindex i c out
    let status := status && s.2.2
    if !status then (s.1, s.2.1, status)
    else convertPartLoop lib partname partindex rest s.1 (s.2.1 ++ "\x7d\n\n") status

/-- The method `convertPart(out, partname, partindex)`. -/
def convertPart (lib : Convert) (c : HumdrumToLilypondConverter) (out : String)
    (partname : String) (partindex : Nat) : HumdrumToLilypondConverter × String × Bool :=
  let status := true
  let c := { c with m_states := StateVariables.clear }
  if c.m_labels.length > 0 then
    convertPartLoop lib partname partindex (List.range (c.m_segments.length - 1)) c out status
  else
    let segmentname := partname
    let out := out ++ segmentname ++ " ="
    let r := printRelativeStartingPitch lib c out partindex 0 c.m_infile.getLineCount
    let c := { c with m_states := { c.m_states with pitch := r.2 } }
    let out := r.1 ++ "\x7b\n"
    let s := convertSegment lib c out partindex 0 c.m_infile.getLineCount
    let status := status && s.2.2
    (s.1, s.2.1 ++ "\x7d\n\n", status)

/-- The loop of `convert` that fills `rkern`: `rkern[kernstarts[i]->getTrack()] = i`. -/
def rkernLoop : List TokenPtr → Nat → List Int → List Int
  | [], _, rkern => rkern
  | kernstart :: rest, i, rkern => rkernLoop rest (i + 1) (rkern.set kernstart.tok.track (i : Int))

/-- The body of the `for` loop of `convert` for the part index `i`, up to and including the
closing of the staff block: the converter, the stream `tempout` and the status of the part. -/
def convertIteration (lib : Convert) (i : Nat) (c : HumdrumToLilypondConverter)
    (tempout : String) : HumdrumToLilypondConverter × String × Bool :=
  let partname := "part" ++ arabicToRomanNumeral ((i : Int) + 1) 1
  let c := { c with m_staffout := c.m_staffout ++ partname ++ " = \\new Staff \x7b\n" ++ c.m_indent }
  let c := { c with m_scoreout := c.m_scoreout ++ c.m_indent ++ "\x7b \\" ++ partname ++ " \x7d\n" }
  let r := convertPart lib c tempout partname i
  let c := { r.1 with m_staffout := r.1.m_staffout ++ "\n\x7d\n\n" }
  (c, r.2.1, r.2.2)

/-- The `for` loop of `convert` over the part indices still to do; `tempout` is the stream
handed to `convertPart`. The status is combined with that of the part and a failure leaves the
loop. -/
def convertLoop (lib : Convert) :
    List Nat → HumdrumToLilypondConverter → String → Bool →
      HumdrumToLilypondConverter × String × Bool
  | [], c, tempout, status => (c, tempout, status)
  | i :: rest, c, tempout, status =>
    let r := convertIteration lib i c tempout
    let status := status && r.2.2
    if !status then (r.1, r.2.1, status)
    else convertLoop lib rest r.1 r.2.1 status

/-- The method `convert(out)`, run on the file held in `m_infile`. -/
def convert (lib : Convert) (c : HumdrumToLilypondConverter) (out : String) :
    HumdrumToLilypondConverter × String × Bool :=
  let tempout := ""
  let status := true
  let tempout := printHeaderComments c tempout
  let tempout := tempout ++ "\\version \"" ++ c.m_options.version ++ "\"\n\n"
  let tempout := printHeader c tempout
  let c := { c with m_kernstarts := c.m_infile.kernSpineStartList }
  if c.m_kernstarts.length = 0 then (c, out, status)
  else
    let c := { c with m_kernstarts := c.m_kernstarts.reverse }
    let c := { c with m_rkern := List.replicate (c.m_infile.spineCount + 1) (-1) }
    let c := { c with m_rkern := rkernLoop c.m_kernstarts 0 c.m_rkern }
    let c := extractSegments c
    let c := { c with m_scoreout := c.m_scoreout ++ "\\score \x7b\n" }
    let c := { c with m_scoreout := c.m_scoreout ++ c.m_indent ++ "<<\n" }
    let r := convertLoop lib (List.range c.m_kernstarts.length) c tempout status
    let c := r.1
    let tempout := r.2.1
    let status := r.2.2
    let c := { c with m_scoreout := c.m_scoreout ++ c.m_indent ++ ">>\n" }
    let c := { c with m_scoreout := c.m_scoreout ++ "\x7d\n" }
    let tempout := tempout ++ c.m_staffout
    let tempout := tempout ++ c.m_scoreout
    let tempout := printFooterComments c tempout
    let out := printErrorMessages c out
    let out := out ++ tempout
    (c, out, status)

/-- The method `convert(out, infile)`: the file is stored in `m_infile`, then converted. -/
def convertFile (lib : Convert) (c : HumdrumToLilypondConverter) (out : String)
    (infile : HumdrumFile) : HumdrumToLilypondConverter × String × Bool :=
  convert lib { c with m_infile := infile } out

/-! ## Example inputs -/

/-- The key-signature markers in circle-of-fifths order, sharps then flats (spec 4.4). -/
def sharpOrder : List String := ["f#", "c#", "g#", "d#", "a#", "e#", "b#"]

/-- The flat markers in circle-of-fifths order (spec 4.4). -/
def flatOrder : List String := ["b-", "e-", "a-", "d-", "g-", "c-", "f-"]

/-- The text of the standard key signature with `n` accidentals: the first `n` sharps for
`n ≥ 0`, the first `-n` flats for `n < 0`. -/
def standardKeySignature (n : Int) : String :=
  "*k[" ++ String.join (if 0 ≤ n then sharpOrder.take n.toNat else flatOrder.take (-n).toNat)
    ++ "]"

/-- Whether a list of marker flags, in circle-of-fifths order, is a prefix of that order: some
flags set, then none. -/
def isFifthsPrefix (flags : List Bool) : Bool := (flags.dropWhile fun b => b).all fun b => !b

/-- The exclusive interpretation that starts a part, on line 0. -/
def exclusiveToken : HumdrumToken :=
  { text := "**kern", isInterpretation := true, isExclusive := true }

/-- A key-signature token on line 1, at time 0. -/
def keySignatureToken (text : String) : HumdrumToken :=
  { text := text, lineIndex := 1, isInterpretation := true, isKeySignature := true }

/-- A key-designation token on line 2, at time 0. -/
def keyDesignationToken (text : String) : HumdrumToken :=
  { text := text, lineIndex := 2, isInterpretation := true, isKeyDesignation := true }

/-- A data token with the given text, line and time position. -/
def dataToken (text : String) (line : Nat) (time : ℚ) (rest : Bool) : HumdrumToken :=
  { text := text, lineIndex := line, durationFromStart := time, isData := true, isRest := rest }

/-- A part that consists of `**kern`, the key signature `keysig`, the key designation
`designation` and a quarter-note C, with the pointer on the key signature. -/
def keySignatureWithDesignation (keysig designation : String) : TokenPtr :=
  { before := [exclusiveToken], tok := keySignatureToken keysig,
    after := [keyDesignationToken designation, dataToken "4c" 3 0 false] }

/-- A part `**kern`, `4c`, `4r`, `8.dd` with the pointer on the quarter-note C. -/
def sampleNote : TokenPtr :=
  { before := [exclusiveToken], tok := dataToken "4c" 1 0 false,
    after := [dataToken "4r" 2 1 true, dataToken "8.dd" 3 2 false] }

/-- The same part with the pointer on the quarter rest. -/
def sampleRest : TokenPtr :=
  { before := [dataToken "4c" 1 0 false, exclusiveToken], tok := dataToken "4r" 2 1 true,
    after := [dataToken "8.dd" 3 2 false] }

/-- The same part with the pointer on the dotted eighth-note D. -/
def sampleHighNote : TokenPtr :=
  { before := [dataToken "4r" 2 1 true, dataToken "4c" 1 0 false, exclusiveToken],
    tok := dataToken "8.dd" 3 2 false, after := [] }

/-- A converter whose tracker holds the quarter-note middle C as last note. -/
def afterMiddleC : HumdrumToLilypondConverter :=
  { HumdrumToLilypondConverter.init with m_states := { duration := 1, dots := 0, pitch := 162 } }

/-- A part that consists of `**kern`, the key signature `keysig` and a quarter-note C, with the
pointer on the key signature. -/
def keySignatureAlone (keysig : String) : TokenPtr :=
  { before := [exclusiveToken], tok := keySignatureToken keysig,
    after := [dataToken "4c" 2 0 false] }

/-- The pointers to the tokens of a part, in order, given the tokens of the part that precede
them (nearest first). -/
def pointersFrom (before : List HumdrumToken) : List HumdrumToken → List TokenPtr
  | [] => []
  | t :: rest => { before := before, tok := t, after := rest } :: pointersFrom (t :: before) rest

/-- The line of a one-part score that holds the token of the pointer `p`. -/
def spineLine (p : TokenPtr) : HumdrumLine :=
  { text := p.tok.text, tokens := [p], isData := p.tok.isData,
    isInterpretation := p.tok.isInterpretation, isExclusive := p.tok.isExclusive,
    isBarline := p.tok.isBarline, hasSpines := true }

/-- A line without spines (a global comment or reference record) with the given text. -/
def globalLine (text : String) (line : Nat) : HumdrumLine :=
  { text := text, tokens := [{ before := [], tok := { text := text, lineIndex := line }, after := [] }] }

/-- A one-part score whose lines hold the given tokens, one per line. -/
def onePartFile (tokens : List HumdrumToken) : HumdrumFile :=
  { lines := (pointersFrom [] tokens).map spineLine,
    kernSpineStartList := (pointersFrom [] tokens).take 1, spineCount := 1 }

/-- A one-part score whose first line is the global comment `comment` and whose other lines
hold the given tokens. -/
def commentedFile (comment : String) (tokens : List HumdrumToken) : HumdrumFile :=
  { lines := globalLine comment 0 :: (pointersFrom [] tokens).map spineLine,
    kernSpineStartList := (pointersFrom [] tokens).take 1, spineCount := 1 }

/-- An interpretation token with the given text and line that is neither a clef nor a key
signature, such as the terminator `*-`. -/
def interpretationToken (text : String) (line : Nat) : HumdrumToken :=
  { text := text, lineIndex := line, isInterpretation := true }

/-- A label token such as `*>A`. -/
def labelToken (text : String) (line : Nat) : HumdrumToken :=
  { text := text, lineIndex := line, isInterpretation := true, isLabel := true }

/-- A clef token. -/
def clefToken (text : String) (line : Nat) : HumdrumToken :=
  { text := text, lineIndex := line, isInterpretation := true, isClef := true }

/-- A chord token. -/
def chordToken (text : String) (line : Nat) (time : ℚ) : HumdrumToken :=
  { text := text, lineIndex := line, durationFromStart := time, isData := true, isChord := true }

/-- The exclusive interpretation `**kern` on the given line. -/
def kernToken (line : Nat) : HumdrumToken :=
  { text := "**kern", lineIndex := line, isInterpretation := true, isExclusive := true }

/-- The converter as constructed, holding the given file. -/
def converterFor (infile : HumdrumFile) : HumdrumToLilypondConverter :=
  { HumdrumToLilypondConverter.init with m_infile := infile }

/-- A part with two labels: `**kern`, `*>A`, `4c`, `*>B`, `4r`. -/
def twoLabelFile : HumdrumFile :=
  onePartFile [kernToken 0, labelToken "*>A" 1, dataToken "4c" 2 0 false, labelToken "*>B" 3,
    dataToken "4r" 4 1 true]

/-- A part whose only label follows a note: `**kern`, `4c`, `*>A`, `4r`. -/
def lateLabelFile : HumdrumFile :=
  onePartFile [kernToken 0, dataToken "4c" 1 0 false, labelToken "*>A" 2, dataToken "4r" 3 1 true]

/-- A part with two labels before its first note: `**kern`, `*>A`, `*>B`, `4c`. -/
def earlyLabelsFile : HumdrumFile :=
  onePartFile [kernToken 0, labelToken "*>A" 1, labelToken "*>B" 2, dataToken "4c" 3 0 false]

/-! ## Notions used in the statements -/

/-- A label line: an interpretation line whose first token is a label (spec 4.1). -/
def isLabelLine (line : HumdrumLine) : Bool := line.isInterpretation && line.token0IsLabel

/-- The name of the segment opened by a label line: the text of the label token without its
first two characters (spec 4.1). -/
def labelName (line : HumdrumLine) : String := String.mk (line.token0.toList.drop 2)

/-- The lines that precede the first data line. -/
def linesBeforeData (lines : List HumdrumLine) : List HumdrumLine :=
  lines.takeWhile fun line => !line.isData

/-- A line that ends the header comments: a data line, a barline or a non-exclusive
interpretation line (spec 4.8). -/
def endsHeader (line : HumdrumLine) : Bool :=
  line.isData || line.isBarline || (line.isInterpretation && !line.isExclusive)

/-- The texts of the header comment lines: the non-empty lines without spines that precede
the first line ending the header (spec 4.8). -/
def headerCommentTexts (lines : List HumdrumLine) : List String :=
  ((lines.takeWhile fun line => !endsHeader line).filter
    fun line => !line.hasSpines && !(line.token0.length == 0)).map HumdrumLine.token0

/-- The number of `!` characters at the start of a text. -/
def leadingMarkers (text : String) : Nat := (text.toList.takeWhile fun ch => ch == '!').length

/-- A text with each of its leading `!` characters replaced by `%`. -/
def percentLine (text : String) : String :=
  String.mk (List.replicate (leadingMarkers text) '%' ++ text.toList.drop (leadingMarkers text))

/-- The concatenation of a list of texts, each followed by a line break. -/
def joinLines : List String → String
  | [] => ""
  | text :: rest => text ++ "\n" ++ joinLines rest

/-- A file whose first line is the reference record `!!!COM: Bach`, followed by the part
`**kern`, `*clefQ` (an unknown clef), `*-`. -/
def bachFile : HumdrumFile :=
  commentedFile "!!!COM: Bach"
    [kernToken 1, clefToken "*clefQ" 2, interpretationToken "*-" 3]

/-- A sounding token: a data token that is neither null nor a rest (spec 4.7). -/
def isSounding (t : HumdrumToken) : Bool := t.isData && !t.isNull && !t.isRest

/-- The tokens of a part from the start token of a segment on; empty when the segment has no
start token. -/
def segmentStream (c : HumdrumToLilypondConverter) (partindex startline endline : Nat) :
    List HumdrumToken :=
  match getStartTokens c partindex startline endline with
  | [] => []
  | token :: _ => token.tok :: token.after

/-- The first sounding token among the tokens of a stream that come before the first token at
or after the line `endline` (spec 4.7). -/
def firstSoundingToken (endline : Nat) (stream : List HumdrumToken) : Option HumdrumToken :=
  (stream.takeWhile fun t => t.lineIndex < endline).find? isSounding

/-- The text `mark` repeated `n` times. -/
def repeatText (mark : String) : Nat → String
  | 0 => ""
  | n + 1 => mark ++ repeatText mark n

/-- A converter holding the given file after the part list has been set up as in `convert`:
`m_kernstarts` is the reversed list of `**kern` spine starts. -/
def readyConverter (infile : HumdrumFile) : HumdrumToLilypondConverter :=
  { HumdrumToLilypondConverter.init with
    m_infile := infile, m_kernstarts := infile.kernSpineStartList.reverse }

/-- A part without labels: `**kern`, `4r`, `4c`, `8.dd`. -/
def restNoteFile : HumdrumFile :=
  onePartFile [kernToken 0, dataToken "4r" 1 0 true, dataToken "4c" 2 1 false,
    dataToken "8.dd" 3 2 false]

/-- A token that `convertDataToken` hands to `convertChord`: a data token that is not null,
not a rest, and a chord. -/
def isRenderedChord (t : HumdrumToken) : Bool := t.isData && !t.isNull && !t.isRest && t.isChord

/-- A token that the traversal passes over without rendering: an exclusive interpretation that
has a next token. -/
def isPassedOver (p : TokenPtr) : Bool := p.tok.isExclusive && !p.after.isEmpty

/-- The pointers that the traversal of a segment hands to the dispatch, in order: the tokens
from the start token up to the first one at or after the line `endline`, without those passed
over. -/
def visitedPointers (endline : Nat) (before : List HumdrumToken) (tok : HumdrumToken)
    (after : List HumdrumToken) : List TokenPtr :=
  ((pointersFrom before (tok :: after)).takeWhile fun p => p.tok.lineIndex < endline).filter
    fun p => !isPassedOver p

/-- The dispatch of `convertPartSegment` applied to every pointer of a list in turn. -/
def renderAll (lib : Convert) :
    List TokenPtr → HumdrumToLilypondConverter → String → HumdrumToLilypondConverter × String
  | [], c, out => (c, out)
  | p :: rest, c, out =>
    renderAll lib rest (convertPartSegmentToken lib c out p).1
      (convertPartSegmentToken lib c out p).2.1

/-- The dispatch of `convertPartSegment` applied to the pointers of a list in turn, stopping
after the first one with a false status. -/
def renderUntilFailure (lib : Convert) :
    List TokenPtr → HumdrumToLilypondConverter → String →
      HumdrumToLilypondConverter × String × Bool
  | [], c, out => (c, out, true)
  | p :: rest, c, out =>
    if (convertPartSegmentToken lib c out p).2.2 = false then convertPartSegmentToken lib c out p
    else
      renderUntilFailure lib rest (convertPartSegmentToken lib c out p).1
        (convertPartSegmentToken lib c out p).2.1

/-- The members of the converter that the traversal only reads: the file, the part list, the
segment boundaries and the labels. -/
def inputOf (c : HumdrumToLilypondConverter) :
    HumdrumFile × List TokenPtr × List Nat × List String :=
  (c.m_infile, c.m_kernstarts, c.m_segments, c.m_labels)

/-- A segment of a part converts without failure: it has a start token and its traversal
meets no rendered chord. -/
def segmentOk (c : HumdrumToLilypondConverter) (partindex startline endline : Nat) : Bool :=
  match getStartTokens c partindex startline endline with
  | [] => false
  | token :: _ =>
    !(visitedPointers endline token.before token.tok token.after).any
      fun p => isRenderedChord p.tok

/-- A part converts without failure: each of its segments does (the single segment
`[0, lineCount)` when there are no labels). -/
def partOk (c : HumdrumToLilypondConverter) (partindex : Nat) : Bool :=
  if c.m_labels.length > 0 then
    (List.range (c.m_segments.length - 1)).all fun i =>
      segmentOk c partindex (c.m_segments.getD i 0) (c.m_segments.getD (i + 1) 0)
  else segmentOk c partindex 0 c.m_infile.getLineCount

/-- The pointer to `**kern` in the part `**kern`, `*clefQ`, `*-` of `bachFile`. -/
def bachPart : TokenPtr :=
  { before := [], tok := kernToken 1,
    after := [clefToken "*clefQ" 2, interpretationToken "*-" 3] }

/-- A part whose first data token is a chord: `**kern`, `4c 4e`, `4r`. -/
def chordFile : HumdrumFile :=
  onePartFile [kernToken 0, chordToken "4c 4e" 1 0, dataToken "4r" 2 1 true]

/-- The pointer to `**kern` in the part of `chordFile`. -/
def chordPart : TokenPtr :=
  { before := [], tok := kernToken 0,
    after := [chordToken "4c 4e" 1 0, dataToken "4r" 2 1 true] }

/-- The pointer to the chord in the part of `chordFile`. -/
def chordPointer : TokenPtr :=
  { before := [kernToken 0], tok := chordToken "4c 4e" 1 0, after := [dataToken "4r" 2 1 true] }

/-- The converter as `convert` has set it up when it enters the loop over the parts (lines
197-218): the reversed part list, the track table, the segments and the opening of the score
block. -/
def preparedConverter (c : HumdrumToLilypondConverter) : HumdrumToLilypondConverter :=
  let c := { c with m_kernstarts := c.m_infile.kernSpineStartList.reverse }
  let c := { c with
    m_rkern := rkernLoop c.m_kernstarts 0 (List.replicate (c.m_infile.spineCount + 1) (-1)) }
  let c := extractSegments c
  { c with m_scoreout := c.m_scoreout ++ "\\score \x7b\n" ++ c.m_indent ++ "<<\n" }

/-- A part followed by a reference record: `**kern`, `4c`, `*-`, `!!!ONB: end`. -/
def footerFile : HumdrumFile :=
  { lines := (pointersFrom []
      [kernToken 0, dataToken "4c" 1 0 false, interpretationToken "*-" 2]).map spineLine ++
        [globalLine "!!!ONB: end" 3],
    kernSpineStartList := (pointersFrom []
      [kernToken 0, dataToken "4c" 1 0 false, interpretationToken "*-" 2]).take 1,
    spineCount := 1 }

/-- A part with one label and no notes: `**kern`, `*>A`, `*clefG2`, `*-`. -/
def labelledFile : HumdrumFile :=
  onePartFile [kernToken 0, labelToken "*>A" 1, clefToken "*clefG2" 2, interpretationToken "*-" 3]

/-- A null data token `.` after the quarter-note C of a part `**kern`, `4c`, `.`. -/
def sampleNull : TokenPtr :=
  { before := [dataToken "4c" 1 0 false, exclusiveToken],
    tok := { text := ".", lineIndex := 2, durationFromStart := 1, isData := true, isNull := true },
    after := [] }

/-- The spelling of one character of a key designation: `is` for `#`, `es` for `-`, the
lower-cased character otherwise (spec 4.4). -/
def spellLetter (letter : Char) : String :=
  if letter = '#' then "is" else if letter = '-' then "es" else String.singleton letter.toLower

/-- The concatenation of a list of texts. -/
def concatTexts : List String → String
  | [] => ""
  | text :: rest => text ++ concatTexts rest

/-- The tonic spelled from a designation as the spec words it: the spellings of the characters
from index 1 up to, not including, the first `:`. -/
def spelledTonic (designation : String) : String :=
  concatTexts (((designation.toList.drop 1).takeWhile fun letter => letter != ':').map spellLetter)

/-- The nearest key designation in one direction as the spec words it: the first key
designation among the tokens met before the first one that has another time position or is a
data token. -/
def nearestDesignation (timestamp : ℚ) (stream : List HumdrumToken) : Option HumdrumToken :=
  (stream.takeWhile fun t => decide (t.durationFromStart = timestamp) && !t.isData).find?
    fun t => t.isKeyDesignation

/-- A key signature between two key designations at the same time position: `**kern`, `*C:`,
`*k[]`, `*G:`, `4c`, with the pointer on the key signature. -/
def designationOnBothSides : TokenPtr :=
  { before := [keyDesignationToken "*C:", exclusiveToken], tok := keySignatureToken "*k[]",
    after := [keyDesignationToken "*G:", dataToken "4c" 3 0 false] }

/-- A key signature whose only key designation precedes it: `**kern`, `*C:`, `*k[]`, `4c`,
with the pointer on the key signature. -/
def designationBefore : TokenPtr :=
  { before := [keyDesignationToken "*C:", exclusiveToken], tok := keySignatureToken "*k[]",
    after := [dataToken "4c" 3 0 false] }

/-- The modes other than major and ionian with the offset `k` of spec 4.4: the table of the
mode at `n` accidentals is that of major at `n + k`. -/
def modeOffsets : List (String × Int) :=
  [("lydian", -1), ("mixolydian", 1), ("dorian", 2), ("minor", 3), ("aeolian", 3),
   ("phrygian", 4), ("locrian", 5)]

/-- The nine mode names of the tables. -/
def modeNames : List String :=
  ["major", "ionian", "minor", "aeolian", "dorian", "phrygian", "lydian", "mixolydian", "locrian"]

/-- The accidental counts of the tables. -/
def accidentalCounts : List Int := [-7, -6, -5, -4, -3, -2, -1, 0, 1, 2, 3, 4, 5, 6, 7]

/-- The tonics that the blocks of lines 762-998 accept for a mode and an accidental count,
read off `keyBlocks`. -/
def acceptedTonics (mode : String) (accids : Int) : List String :=
  (keyBlocks.filter fun block => block.1.contains mode).flatMap fun block =>
    (block.2.filter fun entry => accids == entry.1).map fun entry => entry.2

/-- The converter `d` differs from `c` at most in the tracker and in error records added at
the end of `m_errors`. -/
def tracksOnly (c d : HumdrumToLilypondConverter) : Prop :=
  ∃ (states : StateVariables) (errors : List String),
    d = { c with m_states := states, m_errors := c.m_errors ++ errors }

/-- The converter `d` differs from `c` at most in the tracker, in error records added at the
end of `m_errors` and in text added at the end of the staff buffer. -/
def writesStaff (c d : HumdrumToLilypondConverter) : Prop :=
  ∃ (states : StateVariables) (errors : List String) (staff : String),
    d = { c with
          m_states := states, m_errors := c.m_errors ++ errors,
          m_staffout := c.m_staffout ++ staff }

/-- The converter `d` differs from `c` at most in the tracker, in error records added at the
end of `m_errors`, in text added at the end of the staff buffer and in the text `score` added
at the end of the score buffer. -/
def writesScore (c d : HumdrumToLilypondConverter) (score : String) : Prop :=
  ∃ (states : StateVariables) (errors : List String) (staff : String),
    d = { c with
          m_states := states, m_errors := c.m_errors ++ errors,
          m_staffout := c.m_staffout ++ staff, m_scoreout := c.m_scoreout ++ score }

/-- The name that `convert` gives to the part with index `i`: `part` and the upper-case Roman
numeral of `i + 1`. -/
def partName (i : Nat) : String := "part" ++ arabicToRomanNumeral ((i : Int) + 1) 1

/-- The lines of the score block that refer to the parts with the given indices, in order. -/
def scoreLines (indent : String) (indices : List Nat) : String :=
  concatTexts (indices.map fun i => indent ++ "\x7b \\" ++ partName i ++ " \x7d\n")

/-- The tokens `**kern`, `*-` of a part on the given track and field. -/
def emptyPart (track field : Nat) : List HumdrumToken :=
  [{ text := "**kern", fieldIndex := field, track := track, isInterpretation := true,
     isExclusive := true },
   { text := "*-", lineIndex := 1, fieldIndex := field, track := track,
     isInterpretation := true }]

/-- A score with two parts, on the tracks 1 and 2, each `**kern`, `*-`. -/
def twoPartFile : HumdrumFile :=
  { lines := List.zipWith
      (fun p q =>
        { text := p.tok.text ++ "\t" ++ q.tok.text, tokens := [p, q], isInterpretation := true,
          isExclusive := p.tok.isExclusive, hasSpines := true })
      (pointersFrom [] (emptyPart 1 0)) (pointersFrom [] (emptyPart 2 1)),
    kernSpineStartList :=
      (pointersFrom [] (emptyPart 1 0)).take 1 ++ (pointersFrom [] (emptyPart 2 1)).take 1,
    spineCount := 2 }

/-- The converter as `convertPart` hands it to `convertSegment` (lines 422-425 and 434-437): the
tracked pitch is the pitch returned by `printRelativeStartingPitch` for the segment. -/
def seededConverter (lib : Convert) (c : HumdrumToLilypondConverter) (out : String)
    (partindex startline endline : Nat) : HumdrumToLilypondConverter :=
  { c with
    m_states :=
      { c.m_states with
        pitch := (printRelativeStartingPitch lib c out partindex startline endline).2 } }

/-- The pointer to `**kern` in the part of `restNoteFile`. -/
def restNoteStart : TokenPtr :=
  { before := [], tok := kernToken 0,
    after := [dataToken "4r" 1 0 true, dataToken "4c" 2 1 false, dataToken "8.dd" 3 2 false] }

/-- The pointer to the quarter rest in the part of `restNoteFile`. -/
def restNoteRest : TokenPtr :=
  { before := [kernToken 0], tok := dataToken "4r" 1 0 true,
    after := [dataToken "4c" 2 1 false, dataToken "8.dd" 3 2 false] }

/-- The pointer to the quarter-note C in the part of `restNoteFile`. -/
def restNoteNote : TokenPtr :=
  { before := [dataToken "4r" 1 0 true, kernToken 0], tok := dataToken "4c" 2 1 false,
    after := [dataToken "8.dd" 3 2 false] }

/-- The pointer to the dotted eighth-note D in the part of `restNoteFile`. -/
def restNoteLast : TokenPtr :=
  { before := [dataToken "4c" 2 1 false, dataToken "4r" 1 0 true, kernToken 0],
    tok := dataToken "8.dd" 3 2 false, after := [] }

/-- The pointer to a clef token with the given text, on line 1 of a part that starts with
`**kern`. -/
def clefPointer (text : String) : TokenPtr :=
  { before := [kernToken 0], tok := clefToken text 1, after := [] }

/-- The values and upper-case symbols of `arabicToRomanNumeral`, paired in the order of the
vectors `numbers` and `uc` (lines 1309-1310). -/
def romanTable : List (Int × String) :=
  [(1000, "M"), (900, "CM"), (500, "D"), (400, "CD"), (100, "C"), (90, "XC"), (50, "L"),
   (40, "XL"), (10, "X"), (9, "IX"), (5, "V"), (4, "IV"), (1, "I")]

/-- The value of a Roman letter; 0 for any other character. -/
def letterValue (letter : Char) : Int :=
  if letter = 'M' then 1000
  else if letter = 'D' then 500
  else if letter = 'C' then 100
  else if letter = 'L' then 50
  else if letter = 'X' then 10
  else if letter = 'V' then 5
  else if letter = 'I' then 1
  else 0

/-- The number written by a list of letter values, read in the usual way: a value that stands
before a larger one is subtracted, every other value is added. -/
def decodeValues : List Int → Int
  | [] => 0
  | [a] => a
  | a :: b :: rest => if a < b then decodeValues (b :: rest) - a else a + decodeValues (b :: rest)

/-- The number written by a text of Roman letters. -/
def romanValue (text : String) : Int := decodeValues (text.toList.map letterValue)

/-- A token that `convertDataToken` renders as a note or as a rest: a data token that is not
null and is a rest or not a chord. -/
def isTimed (t : HumdrumToken) : Bool := t.isData && !t.isNull && (t.isRest || !t.isChord)

/-- The pointer to the label `*>B` in the part of `twoLabelFile`. -/
def twoLabelSecond : TokenPtr :=
  { before := [dataToken "4c" 2 0 false, labelToken "*>A" 1, kernToken 0],
    tok := labelToken "*>B" 3, after := [dataToken "4r" 4 1 true] }

/-- The pointer to the quarter rest in the part of `twoLabelFile`. -/
def twoLabelRest : TokenPtr :=
  { before := [labelToken "*>B" 3, dataToken "4c" 2 0 false, labelToken "*>A" 1, kernToken 0],
    tok := dataToken "4r" 4 1 true, after := [] }

/-! ## Lemmas on `find` -/

theorem npos_ne_zero : npos ≠ 0 := by decide

theorem findAux_ne_zero (pat : List Char) (s : List Char) (i : Nat) (hi : 0 < i) :
    findAux pat s i ≠ 0 := by
  induction s generalizing i with
  | nil =>
    simp only [findAux]
    split
    · exact Nat.pos_iff_ne_zero.mp hi
    · exact npos_ne_zero
  | cons c cs ih =>
    simp only [findAux]
    split
    · exact Nat.pos_iff_ne_zero.mp hi
    · exact ih (i + 1) (Nat.succ_pos i)

/-- A search for `dor` in a text that starts with `*` never returns position zero. -/
theorem find_dor_ne_zero (rest : List Char) : find (String.mk ('*' :: rest)) "dor" ≠ 0 := by
  have h : find (String.mk ('*' :: rest)) "dor" = findAux ['d', 'o', 'r'] rest 1 := by
    simp [find, findAux, List.isPrefixOf]
  rw [h]
  exact findAux_ne_zero _ _ _ Nat.one_pos

/-- For every designation text that starts with `*`, as every interpretation token does, the
mode chosen by `convertKeySignature` is `dorian`. -/
theorem designationMode_of_star (rest : List Char) :
    designationMode (String.mk ('*' :: rest)) = "dorian" := by
  have h := find_dor_ne_zero rest
  simp [designationMode, h]

/-! ## Key signatures: theorems -/

theorem tokenAccids_standardKeySignature (n : Int) (hlo : -7 ≤ n) (hhi : n ≤ 7) :
    tokenAccids (standardKeySignature n) = some n := by
  interval_cases n <;> decide

theorem keyBlocksAccept_major_defaultTonic (n : Int) (hlo : -7 ≤ n) (hhi : n ≤ 7) :
    keyBlocksAccept "major" n (defaultTonic n) = true := by
  interval_cases n <;> decide

theorem keyAccids_sharps_irregular (fs cs gs ds as es bs : Bool)
    (h : isFifthsPrefix [fs, cs, gs, ds, as, es, bs] = false) :
    keyAccids fs cs gs ds as es bs false false false false false false false = none := by
  revert fs cs gs ds as es bs
  decide

theorem keyAccids_flats_irregular (bb eb ab db gb cb fb : Bool)
    (h : isFifthsPrefix [bb, eb, ab, db, gb, cb, fb] = false) :
    keyAccids false false false false false false false bb eb ab db gb cb fb = none := by
  revert bb eb ab db gb cb fb
  decide

/-- C1 (code defect). The key signature without accidentals together with the co-located
designation `*C:` (C major, the canonical tonic of major for 0 accidentals) emits no `\key`
text and records an unknown-key-signature error: the mode is resolved to `dorian`. -/
theorem convertKeySignature_C_major_rejected :
    convertKeySignature HumdrumToLilypondConverter.init ""
        (keySignatureWithDesignation "*k[]" "*C:")
      = ({ HumdrumToLilypondConverter.init with
            m_errors := ["Error: Unknown key signatue *k[] in combination with the key *C:",
              "\tLine:  2", "\tField: 1"] }, "", true) := by
  decide

/-- C2 (code defect). The designations `*C:` (no mode fragment, upper-case tonic), `*c:` (no
mode fragment, lower-case tonic), `*G:mix` and `*e:phr` are all given the mode `dorian`, and
only a text that begins with `dor` escapes the first test of the chain. -/
theorem designationMode_always_dorian :
    designationMode "*C:" = "dorian" ∧ designationMode "*c:" = "dorian"
      ∧ designationMode "*G:mix" = "dorian" ∧ designationMode "*e:phr" = "dorian"
      ∧ designationMode "dor:phr" = "phrygian" := by
  decide

/-- C3. For every accidental count `n` in `[-7,7]`, the standard key signature with `n`
accidentals and no co-located designation emits exactly `\key T \major`, with `T` the
canonical major tonic for `n`, leaves the converter (and so its error list) unchanged and
returns true. -/
theorem convertKeySignature_no_designation (c : HumdrumToLilypondConverter) (out : String)
    (token : TokenPtr) (n : Int) (hlo : -7 ≤ n) (hhi : n ≤ 7)
    (htext : token.tok.text = standardKeySignature n)
    (hnone : getKeyDesignation (some token) = none) :
    convertKeySignature c out token
      = (c, out ++ "\\key "
            ++ (["ces", "ges", "des", "aes", "ees", "bes", "f", "c", "g", "d", "a", "e", "b",
                  "fis", "cis"].getD (n + 7).toNat "")
            ++ " \\major", true) := by
  have htab : defaultTonic n
      = (["ces", "ges", "des", "aes", "ees", "bes", "f", "c", "g", "d", "a", "e", "b",
            "fis", "cis"].getD (n + 7).toNat "") := by
    interval_cases n <;> decide
  simp only [convertKeySignature, htext, tokenAccids_standardKeySignature n hlo hhi, hnone,
    keyBlocksAccept_major_defaultTonic n hlo hhi, if_true]
  rw [htab, String.append_assoc _ " \\" "major"]
  rfl

/-- Witness of C3: three sharps, no designation. -/
theorem convertKeySignature_no_designation_witness :
    convertKeySignature HumdrumToLilypondConverter.init "" (keySignatureAlone "*k[f#c#g#]")
      = (HumdrumToLilypondConverter.init, "" ++ "\\key " ++ "a" ++ " \\major", true) :=
  convertKeySignature_no_designation HumdrumToLilypondConverter.init ""
    (keySignatureAlone "*k[f#c#g#]") 3 (by decide) (by decide) (by decide) (by decide)

/-- C4. A key-signature token whose markers all belong to one family (only sharps, or only
flats) and do not form a prefix of the circle-of-fifths order of that family appends the
message `Error: non-standard key signature: <token>`, followed by its line and field entries,
to the error list, writes nothing to the stream and returns true. -/
theorem convertKeySignature_irregular (c : HumdrumToLilypondConverter) (out : String)
    (token : TokenPtr)
    (h : ((flatOrder.map fun m => find token.tok.text m != npos) = List.replicate 7 false
          ∧ isFifthsPrefix (sharpOrder.map fun m => find token.tok.text m != npos) = false)
        ∨ ((sharpOrder.map fun m => find token.tok.text m != npos) = List.replicate 7 false
          ∧ isFifthsPrefix (flatOrder.map fun m => find token.tok.text m != npos) = false)) :
    convertKeySignature c out token
      = ({ c with
            m_errors := c.m_errors
              ++ ["Error: non-standard key signature: " ++ token.tok.text,
                  "\tLine:  " ++ toString ((token.tok.lineIndex : Int) + 1),
                  "\tField: " ++ toString ((token.tok.fieldIndex : Int) + 1)] },
          out, true) := by
  have hacc : tokenAccids token.tok.text = none := by
    rcases h with ⟨hf, hs⟩ | ⟨hs, hf⟩
    · simp only [flatOrder, List.map, List.replicate, List.cons.injEq, and_true] at hf
      obtain ⟨h1, h2, h3, h4, h5, h6, h7⟩ := hf
      simp only [tokenAccids, h1, h2, h3, h4, h5, h6, h7]
      exact keyAccids_sharps_irregular _ _ _ _ _ _ _ hs
    · simp only [sharpOrder, List.map, List.replicate, List.cons.injEq, and_true] at hs
      obtain ⟨h1, h2, h3, h4, h5, h6, h7⟩ := hs
      simp only [tokenAccids, h1, h2, h3, h4, h5, h6, h7]
      exact keyAccids_flats_irregular _ _ _ _ _ _ _ hf
  simp [convertKeySignature, hacc, addErrorMessage, HumdrumToken.getLineNumber,
    HumdrumToken.getFieldNumber]

/-- Witness of C4: `f#` and `g#` without `c#`. -/
theorem convertKeySignature_irregular_witness :
    convertKeySignature HumdrumToLilypondConverter.init "" (keySignatureAlone "*k[f#g#]")
      = ({ HumdrumToLilypondConverter.init with
            m_errors := HumdrumToLilypondConverter.init.m_errors
              ++ ["Error: non-standard key signature: " ++ (keySignatureAlone "*k[f#g#]").tok.text,
                  "\tLine:  " ++ toString (((keySignatureAlone "*k[f#g#]").tok.lineIndex : Int) + 1),
                  "\tField: "
                    ++ toString (((keySignatureAlone "*k[f#g#]").tok.fieldIndex : Int) + 1)] },
          "", true) :=
  convertKeySignature_irregular HumdrumToLilypondConverter.init ""
    (keySignatureAlone "*k[f#g#]") (by decide)

/-- C5 (code defect). The key signature `*k[f#b-]`, which mixes a sharp and a flat, is taken
for the one-sharp signature: it emits `\key g \major` and records no error. -/
theorem convertKeySignature_mixed_accepted :
    convertKeySignature HumdrumToLilypondConverter.init "" (keySignatureAlone "*k[f#b-]")
      = (HumdrumToLilypondConverter.init, "\\key g \\major", true) := by
  decide

theorem printDots_eq (n : Nat) (out : String) :
    printDots n out = out ++ String.mk (List.replicate n '.') := by
  induction n generalizing out with
  | zero => simp [printDots]
  | succ k ih =>
    rw [printDots, ih, String.append_assoc]
    rfl

/-- The number written by `convertDuration` has denominator one exactly when the numerator of
the undotted duration divides 4. -/
theorem scaled_den_eq_one_iff (d : ℚ) (hpos : 0 < d) :
    (((d.den : ℤ) : ℚ) / (d.num : ℚ) * 4).den = 1 ↔ d.num ∣ 4 := by
  have hnum : 0 < d.num := Rat.num_pos.mpr hpos
  have hne : d.num ≠ 0 := ne_of_gt hnum
  have hrw : (((d.den : ℤ) : ℚ) / (d.num : ℚ) * 4) = (((4 * (d.den : ℤ) : ℤ) : ℚ) / (d.num : ℚ)) := by
    push_cast
    ring
  rw [hrw, Rat.den_div_intCast_eq_one_iff _ _ hne]
  have hcop : IsCoprime d.num (d.den : ℤ) := by
    rw [Int.isCoprime_iff_gcd_eq_one, Int.gcd_eq_natAbs, Int.natAbs_ofNat]
    exact d.reduced
  constructor
  · intro h
    exact hcop.dvd_of_dvd_mul_right h
  · intro h
    exact Dvd.dvd.mul_right h _

/-- The value of the number written by `convertDuration` when it is an integer. -/
theorem scaled_num_eq (d : ℚ) (hpos : 0 < d) (hdvd : d.num ∣ 4) :
    (((d.den : ℤ) : ℚ) / (d.num : ℚ) * 4).num = 4 * (d.den : ℤ) / d.num := by
  have hnum : 0 < d.num := Rat.num_pos.mpr hpos
  have hne : d.num ≠ 0 := ne_of_gt hnum
  obtain ⟨k, hk⟩ := hdvd
  have hq : (d.num : ℚ) ≠ 0 := by exact_mod_cast hne
  have hrw : (((d.den : ℤ) : ℚ) / (d.num : ℚ) * 4) = ((((d.den : ℤ) * k : ℤ)) : ℚ) := by
    have h4 : (4 : ℚ) = (d.num : ℚ) * (k : ℚ) := by exact_mod_cast hk
    rw [h4]
    push_cast
    field_simp
    ring
  rw [hrw, Rat.num_intCast, hk]
  rw [show d.num * k * (d.den : ℤ) = d.num * ((d.den : ℤ) * k) by ring]
  exact (Int.mul_ediv_cancel_left _ hne).symm

theorem convertDuration_errors (c : HumdrumToLilypondConverter) (out : String)
    (duration durationnodots : ℚ) (dots : Int) :
    (convertDuration c out duration durationnodots dots).1.m_errors = c.m_errors := by
  unfold convertDuration
  simp only
  split <;> rfl

theorem convertDuration_states (c : HumdrumToLilypondConverter) (out : String)
    (duration durationnodots : ℚ) (dots : Int) :
    (convertDuration c out duration durationnodots dots).1.m_states
      = { duration := duration, dots := dots, pitch := c.m_states.pitch } := by
  unfold convertDuration
  simp only
  split <;> rfl

theorem convertDuration_indent (c : HumdrumToLilypondConverter) (out : String)
    (duration durationnodots : ℚ) (dots : Int) :
    (convertDuration c out duration durationnodots dots).1.m_indent = c.m_indent := by
  unfold convertDuration
  simp only
  split <;> rfl

theorem convertNoteRhythm_pitch (lib : Convert) (c : HumdrumToLilypondConverter) (out : String)
    (stok : String) :
    (convertNoteRhythm lib c out stok).1.m_states.pitch = c.m_states.pitch := by
  unfold convertNoteRhythm
  simp only
  split
  · rw [convertDuration_states]
  · rfl

/-- After a note has been rendered the tracker holds its duration and dot count. -/
theorem convertNoteRhythm_tracks (lib : Convert) (c : HumdrumToLilypondConverter) (out : String)
    (stok : String) :
    (convertNoteRhythm lib c out stok).1.m_states.duration = lib.recipToDuration stok
      ∧ (convertNoteRhythm lib c out stok).1.m_states.dots = characterCount stok '.' := by
  unfold convertNoteRhythm
  simp only
  split
  · rw [convertDuration_states]
    exact ⟨rfl, rfl⟩
  · rename_i h
    simp only [not_or, not_not] at h
    exact ⟨h.2.symm, h.1.symm⟩

/-- After a rest has been rendered the tracker holds its duration and dot count. -/
theorem convertRest_tracks (lib : Convert) (c : HumdrumToLilypondConverter) (out : String)
    (token : TokenPtr) :
    (convertRest lib c out token).1.m_states.duration
        = lib.recipToDuration (lib.getSubtoken token.tok 0)
      ∧ (convertRest lib c out token).1.m_states.dots
        = characterCount (lib.getSubtoken token.tok 0) '.' := by
  unfold convertRest
  simp only
  split
  · rw [convertDuration_states]
    exact ⟨rfl, rfl⟩
  · rename_i h
    simp only [not_or, not_not] at h
    exact ⟨h.2.symm, h.1.symm⟩

/-- After a note or rest has been rendered by `convertDataToken` the tracker holds its
duration and dot count. -/
theorem convertDataToken_tracks (lib : Convert) (c : HumdrumToLilypondConverter) (out : String)
    (token : TokenPtr) (hdata : token.tok.isData = true) (hnull : token.tok.isNull = false)
    (hkind : token.tok.isRest = true ∨ token.tok.isChord = false) :
    (convertDataToken lib c out token).1.m_states.duration
        = lib.recipToDuration (lib.getSubtoken token.tok 0)
      ∧ (convertDataToken lib c out token).1.m_states.dots
        = characterCount (lib.getSubtoken token.tok 0) '.' := by
  unfold convertDataToken
  simp only [hdata, hnull, Bool.not_true, Bool.false_eq_true, if_false]
  by_cases hrest : token.tok.isRest = true
  · simp only [hrest, if_true]
    exact convertRest_tracks lib c out token
  · have hchord : token.tok.isChord = false := hkind.resolve_left hrest
    simp only [hrest, hchord, Bool.false_eq_true, if_false]
    exact convertNoteRhythm_tracks lib _ _ _

theorem registerMark_eq (q p : Int) (hq1 : -1000000000 ≤ q) (hq2 : q ≤ 1000000000)
    (hp1 : -1000000000 ≤ p) (hp2 : p ≤ 1000000000) :
    registerMark q p = if p - q > 20 then "'" else if q - p > 20 then "," else "" := by
  unfold registerMark wrapInt
  simp only
  split_ifs <;> first | rfl | omega

/-! ## Durations and register marks: theorems -/

/-- C7. When two notes or rests are rendered one after the other and their rhythms have the
same duration and the same number of dots, rendering the second leaves the tracked duration
and dot count unchanged and writes no duration text: a rest writes `r` and its articulations,
a note its indent, pitch name, accidental, register mark, tie, slur and articulation text. -/
theorem convertDataToken_same_rhythm (lib : Convert) (c : HumdrumToLilypondConverter)
    (out : String) (t1 t2 : TokenPtr)
    (hdata1 : t1.tok.isData = true) (hnull1 : t1.tok.isNull = false)
    (hkind1 : t1.tok.isRest = true ∨ t1.tok.isChord = false)
    (hdata2 : t2.tok.isData = true) (hnull2 : t2.tok.isNull = false)
    (hkind2 : t2.tok.isRest = true ∨ t2.tok.isChord = false)
    (hdur : lib.recipToDuration (lib.getSubtoken t1.tok 0)
      = lib.recipToDuration (lib.getSubtoken t2.tok 0))
    (hdots : characterCount (lib.getSubtoken t1.tok 0) '.'
      = characterCount (lib.getSubtoken t2.tok 0) '.') :
    let r1 := convertDataToken lib c out t1
    let r2 := convertDataToken lib r1.1 r1.2.1 t2
    r2.1.m_states.duration = r1.1.m_states.duration
      ∧ r2.1.m_states.dots = r1.1.m_states.dots
      ∧ r2.2.1 =
        (if t2.tok.isRest = true then convertArticulations (r1.2.1 ++ "r") t2.tok.text
        else
          convertArticulations
            (r1.2.1 ++ r1.1.m_indent
              ++ diatonicName (lib.kernToDiatonicPC (lib.getSubtoken t2.tok 0))
              ++ accidentalName (lib.kernToAccidentalCount (lib.getSubtoken t2.tok 0))
              ++ registerMark r1.1.m_states.pitch (lib.kernToBase40 (lib.getSubtoken t2.tok 0))
              ++ tieText (lib.getSubtoken t2.tok 0) ++ slurText (lib.getSubtoken t2.tok 0))
            (lib.getSubtoken t2.tok 0)) := by
  intro r1 r2
  obtain ⟨hd, hn⟩ := convertDataToken_tracks lib c out t1 hdata1 hnull1 hkind1
  have hd1 : r1.1.m_states.duration = lib.recipToDuration (lib.getSubtoken t2.tok 0) :=
    hd.trans hdur
  have hn1 : r1.1.m_states.dots = characterCount (lib.getSubtoken t2.tok 0) '.' :=
    hn.trans hdots
  have hr2 : r2 = convertDataToken lib r1.1 r1.2.1 t2 := rfl
  by_cases hrest : t2.tok.isRest = true
  · have h2 : r2 = (r1.1, convertArticulations (r1.2.1 ++ "r") t2.tok.text, true) := by
      rw [hr2]
      unfold convertDataToken convertRest
      simp [hdata2, hnull2, hrest, hd1, hn1]
    rw [h2]
    simp [hrest]
  · have hchord : t2.tok.isChord = false := hkind2.resolve_left hrest
    have h2 : r2.1.m_states.duration = r1.1.m_states.duration
        ∧ r2.1.m_states.dots = r1.1.m_states.dots
        ∧ r2.2.1 = convertArticulations
            (r1.2.1 ++ r1.1.m_indent
              ++ diatonicName (lib.kernToDiatonicPC (lib.getSubtoken t2.tok 0))
              ++ accidentalName (lib.kernToAccidentalCount (lib.getSubtoken t2.tok 0))
              ++ registerMark r1.1.m_states.pitch (lib.kernToBase40 (lib.getSubtoken t2.tok 0))
              ++ tieText (lib.getSubtoken t2.tok 0) ++ slurText (lib.getSubtoken t2.tok 0))
            (lib.getSubtoken t2.tok 0) := by
      rw [hr2]
      unfold convertDataToken convertNote convertNoteRhythm
      simp only [hdata2, hnull2, hrest, hchord, Bool.not_true, Bool.false_eq_true, if_false]
      split <;> simp [hd1, hn1]
    simp only [hrest, if_false]
    exact h2

/-- C8. For a positive undotted duration `p/q` and a dot count `d ≥ 0`, `convertDuration`
works with `scaled = (q/p)*4`: when `scaled` is an integer it writes its decimal text followed
by `d` dots and sets the tracker to the duration and `d`; when it is not, it writes nothing; in
both cases the error list is unchanged. -/
theorem convertDuration_spec (c : HumdrumToLilypondConverter) (out : String)
    (duration durationnodots : ℚ) (dots : Int) (_hpos : 0 < durationnodots) (_hdots : 0 ≤ dots) :
    (convertDuration c out duration durationnodots dots).1.m_errors = c.m_errors
      ∧ ((((durationnodots.den : ℤ) : ℚ) / (durationnodots.num : ℚ) * 4).den = 1 →
          (convertDuration c out duration durationnodots dots).2
              = out ++ toString (((durationnodots.den : ℤ) : ℚ) / (durationnodots.num : ℚ) * 4).num
                  ++ String.mk (List.replicate dots.toNat '.')
            ∧ (convertDuration c out duration durationnodots dots).1.m_states.duration = duration
            ∧ (convertDuration c out duration durationnodots dots).1.m_states.dots = dots)
      ∧ ((((durationnodots.den : ℤ) : ℚ) / (durationnodots.num : ℚ) * 4).den ≠ 1 →
          (convertDuration c out duration durationnodots dots).2 = out) := by
  refine ⟨convertDuration_errors c out duration durationnodots dots, ?_, ?_⟩
  · intro h
    refine ⟨?_, ?_, ?_⟩
    · simp only [convertDuration, h, ne_eq, not_true_eq_false, if_false, printDots_eq,
        printHumNum, if_true]
    · rw [convertDuration_states]
    · rw [convertDuration_states]
  · intro h
    simp only [convertDuration, ne_eq, h, not_false_eq_true, if_true]

/-- Witness of C7: the quarter-note C followed by a quarter rest. -/
theorem convertDataToken_same_rhythm_witness :
    let r1 := convertDataToken sampleConvert HumdrumToLilypondConverter.init "" sampleNote
    let r2 := convertDataToken sampleConvert r1.1 r1.2.1 sampleRest
    r2.1.m_states.duration = r1.1.m_states.duration
      ∧ r2.1.m_states.dots = r1.1.m_states.dots
      ∧ r2.2.1 =
        (if sampleRest.tok.isRest = true then
          convertArticulations (r1.2.1 ++ "r") sampleRest.tok.text
        else
          convertArticulations
            (r1.2.1 ++ r1.1.m_indent
              ++ diatonicName
                (sampleConvert.kernToDiatonicPC (sampleConvert.getSubtoken sampleRest.tok 0))
              ++ accidentalName
                (sampleConvert.kernToAccidentalCount (sampleConvert.getSubtoken sampleRest.tok 0))
              ++ registerMark r1.1.m_states.pitch
                (sampleConvert.kernToBase40 (sampleConvert.getSubtoken sampleRest.tok 0))
              ++ tieText (sampleConvert.getSubtoken sampleRest.tok 0)
              ++ slurText (sampleConvert.getSubtoken sampleRest.tok 0))
            (sampleConvert.getSubtoken sampleRest.tok 0)) :=
  convertDataToken_same_rhythm sampleConvert HumdrumToLilypondConverter.init "" sampleNote
    sampleRest (by decide) (by decide) (by decide) (by decide) (by decide) (by decide)
    (by rfl) (by decide)

/-- Witness of C8: a dotted eighth note (undotted duration 1/2 of a quarter note, one dot). -/
theorem convertDuration_spec_witness :
    (convertDuration HumdrumToLilypondConverter.init "" (3 / 4) (1 / 2) 1).1.m_errors
        = HumdrumToLilypondConverter.init.m_errors
      ∧ (((((1 / 2 : ℚ).den : ℤ) : ℚ) / ((1 / 2 : ℚ).num : ℚ) * 4).den = 1 →
          (convertDuration HumdrumToLilypondConverter.init "" (3 / 4) (1 / 2) 1).2
              = "" ++ toString ((((1 / 2 : ℚ).den : ℤ) : ℚ) / ((1 / 2 : ℚ).num : ℚ) * 4).num
                  ++ String.mk (List.replicate (1 : Int).toNat '.')
            ∧ (convertDuration HumdrumToLilypondConverter.init "" (3 / 4) (1 / 2) 1).1.m_states.duration
                = 3 / 4
            ∧ (convertDuration HumdrumToLilypondConverter.init "" (3 / 4) (1 / 2) 1).1.m_states.dots
                = 1)
      ∧ (((((1 / 2 : ℚ).den : ℤ) : ℚ) / ((1 / 2 : ℚ).num : ℚ) * 4).den ≠ 1 →
          (convertDuration HumdrumToLilypondConverter.init "" (3 / 4) (1 / 2) 1).2 = "") :=
  convertDuration_spec HumdrumToLilypondConverter.init "" (3 / 4) (1 / 2) 1 (by norm_num)
    (by decide)

/-- C9 as stated fails. A triplet quarter note lasts 2/3 of a quarter note, which is neither
`4 * 2^k` nor `4 / 2^k` quarter notes; `convertDuration` writes the duration number 6 for it,
and 6 is not a power of two. -/
theorem convertDuration_triplet_quarter :
    (¬ ∃ k : ℕ, (2 / 3 : ℚ) = 4 * 2 ^ k ∨ (2 / 3 : ℚ) = 4 / 2 ^ k)
      ∧ (convertDuration HumdrumToLilypondConverter.init "" (2 / 3) (2 / 3) 0).2 = "6"
      ∧ ¬ ∃ k : ℕ, (6 : ℕ) = 2 ^ k := by
  have hsix : ¬ ∃ k : ℕ, (6 : ℕ) = 2 ^ k := by
    rintro ⟨k, hk⟩
    rcases Nat.lt_or_ge k 3 with h | h
    · interval_cases k <;> omega
    · have := Nat.pow_le_pow_right (show 0 < 2 by decide) h
      omega
  refine ⟨?_, ?_, hsix⟩
  · rintro ⟨k, hk | hk⟩
    · have h1 : (1 : ℚ) ≤ 2 ^ k := one_le_pow₀ (by norm_num)
      linarith
    · apply hsix
      refine ⟨k, ?_⟩
      have hpos : (0 : ℚ) < 2 ^ k := by positivity
      have h2 : (2 : ℚ) ^ k = 6 := by
        field_simp at hk
        linarith
      exact_mod_cast h2.symm
  · have hden : (2 / 3 : ℚ).den = 3 := by norm_num
    have hnum : (2 / 3 : ℚ).num = 2 := by norm_num
    have hval : (((3 : ℕ) : ℤ) : ℚ) / ((2 : ℤ) : ℚ) * 4 = 6 := by norm_num
    have hsix_den : (6 : ℚ).den = 1 := by norm_num
    have hsix_num : (6 : ℚ).num = 6 := by norm_num
    simp only [convertDuration, hden, hnum, hval, hsix_den, hsix_num, printHumNum, ne_eq,
      not_true_eq_false, if_false, if_true]
    decide

/-- C9 as amended. For a positive undotted duration `p/q` in lowest terms, `convertDuration`
writes no duration text when `p` does not divide 4, and otherwise writes the integer `4q/p`
followed by the dots. -/
theorem convertDuration_omits_iff (c : HumdrumToLilypondConverter) (out : String)
    (duration durationnodots : ℚ) (dots : Int) (hpos : 0 < durationnodots) :
    (¬ durationnodots.num ∣ 4 →
        (convertDuration c out duration durationnodots dots).2 = out)
      ∧ (durationnodots.num ∣ 4 →
        (convertDuration c out duration durationnodots dots).2
          = out ++ toString (4 * (durationnodots.den : ℤ) / durationnodots.num)
              ++ String.mk (List.replicate dots.toNat '.')) := by
  constructor
  · intro h
    have hden := (scaled_den_eq_one_iff durationnodots hpos).not.mpr h
    simp only [convertDuration, ne_eq, hden, not_false_eq_true, if_true]
  · intro h
    have hden := (scaled_den_eq_one_iff durationnodots hpos).mpr h
    have hnum := scaled_num_eq durationnodots hpos h
    simp only [convertDuration, hden, ne_eq, not_true_eq_false, if_false, printDots_eq,
      printHumNum, if_true, hnum]

/-- Witness of amended C9: a triplet whole note (8/3 quarter notes) and no dots. -/
theorem convertDuration_omits_iff_witness :
    (¬ (8 / 3 : ℚ).num ∣ 4 →
        (convertDuration HumdrumToLilypondConverter.init "" (8 / 3) (8 / 3) 0).2 = "")
      ∧ ((8 / 3 : ℚ).num ∣ 4 →
        (convertDuration HumdrumToLilypondConverter.init "" (8 / 3) (8 / 3) 0).2
          = "" ++ toString (4 * ((8 / 3 : ℚ).den : ℤ) / (8 / 3 : ℚ).num)
              ++ String.mk (List.replicate (0 : Int).toNat '.')) :=
  convertDuration_omits_iff HumdrumToLilypondConverter.init "" (8 / 3) (8 / 3) 0 (by norm_num)

/-- C10. For a note of base-40 pitch `p` rendered while the tracker holds the pitch `q` (both
far inside the range of `int`), `convertNote` writes, between the accidental spelling and the
rhythm text, nothing when `|p - q| ≤ 20`, exactly `'` when `p - q > 20` and exactly `,` when
`q - p > 20`; afterwards the tracked pitch is `p`. -/
theorem convertNote_register_mark (lib : Convert) (c : HumdrumToLilypondConverter)
    (out : String) (token : TokenPtr)
    (hq : -1000000000 ≤ c.m_states.pitch ∧ c.m_states.pitch ≤ 1000000000)
    (hp : -1000000000 ≤ lib.kernToBase40 (lib.getSubtoken token.tok 0)
      ∧ lib.kernToBase40 (lib.getSubtoken token.tok 0) ≤ 1000000000) :
    let stok := lib.getSubtoken token.tok 0
    let p := lib.kernToBase40 stok
    let q := c.m_states.pitch
    let pre := out ++ c.m_indent ++ diatonicName (lib.kernToDiatonicPC stok)
      ++ accidentalName (lib.kernToAccidentalCount stok)
    let c1 : HumdrumToLilypondConverter := { c with m_states := { c.m_states with pitch := p } }
    (convertNote lib c out token).1.m_states.pitch = p
      ∧ (|p - q| ≤ 20 → convertNote lib c out token = convertNoteRhythm lib c1 pre stok)
      ∧ (p - q > 20 → convertNote lib c out token = convertNoteRhythm lib c1 (pre ++ "'") stok)
      ∧ (q - p > 20 → convertNote lib c out token = convertNoteRhythm lib c1 (pre ++ ",") stok) := by
  intro stok p q pre c1
  have hm : registerMark q p = if p - q > 20 then "'" else if q - p > 20 then "," else "" :=
    registerMark_eq q p hq.1 hq.2 hp.1 hp.2
  have hc : (if q ≠ p then c1 else c) = c1 := by
    by_cases h : q = p
    · have hc1 : c1 = c := by
        show ({ c with m_states := { c.m_states with pitch := p } } : HumdrumToLilypondConverter) = c
        rw [← h]
      rw [hc1]
      simp
    · simp [h]
  have hnote : convertNote lib c out token
      = convertNoteRhythm lib c1 (pre ++ registerMark q p) stok := by
    show convertNoteRhythm lib (if q ≠ p then c1 else c) (pre ++ registerMark q p) stok = _
    rw [hc]
  refine ⟨?_, ?_, ?_, ?_⟩
  · rw [hnote, convertNoteRhythm_pitch]
  · intro h
    rw [abs_le] at h
    have h1 : ¬ p - q > 20 := by omega
    have h2 : ¬ q - p > 20 := by omega
    rw [hnote, hm, if_neg h1, if_neg h2, String.append_empty]
  · intro h
    rw [hnote, hm, if_pos h]
  · intro h
    have h1 : ¬ p - q > 20 := by omega
    rw [hnote, hm, if_neg h1, if_pos h]

/-- Witness of C10: the D above the treble staff (pitch 208) after middle C (pitch 162). -/
theorem convertNote_register_mark_witness :
    let stok := sampleConvert.getSubtoken sampleHighNote.tok 0
    let p := sampleConvert.kernToBase40 stok
    let q := afterMiddleC.m_states.pitch
    let pre := "" ++ afterMiddleC.m_indent ++ diatonicName (sampleConvert.kernToDiatonicPC stok)
      ++ accidentalName (sampleConvert.kernToAccidentalCount stok)
    let c1 : HumdrumToLilypondConverter :=
      { afterMiddleC with m_states := { afterMiddleC.m_states with pitch := p } }
    (convertNote sampleConvert afterMiddleC "" sampleHighNote).1.m_states.pitch = p
      ∧ (|p - q| ≤ 20 →
        convertNote sampleConvert afterMiddleC "" sampleHighNote
          = convertNoteRhythm sampleConvert c1 pre stok)
      ∧ (p - q > 20 →
        convertNote sampleConvert afterMiddleC "" sampleHighNote
          = convertNoteRhythm sampleConvert c1 (pre ++ "'") stok)
      ∧ (q - p > 20 →
        convertNote sampleConvert afterMiddleC "" sampleHighNote
          = convertNoteRhythm sampleConvert c1 (pre ++ ",") stok) :=
  convertNote_register_mark sampleConvert afterMiddleC "" sampleHighNote (by decide) (by decide)

/-! ## Clefs and empty scores: theorems -/

/-- C19. For a token whose text is not one of the eleven clef codes of the table, `convertClef`
writes nothing, appends `Error: unknown clef: <token>` followed by the line and field entries
of the token to the error list and returns true; for a code of the table the error list is
unchanged. -/
theorem convertClef_unknown (c : HumdrumToLilypondConverter) (out : String) (token : TokenPtr) :
    (token.tok.text ∉ ["*clefG2", "*clefF4", "*clefC3", "*clefGv2", "*clefC4", "*clefX",
          "*clefC2", "*clefC5", "*clefG1", "*clefC1", "*clefF3"] →
        convertClef c out token
          = ({ c with
                m_errors := c.m_errors
                  ++ ["Error: unknown clef: " ++ token.tok.text,
                      "\tLine:  " ++ toString ((token.tok.lineIndex : Int) + 1),
                      "\tField: " ++ toString ((token.tok.fieldIndex : Int) + 1)] },
              out, true))
      ∧ (token.tok.text ∈ ["*clefG2", "*clefF4", "*clefC3", "*clefGv2", "*clefC4", "*clefX",
          "*clefC2", "*clefC5", "*clefG1", "*clefC1", "*clefF3"] →
        (convertClef c out token).1.m_errors = c.m_errors) := by
  constructor
  · intro h
    simp only [List.mem_cons, List.mem_singleton, not_or, List.not_mem_nil, or_false] at h
    obtain ⟨h1, h2, h3, h4, h5, h6, h7, h8, h9, h10, h11⟩ := h
    simp [convertClef, h1, h2, h3, h4, h5, h6, h7, h8, h9, h10, h11, addErrorMessage,
      HumdrumToken.getLineNumber, HumdrumToken.getFieldNumber]
  · intro h
    simp only [List.mem_cons, List.mem_singleton, List.not_mem_nil, or_false] at h
    rcases h with h | h | h | h | h | h | h | h | h | h | h <;> simp [convertClef, h]

/-- Witness of C19: the unknown clef code `*clefQ` on line 2 of a part. -/
theorem convertClef_unknown_witness :
    convertClef HumdrumToLilypondConverter.init ""
        { before := [kernToken 1], tok := clefToken "*clefQ" 2, after := [] }
      = ({ HumdrumToLilypondConverter.init with
            m_errors := ["Error: unknown clef: *clefQ", "\tLine:  3", "\tField: 1"] }, "", true) :=
  (convertClef_unknown HumdrumToLilypondConverter.init ""
    { before := [kernToken 1], tok := clefToken "*clefQ" 2, after := [] }).1 (by decide)

/-- C17. For a file without `**kern` spine starts, `convert` returns true, leaves the output
stream as it was and records no error: only `m_infile` and `m_kernstarts` are assigned. -/
theorem convert_no_parts (lib : Convert) (c : HumdrumToLilypondConverter) (out : String)
    (infile : HumdrumFile) (h : infile.kernSpineStartList = []) :
    convertFile lib c out infile = ({ c with m_infile := infile, m_kernstarts := [] }, out, true)
      ∧ (convertFile lib c out infile).1.m_errors = c.m_errors := by
  have h1 : convertFile lib c out infile
      = ({ c with m_infile := infile, m_kernstarts := [] }, out, true) := by
    simp [convertFile, convert, h]
  rw [h1]
  exact ⟨rfl, rfl⟩

/-- Witness of C17: a file that holds only a global comment. -/
theorem convert_no_parts_witness :
    convertFile sampleConvert HumdrumToLilypondConverter.init ""
        { lines := [globalLine "!! no music" 0] }
      = ({ HumdrumToLilypondConverter.init with
            m_infile := { lines := [globalLine "!! no music" 0] }, m_kernstarts := [] }, "", true)
      ∧ (convertFile sampleConvert HumdrumToLilypondConverter.init ""
          { lines := [globalLine "!! no music" 0] }).1.m_errors
        = HumdrumToLilypondConverter.init.m_errors :=
  convert_no_parts sampleConvert HumdrumToLilypondConverter.init ""
    { lines := [globalLine "!! no music" 0] } rfl

/-! ## Segments: lemmas -/

/-- One step of the loop of `extractSegments` on a label line. -/
theorem extractSegmentsLoop_label (line : HumdrumLine) (rest : List HumdrumLine) (i : Nat)
    (b : Bool) (segs : List Nat) (labs : List String) (hl : isLabelLine line = true) :
    extractSegmentsLoop (line :: rest) i b segs labs
      = extractSegmentsLoop rest (i + 1) (b && !line.isData)
          (segs ++ [if (b && !line.isData) = true ∨ segs = [] then 0 else i])
          (labs ++ [labelName line]) := by
  simp only [isLabelLine, Bool.and_eq_true] at hl
  cases b <;> cases hd : line.isData <;> cases segs <;>
    simp [extractSegmentsLoop, hl.1, hl.2, hd, labelName]

/-- One step of the loop of `extractSegments` on a line that is not a label line. -/
theorem extractSegmentsLoop_other (line : HumdrumLine) (rest : List HumdrumLine) (i : Nat)
    (b : Bool) (segs : List Nat) (labs : List String) (hl : isLabelLine line = false) :
    extractSegmentsLoop (line :: rest) i b segs labs
      = extractSegmentsLoop rest (i + 1) (b && !line.isData) segs labs := by
  simp only [isLabelLine, Bool.and_eq_false_iff] at hl
  cases b <;> cases hd : line.isData <;> rcases hl with h | h <;>
    cases hi : line.isInterpretation <;> simp_all [extractSegmentsLoop]

/-- The loop of `extractSegments` appends one label and one boundary per label line. -/
theorem extractSegmentsLoop_counts (lines : List HumdrumLine) (i : Nat) (b : Bool)
    (segs : List Nat) (labs : List String) :
    (extractSegmentsLoop lines i b segs labs).2
        = labs ++ (lines.filter isLabelLine).map labelName
      ∧ ∃ added : List Nat,
          (extractSegmentsLoop lines i b segs labs).1 = segs ++ added
            ∧ added.length = (lines.filter isLabelLine).length := by
  induction lines generalizing i b segs labs with
  | nil => exact ⟨by simp [extractSegmentsLoop], [], by simp [extractSegmentsLoop], rfl⟩
  | cons line rest ih =>
    by_cases hl : isLabelLine line = true
    · rw [extractSegmentsLoop_label line rest i b segs labs hl]
      obtain ⟨h1, added, h2, h3⟩ := ih (i + 1) (b && !line.isData)
        (segs ++ [if (b && !line.isData) = true ∨ segs = [] then 0 else i])
        (labs ++ [labelName line])
      refine ⟨?_, (if (b && !line.isData) = true ∨ segs = [] then 0 else i) :: added, ?_, ?_⟩
      · rw [h1]
        simp [List.filter_cons, hl]
      · rw [h2]
        simp
      · simp [List.filter_cons, hl, h3]
    · have hl2 : isLabelLine line = false := by simpa using hl
      rw [extractSegmentsLoop_other line rest i b segs labs hl2]
      simp only [List.filter_cons, hl2, Bool.false_eq_true, if_false]
      exact ih _ _ _ _

/-- The loop of `extractSegments` over `pre ++ rest` runs over `pre`, then over `rest`. -/
theorem extractSegmentsLoop_append (pre rest : List HumdrumLine) (i : Nat) (b : Bool)
    (segs : List Nat) (labs : List String) :
    extractSegmentsLoop (pre ++ rest) i b segs labs
      = extractSegmentsLoop rest (i + pre.length) (b && !pre.any fun line => line.isData)
          (extractSegmentsLoop pre i b segs labs).1 (extractSegmentsLoop pre i b segs labs).2 := by
  induction pre generalizing i b segs labs with
  | nil => simp [extractSegmentsLoop]
  | cons line pre ih =>
    have harith : i + 1 + pre.length = i + (line :: pre).length := by
      simp only [List.length_cons]
      omega
    have hb : ((b && !line.isData) && !pre.any fun line => line.isData)
        = (b && !(line :: pre).any fun line => line.isData) := by
      rw [List.any_cons]
      cases b <;> cases line.isData <;> simp
    by_cases hl : isLabelLine line = true
    · rw [List.cons_append, extractSegmentsLoop_label line _ i b segs labs hl,
        extractSegmentsLoop_label line _ i b segs labs hl, ih, harith, hb]
    · have hl2 : isLabelLine line = false := by simpa using hl
      rw [List.cons_append, extractSegmentsLoop_other line _ i b segs labs hl2,
        extractSegmentsLoop_other line _ i b segs labs hl2, ih, harith, hb]

/-- Once the boundary 0 is recorded and either a data line has been met or no label line
precedes the next data line, the second boundary, if any, is positive. -/
theorem extractSegmentsLoop_second (lines : List HumdrumLine) (i : Nat) (b : Bool)
    (labs : List String) (hi : 1 ≤ i)
    (hb : b = true → (linesBeforeData lines).filter isLabelLine = []) :
    (extractSegmentsLoop lines i b [0] labs).1 = [0]
      ∨ ∃ x tail, (extractSegmentsLoop lines i b [0] labs).1 = 0 :: x :: tail ∧ 0 < x := by
  induction lines generalizing i b labs with
  | nil => exact Or.inl (by simp [extractSegmentsLoop])
  | cons line rest ih =>
    by_cases hl : isLabelLine line = true
    · rw [extractSegmentsLoop_label line rest i b [0] labs hl]
      have hb1 : (b && !line.isData) = false := by
        cases hbv : b
        · rfl
        · cases hd : line.isData
          · have := hb hbv
            simp [linesBeforeData, List.takeWhile_cons, hd, List.filter_cons, hl] at this
          · rfl
      obtain ⟨_, added, h2, _⟩ := extractSegmentsLoop_counts rest (i + 1) (b && !line.isData)
        ([0] ++ [if (b && !line.isData) = true ∨ ([0] : List Nat) = [] then 0 else i])
        (labs ++ [labelName line])
      refine Or.inr ⟨i, added, ?_, hi⟩
      rw [h2, hb1]
      simp
    · have hl2 : isLabelLine line = false := by simpa using hl
      rw [extractSegmentsLoop_other line rest i b [0] labs hl2]
      apply ih (i + 1) (b && !line.isData) labs (by omega)
      intro hb1
      simp only [Bool.and_eq_true, Bool.not_eq_true'] at hb1
      have := hb hb1.1
      simpa [linesBeforeData, List.takeWhile_cons, hb1.2, List.filter_cons, hl2] using this

/-- On a converter without recorded boundaries, when at most one label line precedes the first
data line, the boundaries recorded by the loop start with 0 and continue, if at all, with a
positive line index. -/
theorem extractSegmentsLoop_first (lines : List HumdrumLine) (i : Nat) (b : Bool)
    (labs : List String)
    (hb : b = true → ((linesBeforeData lines).filter isLabelLine).length ≤ 1) :
    (extractSegmentsLoop lines i b [] labs).1 = []
      ∨ (extractSegmentsLoop lines i b [] labs).1 = [0]
      ∨ ∃ x tail, (extractSegmentsLoop lines i b [] labs).1 = 0 :: x :: tail ∧ 0 < x := by
  induction lines generalizing i b labs with
  | nil => exact Or.inl (by simp [extractSegmentsLoop])
  | cons line rest ih =>
    by_cases hl : isLabelLine line = true
    · rw [extractSegmentsLoop_label line rest i b [] labs hl]
      have hseg : ([] : List Nat) ++ [if (b && !line.isData) = true ∨ ([] : List Nat) = [] then 0
          else i] = [0] := by simp
      rw [hseg]
      refine Or.inr (extractSegmentsLoop_second rest (i + 1) (b && !line.isData) _ (by omega) ?_)
      intro hb1
      simp only [Bool.and_eq_true, Bool.not_eq_true'] at hb1
      have := hb hb1.1
      simp only [linesBeforeData, List.takeWhile_cons, hb1.2, Bool.not_false, if_true,
        List.filter_cons, hl, List.length_cons] at this
      have hlen : ((List.takeWhile (fun line => !line.isData) rest).filter isLabelLine).length
          = 0 := by omega
      simpa [linesBeforeData] using hlen
    · have hl2 : isLabelLine line = false := by simpa using hl
      rw [extractSegmentsLoop_other line rest i b [] labs hl2]
      apply ih (i + 1) (b && !line.isData) labs
      intro hb1
      simp only [Bool.and_eq_true, Bool.not_eq_true'] at hb1
      have := hb hb1.1
      simpa [linesBeforeData, List.takeWhile_cons, hb1.2, List.filter_cons, hl2] using this

/-- The boundary at position `added.length` of the final list of `extractSegments`. -/
theorem getD_boundary (added tail : List Nat) (v n : Nat) :
    ((if ((added ++ [v] ++ tail).length == 0) = true then added ++ [v] ++ tail ++ [0]
        else added ++ [v] ++ tail) ++ [n]).getD added.length 0 = v := by
  have hne : ((added ++ [v] ++ tail).length == 0) = false := by simp
  rw [hne]
  simp only [Bool.false_eq_true, if_false, List.append_assoc, List.getD_eq_getElem?_getD]
  rw [List.getElem?_append_right (le_refl _)]
  simp

/-! ## Segments: theorems -/

/-- C12. On a converter without recorded boundaries and labels, `extractSegments` records one
label per label line, each the text of the label token without its first two characters; with
no label line the boundaries are `[0, lineCount]`, with `N ≥ 1` label lines there are `N + 1`
boundaries. -/
theorem extractSegments_counts (c : HumdrumToLilypondConverter) (hs : c.m_segments = [])
    (hl : c.m_labels = []) :
    (extractSegments c).m_labels = (c.m_infile.lines.filter isLabelLine).map labelName
      ∧ (c.m_infile.lines.filter isLabelLine = [] →
          (extractSegments c).m_segments = [0, c.m_infile.getLineCount])
      ∧ (c.m_infile.lines.filter isLabelLine ≠ [] →
          (extractSegments c).m_segments.length
            = (c.m_infile.lines.filter isLabelLine).length + 1) := by
  obtain ⟨h1, added, h2, h3⟩ := extractSegmentsLoop_counts c.m_infile.lines 0 true [] []
  simp only [List.nil_append] at h1 h2
  refine ⟨?_, ?_, ?_⟩
  · simp only [extractSegments, hs, hl, h1]
  · intro hnone
    rw [hnone] at h3
    have hadded : added = [] := List.length_eq_zero.mp h3
    simp [extractSegments, hs, hl, h2, hadded]
  · intro hsome
    have hpos : added ≠ [] := by
      intro h
      rw [h] at h3
      exact hsome (List.length_eq_zero.mp h3.symm)
    simp only [extractSegments, hs, hl, h2]
    have hlen : (added.length == 0) = false := by
      cases added with
      | nil => exact absurd rfl hpos
      | cons x xs => rfl
    rw [hlen]
    simp [h3]

/-- Witness of C12: a part with the labels `*>A` and `*>B`. -/
theorem extractSegments_counts_witness :
    (extractSegments (converterFor twoLabelFile)).m_labels
        = ((converterFor twoLabelFile).m_infile.lines.filter isLabelLine).map labelName
      ∧ ((converterFor twoLabelFile).m_infile.lines.filter isLabelLine = [] →
          (extractSegments (converterFor twoLabelFile)).m_segments
            = [0, (converterFor twoLabelFile).m_infile.getLineCount])
      ∧ ((converterFor twoLabelFile).m_infile.lines.filter isLabelLine ≠ [] →
          (extractSegments (converterFor twoLabelFile)).m_segments.length
            = ((converterFor twoLabelFile).m_infile.lines.filter isLabelLine).length + 1) :=
  extractSegments_counts (converterFor twoLabelFile) rfl rfl

/-- C13 as stated fails. In the part `**kern`, `4c`, `*>A`, `4r` the label on line 2 is the
first label met after a data line, and the boundary recorded for it is 0, not 2. -/
theorem extractSegments_first_label_after_data :
    (extractSegments (converterFor lateLabelFile)).m_segments = [0, 4]
      ∧ (extractSegments (converterFor lateLabelFile)).m_labels = ["A"] := by
  decide

/-- C13 as amended. On a converter without recorded boundaries, a label line at line index
`i` that follows a data line gets the boundary `i` when an earlier label line exists, and the
boundary 0 when it is the first label line of the file. -/
theorem extractSegments_label_after_data (c : HumdrumToLilypondConverter)
    (hs : c.m_segments = []) (pre post : List HumdrumLine) (label : HumdrumLine)
    (hlines : c.m_infile.lines = pre ++ label :: post) (hlabel : isLabelLine label = true)
    (hdata : ∃ d ∈ pre, d.isData = true) :
    (extractSegments c).m_segments.getD (pre.filter isLabelLine).length 0
      = if pre.filter isLabelLine = [] then 0 else pre.length := by
  obtain ⟨_, added, h2, h3⟩ := extractSegmentsLoop_counts pre 0 true [] c.m_labels
  have hany : (pre.any fun line => line.isData) = true := by
    obtain ⟨d, hd, hdd⟩ := hdata
    exact List.any_eq_true.mpr ⟨d, hd, hdd⟩
  obtain ⟨_, tail, h4, _⟩ := extractSegmentsLoop_counts post (0 + pre.length + 1)
    ((true && !pre.any fun line => line.isData) && !label.isData)
    ((extractSegmentsLoop pre 0 true [] c.m_labels).1
      ++ [if ((true && !pre.any fun line => line.isData) && !label.isData) = true
            ∨ (extractSegmentsLoop pre 0 true [] c.m_labels).1 = [] then 0
          else 0 + pre.length])
    ((extractSegmentsLoop pre 0 true [] c.m_labels).2 ++ [labelName label])
  have hloop : (extractSegmentsLoop c.m_infile.lines 0 true c.m_segments c.m_labels).1
      = added ++ [if added = [] then 0 else pre.length] ++ tail := by
    rw [hlines, hs, extractSegmentsLoop_append, extractSegmentsLoop_label _ _ _ _ _ _ hlabel, h4,
      h2, hany]
    simp
  have hempty : (pre.filter isLabelLine = []) ↔ added = [] := by
    rw [← List.length_eq_zero, ← h3, List.length_eq_zero]
  simp only [extractSegments, hloop]
  rw [← h3, getD_boundary]
  simp only [hempty]

/-- Witness of amended C13: the label `*>B` on line 3 follows the label `*>A` and a note. -/
theorem extractSegments_label_after_data_witness :
    (extractSegments (converterFor twoLabelFile)).m_segments.getD
        ((twoLabelFile.lines.take 3).filter isLabelLine).length 0
      = if (twoLabelFile.lines.take 3).filter isLabelLine = [] then 0
        else (twoLabelFile.lines.take 3).length :=
  extractSegments_label_after_data (converterFor twoLabelFile) rfl (twoLabelFile.lines.take 3)
    (twoLabelFile.lines.drop 4) (twoLabelFile.lines.getD 3 {}) (by decide) (by decide)
    (by decide)

set_option maxRecDepth 100000 in
/-- C14 (code defect): in the part `**kern`, `*>A`, `*>B`, `4c` both labels precede the first
data line and both get the boundary 0, so the first segment `[0, 0)` is empty although the file
has four lines. The empty segment has no start token, `convertSegment` takes its branch for a
missing part, and `convert` returns false for this file without any chord, leaving the block
`partIZA` open. -/
theorem extractSegments_empty_leading_segment :
    (extractSegments (converterFor earlyLabelsFile)).m_segments = [0, 0, 4]
      ∧ (converterFor earlyLabelsFile).m_infile.getLineCount = 4
      ∧ getStartTokens (preparedConverter (converterFor earlyLabelsFile)) 0 0 0 = []
      ∧ (earlyLabelsFile.lines.all fun line => line.tokens.all fun p => !p.tok.isChord) = true
      ∧ (convert sampleConvert (converterFor earlyLabelsFile) "").2.2 = false
      ∧ (convert sampleConvert (converterFor earlyLabelsFile) "").2.1
        = "\\version \"2.18.2\"\n\n\\header \x7b\n  tagline = \"\"\n\x7d\n\n"
          ++ "partIZA = \x7b\n"
          ++ "partI = \\new Staff \x7b\n  \\partIZA \n\x7d\n\n"
          ++ "\\score \x7b\n  <<\n  \x7b \\partI \x7d\n  >>\n\x7d\n" := by
  decide

/-- On a converter without recorded boundaries, for a file with at least one line and at most
one label line before its first data line, the first boundary is 0 and the second is larger: the
first segment is not empty. -/
theorem extractSegments_first_segment (c : HumdrumToLilypondConverter)
    (hs : c.m_segments = []) (hlines : c.m_infile.lines ≠ [])
    (hone : ((linesBeforeData c.m_infile.lines).filter isLabelLine).length ≤ 1) :
    (extractSegments c).m_segments.getD 0 0 = 0
      ∧ (extractSegments c).m_segments.getD 0 0 < (extractSegments c).m_segments.getD 1 0 := by
  have hcount : 0 < c.m_infile.getLineCount := by
    unfold HumdrumFile.getLineCount
    exact List.length_pos.mpr hlines
  rcases extractSegmentsLoop_first c.m_infile.lines 0 true c.m_labels (fun _ => hone)
    with h | h | ⟨x, tail, h, hx⟩
  · simp [extractSegments, hs, h, hcount]
  · simp [extractSegments, hs, h, hcount]
  · simp [extractSegments, hs, h, hx]

/-- The first segment of the part `**kern`, `*>A`, `4c`, `*>B`, `4r`, with one label before
the first note, is not empty. -/
theorem extractSegments_first_segment_witness :
    (extractSegments (converterFor twoLabelFile)).m_segments.getD 0 0 = 0
      ∧ (extractSegments (converterFor twoLabelFile)).m_segments.getD 0 0
        < (extractSegments (converterFor twoLabelFile)).m_segments.getD 1 0 :=
  extractSegments_first_segment (converterFor twoLabelFile) rfl (by decide) (by decide)

/-! ## Header comments -/

theorem printCommentLine_rest (chars : List Char) (out : String) :
    printCommentLine chars false out = out ++ String.mk chars := by
  induction chars generalizing out with
  | nil => simp [printCommentLine]
  | cons ch rest ih =>
    simp only [printCommentLine, Bool.false_and, Bool.false_eq_true, if_false, ih]
    apply String.ext
    simp

theorem printCommentLine_start (chars : List Char) (out : String) :
    printCommentLine chars true out
      = out ++ String.mk (List.replicate (chars.takeWhile fun ch => ch == '!').length '%'
          ++ chars.drop (chars.takeWhile fun ch => ch == '!').length) := by
  induction chars generalizing out with
  | nil => simp [printCommentLine]
  | cons ch rest ih =>
    by_cases h : (ch == '!') = true
    · simp only [printCommentLine, Bool.true_and, h, if_true, ih, List.takeWhile_cons,
        List.length_cons, List.replicate_succ, List.drop_succ_cons]
      apply String.ext
      simp
    · simp only [printCommentLine, Bool.true_and, h, Bool.false_eq_true, if_false,
        printCommentLine_rest, List.takeWhile_cons, List.length_nil, List.replicate_zero,
        List.drop_zero, List.nil_append]
      apply String.ext
      simp

theorem printHeaderCommentsLoop_eq (lines : List HumdrumLine) (count : Int) (out : String) :
    printHeaderCommentsLoop lines count out
      = (count + ((headerCommentTexts lines).length : Int),
          out ++ joinLines ((headerCommentTexts lines).map percentLine)) := by
  induction lines generalizing count out with
  | nil => simp [printHeaderCommentsLoop, headerCommentTexts, joinLines]
  | cons line rest ih =>
    by_cases hend : endsHeader line = true
    · have hstop : printHeaderCommentsLoop (line :: rest) count out = (count, out) := by
        simp only [endsHeader, Bool.or_eq_true, Bool.and_eq_true, Bool.not_eq_true'] at hend
        rcases hend with (h | h) | h
        · simp [printHeaderCommentsLoop, h]
        · cases hd : line.isData <;> simp [printHeaderCommentsLoop, h, hd]
        · cases hd : line.isData <;> cases hb : line.isBarline <;>
            simp [printHeaderCommentsLoop, h.1, h.2, hd, hb]
      rw [hstop]
      simp [headerCommentTexts, List.takeWhile_cons, hend, joinLines]
    · have hend2 : endsHeader line = false := by simpa using hend
      have htexts : headerCommentTexts (line :: rest)
          = (if (!line.hasSpines && !(line.token0.length == 0)) = true then
              line.token0 :: headerCommentTexts rest
            else headerCommentTexts rest) := by
        simp only [headerCommentTexts, List.takeWhile_cons, hend2, Bool.not_false, if_true,
          List.filter_cons]
        split <;> simp
      simp only [endsHeader, Bool.or_eq_false_iff, Bool.and_eq_false_iff,
        Bool.not_eq_false'] at hend2
      obtain ⟨⟨hd, hb⟩, hi⟩ := hend2
      have hcond : (line.isInterpretation && !line.isExclusive) = false := by
        rcases hi with h | h <;> simp [h]
      by_cases hsp : line.hasSpines = true
      · rw [htexts]
        simp [printHeaderCommentsLoop, hd, hb, hcond, hsp, ih]
      · have hsp2 : line.hasSpines = false := by simpa using hsp
        by_cases hempty : line.token0.length = 0
        · rw [htexts]
          simp [printHeaderCommentsLoop, hd, hb, hcond, hsp2, hempty, ih]
        · have htexts2 : headerCommentTexts (line :: rest)
              = line.token0 :: headerCommentTexts rest := by
            rw [htexts]
            simp [hsp2, hempty]
          rw [htexts2]
          simp only [printHeaderCommentsLoop, hd, hb, hcond, hsp2, hempty, Bool.false_eq_true,
            if_false, ih, printCommentLine_start, List.length_cons, List.map_cons, joinLines,
            percentLine, leadingMarkers]
          refine Prod.ext ?_ ?_
          · simp only [Nat.cast_add, Nat.cast_one]
            ring
          · simp only [String.append_assoc]

/-- C20 as stated fails. The reference record `!!!COM: Bach` is a header comment line; the
line written for it is `%%%COM: Bach`, not the source line without one leading `!`. -/
theorem printHeaderComments_bach :
    headerCommentTexts (converterFor bachFile).m_infile.lines = ["!!!COM: Bach"]
      ∧ printHeaderComments (converterFor bachFile) "" = "%%%COM: Bach" ++ "\n" ++ "\n"
      ∧ printHeaderComments (converterFor bachFile) "" ≠ "!!COM: Bach" ++ "\n" ++ "\n" := by
  decide

/-- C20 as amended. `printHeaderComments` writes, for every non-empty line without spines that
precedes the first data line, barline or non-exclusive interpretation line, one output line:
the source line with each of its leading `!` characters replaced by `%`; one empty line
follows when at least one line was written. -/
theorem printHeaderComments_eq (c : HumdrumToLilypondConverter) (out : String) :
    printHeaderComments c out
      = out ++ joinLines ((headerCommentTexts c.m_infile.lines).map percentLine)
          ++ (if headerCommentTexts c.m_infile.lines = [] then "" else "\n") := by
  simp only [printHeaderComments, printHeaderCommentsLoop_eq, zero_add]
  by_cases h : headerCommentTexts c.m_infile.lines = []
  · simp [h, joinLines]
  · have hlen : ((headerCommentTexts c.m_infile.lines).length : Int) ≠ 0 := by
      intro h0
      exact h (List.length_eq_zero.mp (by exact_mod_cast h0))
    simp [h, hlen]

/-! ## Starting pitch of a segment: theorems -/

theorem printMarks_eq (mark : String) (n : Nat) (out : String) :
    printMarks mark n out = out ++ repeatText mark n := by
  induction n generalizing out with
  | zero => simp [printMarks, repeatText]
  | succ k ih => rw [printMarks, ih, repeatText, String.append_assoc]

theorem scanStartingPitch_eq (lib : Convert) (endline : Nat) (stream : List HumdrumToken) :
    scanStartingPitch lib endline stream
      = match firstSoundingToken endline stream with
        | some t => lib.kernToBase40 t.text
        | none => -99999 := by
  induction stream with
  | nil => simp [scanStartingPitch, firstSoundingToken]
  | cons token rest ih =>
    by_cases hline : token.lineIndex < endline
    · by_cases hs : isSounding token = true
      · have hs2 := hs
        simp only [isSounding, Bool.and_eq_true, Bool.not_eq_true'] at hs2
        simp [scanStartingPitch, firstSoundingToken, hline, hs, hs2.1.1, hs2.1.2, hs2.2]
      · have hs2 : isSounding token = false := by simpa using hs
        have hstep : scanStartingPitch lib endline (token :: rest)
            = scanStartingPitch lib endline rest := by
          simp only [isSounding, Bool.and_eq_false_iff, Bool.not_eq_false'] at hs2
          rcases hs2 with (h | h) | h
          · simp [scanStartingPitch, hline, h]
          · cases hd : token.isData <;> simp [scanStartingPitch, hline, h, hd]
          · cases hd : token.isData <;> cases hn : token.isNull <;>
              simp [scanStartingPitch, hline, h, hd, hn]
        rw [hstep, ih]
        simp [firstSoundingToken, List.takeWhile_cons, hline, List.find?_cons, hs2]
    · simp [scanStartingPitch, firstSoundingToken, List.takeWhile_cons, hline]

/-- C11. For a segment whose first sounding token has the base-40 pitch `p ≥ 0`,
`printRelativeStartingPitch` writes ` \relative c` followed by `|o - 3|` marks, where `o` is
`p div 40`, plus 1 when `p mod 40 > 19` (raise marks `'` for `o > 3`, lower marks `,` for
`o < 3`), and returns `p`; for a segment without sounding token it writes nothing and returns
-99999. -/
theorem printRelativeStartingPitch_spec (lib : Convert) (c : HumdrumToLilypondConverter)
    (out : String) (partindex startline endline : Nat) :
    (∀ t, firstSoundingToken endline (segmentStream c partindex startline endline) = some t →
        0 ≤ lib.kernToBase40 t.text →
        printRelativeStartingPitch lib c out partindex startline endline
          = (out ++ " \\relative c"
              ++ (if lib.kernToBase40 t.text / 40
                      + (if lib.kernToBase40 t.text % 40 > 19 then 1 else 0) > 3 then
                    repeatText "'"
                      (lib.kernToBase40 t.text / 40
                        + (if lib.kernToBase40 t.text % 40 > 19 then 1 else 0) - 3).toNat
                  else
                    repeatText ","
                      (3 - (lib.kernToBase40 t.text / 40
                        + (if lib.kernToBase40 t.text % 40 > 19 then 1 else 0))).toNat),
              lib.kernToBase40 t.text))
      ∧ (firstSoundingToken endline (segmentStream c partindex startline endline) = none →
        printRelativeStartingPitch lib c out partindex startline endline = (out, -99999)) := by
  have hpitch : getSegmentStartingPitch lib c partindex startline endline
      = match firstSoundingToken endline (segmentStream c partindex startline endline) with
        | some t => lib.kernToBase40 t.text
        | none => -99999 := by
    unfold getSegmentStartingPitch segmentStream
    split
    · simp [firstSoundingToken]
    · exact scanStartingPitch_eq lib endline _
  constructor
  · intro t ht hp
    rw [ht] at hpitch
    simp only at hpitch
    have hdiv : Int.tdiv (lib.kernToBase40 t.text) 40 = lib.kernToBase40 t.text / 40 :=
      Int.tdiv_eq_ediv hp (by decide)
    have hmod : Int.tmod (lib.kernToBase40 t.text) 40 = lib.kernToBase40 t.text % 40 :=
      Int.tmod_eq_emod hp (by decide)
    have hnot : ¬ lib.kernToBase40 t.text ≤ -1000 := by omega
    simp only [printRelativeStartingPitch, hpitch, hnot, if_false, hdiv, hmod, printMarks_eq]
    refine Prod.ext ?_ rfl
    simp only
    split_ifs with h1 h2 h3 h4 h5 h6 <;>
      first
        | rfl
        | omega
        | (have h0 : (3 - (lib.kernToBase40 t.text / 40 + 1)).toNat = 0 := by omega
           rw [h0]; simp [repeatText])
        | (have h0 : (3 - (lib.kernToBase40 t.text / 40 + 0)).toNat = 0 := by omega
           rw [h0]; simp [repeatText])
        | (congr 2; omega)
  · intro hnone
    rw [hnone] at hpitch
    simp only at hpitch
    simp [printRelativeStartingPitch, hpitch]

/-- Witness of C11: in `**kern`, `4r`, `4c`, `8.dd` the first sounding token is the middle C
(pitch 162, octave 4): one raise mark. -/
theorem printRelativeStartingPitch_spec_witness :
    printRelativeStartingPitch sampleConvert (readyConverter restNoteFile) "" 0 0 4
      = ("" ++ " \\relative c"
          ++ (if sampleConvert.kernToBase40 (dataToken "4c" 2 1 false).text / 40
                  + (if sampleConvert.kernToBase40 (dataToken "4c" 2 1 false).text % 40 > 19
                      then 1 else 0) > 3 then
                repeatText "'"
                  (sampleConvert.kernToBase40 (dataToken "4c" 2 1 false).text / 40
                    + (if sampleConvert.kernToBase40 (dataToken "4c" 2 1 false).text % 40 > 19
                        then 1 else 0) - 3).toNat
              else
                repeatText ","
                  (3 - (sampleConvert.kernToBase40 (dataToken "4c" 2 1 false).text / 40
                    + (if sampleConvert.kernToBase40 (dataToken "4c" 2 1 false).text % 40 > 19
                        then 1 else 0))).toNat),
          sampleConvert.kernToBase40 (dataToken "4c" 2 1 false).text) :=
  (printRelativeStartingPitch_spec sampleConvert (readyConverter restNoteFile) "" 0 0 4).1
    (dataToken "4c" 2 1 false) (by decide) (by decide)

/-! ## Traversal of a segment: lemmas -/

theorem convertRest_status (lib : Convert) (c : HumdrumToLilypondConverter) (out : String)
    (token : TokenPtr) : (convertRest lib c out token).2.2 = true := rfl

theorem convertNote_status (lib : Convert) (c : HumdrumToLilypondConverter) (out : String)
    (token : TokenPtr) : (convertNote lib c out token).2.2 = true := rfl

theorem convertPartSegmentToken_status (lib : Convert) (c : HumdrumToLilypondConverter)
    (out : String) (token : TokenPtr) :
    (convertPartSegmentToken lib c out token).2.2 = !isRenderedChord token.tok := by
  unfold convertPartSegmentToken convertDataToken isRenderedChord
  cases hn : token.tok.isNull <;> cases hd : token.tok.isData <;> cases hr : token.tok.isRest <;>
    cases hc : token.tok.isChord <;> cases hi : token.tok.isInterpretation <;>
    cases hb : token.tok.isBarline <;> simp [convertRest_status, convertNote_status, convertChord]

/-- The traversal of a segment is the dispatch applied to the visited pointers in turn, up to
the first failure. -/
theorem convertPartSegmentFrom_eq (lib : Convert) (endline : Nat) (before : List HumdrumToken)
    (tok : HumdrumToken) (after : List HumdrumToken) (c : HumdrumToLilypondConverter)
    (out : String) :
    convertPartSegmentFrom lib endline before tok after c out
      = renderUntilFailure lib (visitedPointers endline before tok after) c out := by
  induction after generalizing before tok c out with
  | nil =>
    by_cases hline : endline ≤ tok.lineIndex
    · have hlt : ¬ tok.lineIndex < endline := by omega
      simp [convertPartSegmentFrom, visitedPointers, pointersFrom, hline, hlt,
        renderUntilFailure]
    · have hlt : tok.lineIndex < endline := by omega
      simp only [convertPartSegmentFrom, hline, if_false, visitedPointers, pointersFrom,
        List.takeWhile_cons, hlt, decide_True, if_true, List.takeWhile_nil, List.filter_cons,
        isPassedOver, List.isEmpty_nil, Bool.not_true, Bool.and_false, Bool.not_false,
        List.filter_nil, renderUntilFailure]
      split
      · rfl
      · rename_i hstatus
        have htrue : (convertPartSegmentToken lib c out
            { before := before, tok := tok, after := [] }).2.2 = true := by
          simpa using hstatus
        exact Prod.ext rfl (Prod.ext rfl htrue)
  | cons next rest ih =>
    by_cases hline : endline ≤ tok.lineIndex
    · have hlt : ¬ tok.lineIndex < endline := by omega
      simp [convertPartSegmentFrom, visitedPointers, pointersFrom, hline, hlt,
        renderUntilFailure]
    · have hlt : tok.lineIndex < endline := by omega
      have hvis : visitedPointers endline before tok (next :: rest)
          = (if tok.isExclusive = true then visitedPointers endline (tok :: before) next rest
            else { before := before, tok := tok, after := next :: rest }
              :: visitedPointers endline (tok :: before) next rest) := by
        cases hex : tok.isExclusive <;>
          simp [visitedPointers, pointersFrom, List.takeWhile_cons, hlt, List.filter_cons,
            isPassedOver, hex]
      rw [hvis]
      by_cases hex : tok.isExclusive = true
      · simp only [convertPartSegmentFrom, hline, if_false, hex, if_true]
        exact ih _ _ _ _
      · have hex2 : tok.isExclusive = false := by simpa using hex
        simp only [convertPartSegmentFrom, hline, if_false, hex2, Bool.false_eq_true,
          renderUntilFailure, ih]

/-- Without a rendered chord among the pointers every one of them is dispatched. -/
theorem renderUntilFailure_no_chord (lib : Convert) (ptrs : List TokenPtr)
    (c : HumdrumToLilypondConverter) (out : String)
    (h : ∀ p ∈ ptrs, isRenderedChord p.tok = false) :
    renderUntilFailure lib ptrs c out
      = ((renderAll lib ptrs c out).1, (renderAll lib ptrs c out).2, true) := by
  induction ptrs generalizing c out with
  | nil => rfl
  | cons p rest ih =>
    have hp : (convertPartSegmentToken lib c out p).2.2 = true := by
      rw [convertPartSegmentToken_status, h p (List.mem_cons_self _ _)]
      rfl
    simp only [renderUntilFailure, hp, Bool.true_eq_false, if_false, renderAll]
    exact ih _ _ (fun q hq => h q (List.mem_cons_of_mem _ hq))

/-- The dispatch on a rendered chord writes only the comment that echoes the token and
fails. -/
theorem convertPartSegmentToken_chord (lib : Convert) (c : HumdrumToLilypondConverter)
    (out : String) (token : TokenPtr) (h : isRenderedChord token.tok = true) :
    convertPartSegmentToken lib c out token
      = (c, out ++ "\t\t% " ++ token.tok.text ++ "\n", false) := by
  simp only [isRenderedChord, Bool.and_eq_true, Bool.not_eq_true'] at h
  obtain ⟨⟨⟨hd, hn⟩, hr⟩, hc⟩ := h
  simp [convertPartSegmentToken, convertDataToken, convertChord, hd, hn, hr, hc]

/-- Up to the first rendered chord every pointer is dispatched; the chord stops the
traversal. -/
theorem renderUntilFailure_chord (lib : Convert) (pre post : List TokenPtr) (chord : TokenPtr)
    (c : HumdrumToLilypondConverter) (out : String)
    (hpre : ∀ p ∈ pre, isRenderedChord p.tok = false)
    (hchord : isRenderedChord chord.tok = true) :
    renderUntilFailure lib (pre ++ chord :: post) c out
      = ((renderAll lib pre c out).1,
          (renderAll lib pre c out).2 ++ "\t\t% " ++ chord.tok.text ++ "\n", false) := by
  induction pre generalizing c out with
  | nil =>
    simp only [List.nil_append, renderUntilFailure, convertPartSegmentToken_chord lib c out chord
      hchord, if_true, renderAll]
  | cons p rest ih =>
    have hp : (convertPartSegmentToken lib c out p).2.2 = true := by
      rw [convertPartSegmentToken_status, hpre p (List.mem_cons_self _ _)]
      rfl
    simp only [List.cons_append, renderUntilFailure, hp, Bool.true_eq_false, if_false, renderAll]
    exact ih _ _ (fun q hq => hpre q (List.mem_cons_of_mem _ hq))

/-- The status of the traversal depends on the visited tokens only. -/
theorem renderUntilFailure_status (lib : Convert) (ptrs : List TokenPtr)
    (c : HumdrumToLilypondConverter) (out : String) :
    (renderUntilFailure lib ptrs c out).2.2 = !ptrs.any fun p => isRenderedChord p.tok := by
  induction ptrs generalizing c out with
  | nil => rfl
  | cons p rest ih =>
    simp only [renderUntilFailure, List.any_cons]
    split
    · rename_i hfalse
      rw [hfalse]
      rw [convertPartSegmentToken_status] at hfalse
      cases hc : isRenderedChord p.tok
      · rw [hc] at hfalse
        exact absurd hfalse (by decide)
      · rfl
    · rename_i htrue
      rw [convertPartSegmentToken_status] at htrue
      cases hc : isRenderedChord p.tok
      · simp [ih]
      · rw [hc] at htrue
        exact absurd rfl htrue

theorem convertClef_status (c : HumdrumToLilypondConverter) (out : String) (token : TokenPtr) :
    (convertClef c out token).2.2 = true := by
  unfold convertClef
  simp only [apply_ite (fun r : HumdrumToLilypondConverter × String × Bool => r.2.2), ite_self]

theorem convertKeySignature_status (c : HumdrumToLilypondConverter) (out : String)
    (token : TokenPtr) : (convertKeySignature c out token).2.2 = true := by
  unfold convertKeySignature
  simp only
  split
  · rfl
  · split <;> rfl

theorem mem_pointersFrom (before tokens : List HumdrumToken) (p : TokenPtr)
    (h : p ∈ pointersFrom before tokens) : p.tok ∈ tokens := by
  induction tokens generalizing before with
  | nil => simp [pointersFrom] at h
  | cons t rest ih =>
    simp only [pointersFrom, List.mem_cons] at h
    rcases h with h | h
    · rw [h]
      exact List.mem_cons_self _ _
    · exact List.mem_cons_of_mem _ (ih _ h)

/-- Along a part whose line indices do not decrease, the tokens before the first one at or
after `endline` are all the tokens with a line index below `endline`. -/
theorem takeWhile_pointersFrom (endline : Nat) (before tokens : List HumdrumToken)
    (hsorted : tokens.Pairwise fun a b => a.lineIndex ≤ b.lineIndex) :
    ((pointersFrom before tokens).takeWhile fun p => p.tok.lineIndex < endline)
      = (pointersFrom before tokens).filter fun p => p.tok.lineIndex < endline := by
  induction tokens generalizing before with
  | nil => simp [pointersFrom]
  | cons t rest ih =>
    rw [List.pairwise_cons] at hsorted
    by_cases hline : t.lineIndex < endline
    · simp only [pointersFrom, List.takeWhile_cons, hline, decide_True, if_true,
        List.filter_cons, ih (t :: before) hsorted.2]
    · have hnone : ((pointersFrom (t :: before) rest).filter
          fun p => p.tok.lineIndex < endline) = [] := by
        rw [List.filter_eq_nil_iff]
        intro p hp
        have := hsorted.1 p.tok (mem_pointersFrom _ _ p hp)
        simp only [decide_eq_true_eq]
        omega
      simp only [pointersFrom, List.takeWhile_cons, hline, decide_False, Bool.false_eq_true,
        if_false, List.filter_cons, hnone]

/-! ## Traversal of a segment: theorems -/

/-- C16. `convertClef` and `convertKeySignature` return true for every token, and for a part
that contains no chord `convertPartSegment` returns true and has applied the dispatch to every
token with a line index below the segment end (the exclusive interpretation that starts the
part is passed over), whatever errors are recorded on the way. -/
theorem recoverable_errors_never_stop (lib : Convert) :
    (∀ (c : HumdrumToLilypondConverter) (out : String) (token : TokenPtr),
        (convertClef c out token).2.2 = true)
      ∧ (∀ (c : HumdrumToLilypondConverter) (out : String) (token : TokenPtr),
        (convertKeySignature c out token).2.2 = true)
      ∧ (∀ (c : HumdrumToLilypondConverter) (out : String) (token : TokenPtr) (endline : Nat),
        (∀ t ∈ token.tok :: token.after, t.isChord = false) →
        (token.tok :: token.after).Pairwise (fun a b => a.lineIndex ≤ b.lineIndex) →
        convertPartSegment lib c out (some token) endline
          = ((renderAll lib
                ((pointersFrom token.before (token.tok :: token.after)).filter
                  fun p => decide (p.tok.lineIndex < endline) && !isPassedOver p) c out).1,
              (renderAll lib
                ((pointersFrom token.before (token.tok :: token.after)).filter
                  fun p => decide (p.tok.lineIndex < endline) && !isPassedOver p) c out).2,
              true)) := by
  refine ⟨convertClef_status, convertKeySignature_status, ?_⟩
  intro c out token endline hchord hsorted
  have hvis : visitedPointers endline token.before token.tok token.after
      = (pointersFrom token.before (token.tok :: token.after)).filter
          fun p => decide (p.tok.lineIndex < endline) && !isPassedOver p := by
    unfold visitedPointers
    rw [takeWhile_pointersFrom endline _ _ hsorted, List.filter_filter]
    congr 1
    funext p
    exact Bool.and_comm _ _
  have hno : ∀ p ∈ visitedPointers endline token.before token.tok token.after,
      isRenderedChord p.tok = false := by
    intro p hp
    have hmem : p.tok ∈ token.tok :: token.after := by
      apply mem_pointersFrom token.before
      unfold visitedPointers at hp
      exact List.takeWhile_subset _ (List.mem_of_mem_filter hp)
    simp [isRenderedChord, hchord p.tok hmem]
  show convertPartSegmentFrom lib endline token.before token.tok token.after c out = _
  rw [convertPartSegmentFrom_eq, renderUntilFailure_no_chord lib _ c out hno, hvis]

/-- Witness of C16: the part `**kern`, `*clefQ`, `*-`, whose clef is unknown. -/
theorem recoverable_errors_never_stop_witness :
    convertPartSegment sampleConvert (readyConverter bachFile) "" (some bachPart) 4
      = ((renderAll sampleConvert
            ((pointersFrom bachPart.before (bachPart.tok :: bachPart.after)).filter
              fun p => decide (p.tok.lineIndex < 4) && !isPassedOver p)
            (readyConverter bachFile) "").1,
          (renderAll sampleConvert
            ((pointersFrom bachPart.before (bachPart.tok :: bachPart.after)).filter
              fun p => decide (p.tok.lineIndex < 4) && !isPassedOver p)
            (readyConverter bachFile) "").2,
          true) :=
  (recoverable_errors_never_stop sampleConvert).2.2 (readyConverter bachFile) "" bachPart 4
    (by decide) (by decide)

/-! ## Members that the traversal leaves unchanged -/

theorem inputOf_addErrorMessage (c : HumdrumToLilypondConverter) (message : String)
    (token : HTp) : inputOf (addErrorMessage c message token) = inputOf c := by
  cases token <;> rfl

theorem inputOf_convertDuration (c : HumdrumToLilypondConverter) (out : String)
    (duration durationnodots : ℚ) (dots : Int) :
    inputOf (convertDuration c out duration durationnodots dots).1 = inputOf c := by
  unfold convertDuration
  simp only
  split <;> rfl

theorem inputOf_convertRest (lib : Convert) (c : HumdrumToLilypondConverter) (out : String)
    (token : TokenPtr) : inputOf (convertRest lib c out token).1 = inputOf c := by
  unfold convertRest
  simp only
  split
  · exact inputOf_convertDuration _ _ _ _ _
  · rfl

theorem inputOf_convertNoteRhythm (lib : Convert) (c : HumdrumToLilypondConverter)
    (out : String) (stok : String) :
    inputOf (convertNoteRhythm lib c out stok).1 = inputOf c := by
  unfold convertNoteRhythm
  simp only
  split
  · exact inputOf_convertDuration _ _ _ _ _
  · rfl

theorem inputOf_convertNote (lib : Convert) (c : HumdrumToLilypondConverter) (out : String)
    (token : TokenPtr) : inputOf (convertNote lib c out token).1 = inputOf c := by
  unfold convertNote
  simp only
  rw [inputOf_convertNoteRhythm]
  split <;> rfl

theorem inputOf_convertDataToken (lib : Convert) (c : HumdrumToLilypondConverter) (out : String)
    (token : TokenPtr) : inputOf (convertDataToken lib c out token).1 = inputOf c := by
  unfold convertDataToken
  split
  · rfl
  · split
    · rfl
    · split
      · exact inputOf_convertRest _ _ _ _
      · split
        · rfl
        · exact inputOf_convertNote _ _ _ _

theorem inputOf_convertClef (c : HumdrumToLilypondConverter) (out : String) (token : TokenPtr) :
    inputOf (convertClef c out token).1 = inputOf c := by
  unfold convertClef
  simp only [apply_ite (fun r : HumdrumToLilypondConverter × String × Bool => inputOf r.1),
    inputOf_addErrorMessage, ite_self]

theorem inputOf_convertKeySignature (c : HumdrumToLilypondConverter) (out : String)
    (token : TokenPtr) : inputOf (convertKeySignature c out token).1 = inputOf c := by
  unfold convertKeySignature
  simp only
  split
  · exact inputOf_addErrorMessage _ _ _
  · split
    · rfl
    · exact inputOf_addErrorMessage _ _ _

theorem inputOf_convertInterpretationToken (c : HumdrumToLilypondConverter) (out : String)
    (token : HTp) : inputOf (convertInterpretationToken c out token).1 = inputOf c := by
  unfold convertInterpretationToken
  split
  · rfl
  · split
    · exact inputOf_convertClef _ _ _
    · split
      · exact inputOf_convertKeySignature _ _ _
      · rfl

theorem inputOf_convertPartSegmentToken (lib : Convert) (c : HumdrumToLilypondConverter)
    (out : String) (token : TokenPtr) :
    inputOf (convertPartSegmentToken lib c out token).1 = inputOf c := by
  unfold convertPartSegmentToken
  split
  · rfl
  · split
    · exact inputOf_convertDataToken _ _ _ _
    · split
      · exact inputOf_convertInterpretationToken _ _ _
      · split <;> rfl

theorem inputOf_renderUntilFailure (lib : Convert) (ptrs : List TokenPtr)
    (c : HumdrumToLilypondConverter) (out : String) :
    inputOf (renderUntilFailure lib ptrs c out).1 = inputOf c := by
  induction ptrs generalizing c out with
  | nil => rfl
  | cons p rest ih =>
    simp only [renderUntilFailure]
    split
    · exact inputOf_convertPartSegmentToken _ _ _ _
    · rw [ih, inputOf_convertPartSegmentToken]

theorem inputOf_convertPartSegment (lib : Convert) (c : HumdrumToLilypondConverter)
    (out : String) (token : HTp) (endline : Nat) :
    inputOf (convertPartSegment lib c out token endline).1 = inputOf c := by
  unfold convertPartSegment
  split
  · rfl
  · rw [convertPartSegmentFrom_eq, inputOf_renderUntilFailure]

theorem inputOf_convertSegment (lib : Convert) (c : HumdrumToLilypondConverter) (out : String)
    (partindex startline endline : Nat) :
    inputOf (convertSegment lib c out partindex startline endline).1 = inputOf c := by
  unfold convertSegment
  split
  · rfl
  · exact inputOf_convertPartSegment _ _ _ _ _

theorem getStartTokens_congr (c d : HumdrumToLilypondConverter) (h : inputOf d = inputOf c)
    (partindex startline endline : Nat) :
    getStartTokens d partindex startline endline = getStartTokens c partindex startline endline := by
  simp only [inputOf, Prod.mk.injEq] at h
  unfold getStartTokens
  rw [h.1, h.2.1]

theorem segmentOk_congr (c d : HumdrumToLilypondConverter) (h : inputOf d = inputOf c)
    (partindex startline endline : Nat) :
    segmentOk d partindex startline endline = segmentOk c partindex startline endline := by
  unfold segmentOk
  rw [getStartTokens_congr c d h]

theorem partOk_congr (c d : HumdrumToLilypondConverter) (h : inputOf d = inputOf c)
    (partindex : Nat) : partOk d partindex = partOk c partindex := by
  have h2 := h
  simp only [inputOf, Prod.mk.injEq] at h2
  unfold partOk
  simp only [h2.1, h2.2.2.1, h2.2.2.2, segmentOk_congr c d h]

/-! ## Status of segments, parts and the conversion -/

theorem convertSegment_status (lib : Convert) (c : HumdrumToLilypondConverter) (out : String)
    (partindex startline endline : Nat) :
    (convertSegment lib c out partindex startline endline).2.2
      = segmentOk c partindex startline endline := by
  unfold convertSegment segmentOk
  split
  · rfl
  · simp only [convertPartSegment]
    rw [convertPartSegmentFrom_eq, renderUntilFailure_status]

theorem convertPartIteration_spec (lib : Convert) (partname : String) (partindex i : Nat)
    (c : HumdrumToLilypondConverter) (out : String) :
    (convertPartIteration lib partname partindex i c out).2.2
        = segmentOk c partindex (c.m_segments.getD i 0) (c.m_segments.getD (i + 1) 0)
      ∧ inputOf (convertPartIteration lib partname partindex i c out).1 = inputOf c := by
  unfold convertPartIteration
  simp only
  constructor
  · rw [convertSegment_status]
    exact segmentOk_congr c _ rfl _ _ _
  · rw [inputOf_convertSegment]
    rfl

theorem convertPartLoop_spec (lib : Convert) (partname : String) (partindex : Nat)
    (indices : List Nat) (c : HumdrumToLilypondConverter) (out : String) (status : Bool) :
    (convertPartLoop lib partname partindex indices c out status).2.2
        = (status && indices.all fun i =>
            segmentOk c partindex (c.m_segments.getD i 0) (c.m_segments.getD (i + 1) 0))
      ∧ inputOf (convertPartLoop lib partname partindex indices c out status).1 = inputOf c := by
  induction indices generalizing c out status with
  | nil => simp [convertPartLoop]
  | cons i rest ih =>
    obtain ⟨hst, hin⟩ := convertPartIteration_spec lib partname partindex i c out
    simp only [convertPartLoop, List.all_cons]
    split
    · rename_i hfail
      refine ⟨?_, hin⟩
      simp only [Bool.not_eq_true', Bool.and_eq_false_iff] at hfail
      rcases hfail with h | h
      · simp [h]
      · rw [h]
        rw [hst] at h
        rw [h]
        simp
    · rename_i hok
      simp only [Bool.not_eq_true', Bool.not_eq_false, Bool.and_eq_true] at hok
      obtain ⟨h1, h2⟩ := ih (convertPartIteration lib partname partindex i c out).1
        ((convertPartIteration lib partname partindex i c out).2.1 ++ "\x7d\n\n")
        (status && (convertPartIteration lib partname partindex i c out).2.2)
      refine ⟨?_, h2.trans hin⟩
      rw [h1]
      have hseg := hin
      simp only [inputOf, Prod.mk.injEq] at hseg
      rw [hst] at hok
      simp only [hok.1, hok.2, Bool.and_self, Bool.true_and, hseg.2.2.1, hst]
      congr 1
      funext j
      exact segmentOk_congr c _ hin _ _ _

theorem convertPart_spec (lib : Convert) (c : HumdrumToLilypondConverter) (out : String)
    (partname : String) (partindex : Nat) :
    (convertPart lib c out partname partindex).2.2 = partOk c partindex
      ∧ inputOf (convertPart lib c out partname partindex).1 = inputOf c := by
  unfold convertPart partOk
  simp only
  split
  · obtain ⟨h1, h2⟩ := convertPartLoop_spec lib partname partindex
      (List.range (c.m_segments.length - 1)) { c with m_states := StateVariables.clear } out true
    refine ⟨?_, h2⟩
    rw [h1, Bool.true_and]
    exact congrArg (List.all _) (funext fun j => segmentOk_congr c _ rfl _ _ _)
  · constructor
    · rw [Bool.true_and, convertSegment_status]
      exact segmentOk_congr c _ rfl _ _ _
    · rw [inputOf_convertSegment]
      rfl

theorem convertIteration_spec (lib : Convert) (i : Nat) (c : HumdrumToLilypondConverter)
    (tempout : String) :
    (convertIteration lib i c tempout).2.2 = partOk c i
      ∧ inputOf (convertIteration lib i c tempout).1 = inputOf c := by
  unfold convertIteration
  simp only
  constructor
  · rw [(convertPart_spec lib _ _ _ _).1]
    exact partOk_congr c _ rfl _
  · exact (convertPart_spec lib _ tempout _ i).2

theorem convertLoop_spec (lib : Convert) (indices : List Nat) (c : HumdrumToLilypondConverter)
    (tempout : String) (status : Bool) :
    (convertLoop lib indices c tempout status).2.2
        = (status && indices.all fun i => partOk c i)
      ∧ inputOf (convertLoop lib indices c tempout status).1 = inputOf c := by
  induction indices generalizing c tempout status with
  | nil => simp [convertLoop]
  | cons i rest ih =>
    obtain ⟨hst, hin⟩ := convertIteration_spec lib i c tempout
    simp only [convertLoop, List.all_cons]
    split
    · rename_i hfail
      refine ⟨?_, hin⟩
      simp only [Bool.not_eq_true', Bool.and_eq_false_iff] at hfail
      rcases hfail with h | h
      · simp [h]
      · rw [h]
        rw [hst] at h
        rw [h]
        simp
    · rename_i hok
      simp only [Bool.not_eq_true', Bool.not_eq_false, Bool.and_eq_true] at hok
      obtain ⟨h1, h2⟩ := ih (convertIteration lib i c tempout).1
        (convertIteration lib i c tempout).2.1 (status && (convertIteration lib i c tempout).2.2)
      refine ⟨?_, h2.trans hin⟩
      rw [h1]
      rw [hst] at hok
      simp only [hok.1, hok.2, Bool.and_self, Bool.true_and, hst]
      congr 1
      funext j
      exact partOk_congr c _ hin _

theorem convert_status (lib : Convert) (c : HumdrumToLilypondConverter) (out : String)
    (h : c.m_infile.kernSpineStartList ≠ []) :
    (convert lib c out).2.2
      = (List.range c.m_infile.kernSpineStartList.length).all
          (partOk (extractSegments
            { c with m_kernstarts := c.m_infile.kernSpineStartList.reverse })) := by
  have hlen : ¬ c.m_infile.kernSpineStartList.length = 0 := by
    intro h0
    exact h (List.length_eq_zero.mp h0)
  unfold convert
  simp only [hlen, if_false]
  rw [(convertLoop_spec lib _ _ _ _).1, Bool.true_and]
  simp only [extractSegments, List.length_reverse]
  exact congrArg (List.all _) (funext fun j => partOk_congr _ _ rfl _)

/-! ## Chords: theorem -/

/-- C15. When the traversal of a segment reaches a rendered chord, `convertPartSegment` writes
the text of the tokens before it and the comment that echoes the chord, nothing for any token
after it, and returns false. The status of `convertSegment` is false exactly when the segment
has no start token or its traversal reaches such a chord, the status of `convertPart` is the
conjunction of the statuses of its segments, and the status of `convert` is the conjunction of
the statuses of its parts: a chord in any part makes `convert` return false. -/
theorem chord_aborts_conversion (lib : Convert) :
    (∀ (c : HumdrumToLilypondConverter) (out : String) (token : TokenPtr) (endline : Nat)
        (pre post : List TokenPtr) (chord : TokenPtr),
        visitedPointers endline token.before token.tok token.after = pre ++ chord :: post →
        (∀ p ∈ pre, isRenderedChord p.tok = false) →
        isRenderedChord chord.tok = true →
        convertPartSegment lib c out (some token) endline
          = ((renderAll lib pre c out).1,
              (renderAll lib pre c out).2 ++ "\t\t% " ++ chord.tok.text ++ "\n", false))
      ∧ (∀ (c : HumdrumToLilypondConverter) (out : String) (partindex startline endline : Nat),
        (convertSegment lib c out partindex startline endline).2.2
          = segmentOk c partindex startline endline)
      ∧ (∀ (c : HumdrumToLilypondConverter) (out : String) (partname : String)
          (partindex : Nat),
        (convertPart lib c out partname partindex).2.2 = partOk c partindex)
      ∧ (∀ (c : HumdrumToLilypondConverter) (out : String),
        c.m_infile.kernSpineStartList ≠ [] →
        (convert lib c out).2.2
          = (List.range c.m_infile.kernSpineStartList.length).all
              (partOk (extractSegments
                { c with m_kernstarts := c.m_infile.kernSpineStartList.reverse }))) := by
  refine ⟨?_, convertSegment_status lib, fun c out partname partindex =>
    (convertPart_spec lib c out partname partindex).1, convert_status lib⟩
  intro c out token endline pre post chord hvis hpre hchord
  show convertPartSegmentFrom lib endline token.before token.tok token.after c out = _
  rw [convertPartSegmentFrom_eq, hvis, renderUntilFailure_chord lib pre post chord c out hpre
    hchord]

/-- Witness of C15: in the part `**kern`, `4c 4e`, `4r` the first data token is a chord; the
traversal stops at it and `convert` returns false. -/
theorem chord_aborts_conversion_witness :
    convertPartSegment sampleConvert (readyConverter chordFile) "" (some chordPart) 3
        = ((renderAll sampleConvert [] (readyConverter chordFile) "").1,
            (renderAll sampleConvert [] (readyConverter chordFile) "").2 ++ "\t\t% "
              ++ chordPointer.tok.text ++ "\n", false)
      ∧ (convert sampleConvert (converterFor chordFile) "").2.2 = false :=
  ⟨(chord_aborts_conversion sampleConvert).1 (readyConverter chordFile) "" chordPart 3 []
      [{ before := [chordToken "4c 4e" 1 0, kernToken 0], tok := dataToken "4r" 2 1 true,
          after := [] }]
      chordPointer (by decide) (by decide) (by decide),
    ((chord_aborts_conversion sampleConvert).2.2.2 (converterFor chordFile) ""
      (by decide)).trans (by decide)⟩

/-! ## The output stream only grows -/

theorem convertDuration_out (c : HumdrumToLilypondConverter) (out : String)
    (duration durationnodots : ℚ) (dots : Int) :
    convertDuration c out duration durationnodots dots
      = ((convertDuration c "" duration durationnodots dots).1,
          out ++ (convertDuration c "" duration durationnodots dots).2) := by
  unfold convertDuration
  simp only
  split
  · simp
  · simp only [printDots_eq, String.append_assoc, String.empty_append]

theorem convertArticulations_out (out stok : String) :
    convertArticulations out stok = out ++ convertArticulations "" stok := by
  unfold convertArticulations
  split <;> simp

theorem convertRest_out (lib : Convert) (c : HumdrumToLilypondConverter) (out : String)
    (token : TokenPtr) :
    convertRest lib c out token
      = ((convertRest lib c "" token).1, out ++ (convertRest lib c "" token).2.1,
          (convertRest lib c "" token).2.2) := by
  unfold convertRest
  simp only
  split
  · rw [convertDuration_out c (out ++ "r"), convertDuration_out c ("" ++ "r"),
      convertArticulations_out (out ++ "r" ++ _), convertArticulations_out ("" ++ "r" ++ _)]
    simp only [String.append_assoc, String.empty_append]
  · rw [convertArticulations_out (out ++ "r"), convertArticulations_out ("" ++ "r")]
    simp only [String.append_assoc, String.empty_append]

theorem convertNoteRhythm_out (lib : Convert) (c : HumdrumToLilypondConverter) (out : String)
    (stok : String) :
    convertNoteRhythm lib c out stok
      = ((convertNoteRhythm lib c "" stok).1, out ++ (convertNoteRhythm lib c "" stok).2.1,
          (convertNoteRhythm lib c "" stok).2.2) := by
  unfold convertNoteRhythm
  simp only
  split
  · rw [convertDuration_out c out, convertDuration_out c "",
      convertArticulations_out (out ++ _ ++ _ ++ _), convertArticulations_out ("" ++ _ ++ _ ++ _)]
    simp only [String.append_assoc, String.empty_append]
  · rw [convertArticulations_out (out ++ _ ++ _), convertArticulations_out ("" ++ _ ++ _)]
    simp only [String.append_assoc, String.empty_append]

theorem convertNote_out (lib : Convert) (c : HumdrumToLilypondConverter) (out : String)
    (token : TokenPtr) :
    convertNote lib c out token
      = ((convertNote lib c "" token).1, out ++ (convertNote lib c "" token).2.1,
          (convertNote lib c "" token).2.2) := by
  unfold convertNote
  simp only
  rw [convertNoteRhythm_out lib _ (out ++ _ ++ _ ++ _ ++ _),
    convertNoteRhythm_out lib _ ("" ++ _ ++ _ ++ _ ++ _)]
  simp only [String.append_assoc, String.empty_append]

theorem convertDataToken_out (lib : Convert) (c : HumdrumToLilypondConverter) (out : String)
    (token : TokenPtr) :
    convertDataToken lib c out token
      = ((convertDataToken lib c "" token).1, out ++ (convertDataToken lib c "" token).2.1,
          (convertDataToken lib c "" token).2.2) := by
  unfold convertDataToken
  split
  · simp
  · split
    · simp
    · split
      · exact convertRest_out lib c out token
      · split
        · simp [convertChord]
        · exact convertNote_out lib c out token

theorem ite_out {p : Prop} [Decidable p] (a b a0 b0 : HumdrumToLilypondConverter × String × Bool)
    (out : String) (ha : a = (a0.1, out ++ a0.2.1, a0.2.2))
    (hb : b = (b0.1, out ++ b0.2.1, b0.2.2)) :
    (if p then a else b)
      = ((if p then a0 else b0).1, out ++ (if p then a0 else b0).2.1,
          (if p then a0 else b0).2.2) := by
  split <;> assumption

theorem convertClef_out (c : HumdrumToLilypondConverter) (out : String) (token : TokenPtr) :
    convertClef c out token
      = ((convertClef c "" token).1, out ++ (convertClef c "" token).2.1,
          (convertClef c "" token).2.2) := by
  unfold convertClef
  simp only
  iterate 11 refine ite_out _ _ _ _ out (by simp) ?_
  simp

theorem convertKeySignature_out (c : HumdrumToLilypondConverter) (out : String)
    (token : TokenPtr) :
    convertKeySignature c out token
      = ((convertKeySignature c "" token).1, out ++ (convertKeySignature c "" token).2.1,
          (convertKeySignature c "" token).2.2) := by
  unfold convertKeySignature
  simp only
  split
  · simp
  · split
    · simp only [String.append_assoc, String.empty_append]
    · simp

theorem convertInterpretationToken_out (c : HumdrumToLilypondConverter) (out : String)
    (token : HTp) :
    convertInterpretationToken c out token
      = ((convertInterpretationToken c "" token).1,
          out ++ (convertInterpretationToken c "" token).2.1,
          (convertInterpretationToken c "" token).2.2) := by
  unfold convertInterpretationToken
  split
  · simp
  · split
    · rw [convertClef_out c (out ++ _), convertClef_out c ("" ++ _)]
      simp only [String.append_assoc, String.empty_append]
    · split
      · rw [convertKeySignature_out c (out ++ _), convertKeySignature_out c ("" ++ _)]
        simp only [String.append_assoc, String.empty_append]
      · simp

theorem convertPartSegmentToken_out (lib : Convert) (c : HumdrumToLilypondConverter)
    (out : String) (token : TokenPtr) :
    convertPartSegmentToken lib c out token
      = ((convertPartSegmentToken lib c "" token).1,
          out ++ (convertPartSegmentToken lib c "" token).2.1,
          (convertPartSegmentToken lib c "" token).2.2) := by
  unfold convertPartSegmentToken
  split
  · simp
  · split
    · simp only
      rw [convertDataToken_out lib c out]
      simp only [String.append_assoc]
    · split
      · simp only
        rw [convertInterpretationToken_out c out]
        simp only [String.append_assoc]
      · split <;> simp only [String.append_assoc, String.empty_append]

theorem renderUntilFailure_out (lib : Convert) (ptrs : List TokenPtr)
    (c : HumdrumToLilypondConverter) (out : String) :
    renderUntilFailure lib ptrs c out
      = ((renderUntilFailure lib ptrs c "").1, out ++ (renderUntilFailure lib ptrs c "").2.1,
          (renderUntilFailure lib ptrs c "").2.2) := by
  induction ptrs generalizing c out with
  | nil => simp [renderUntilFailure]
  | cons p rest ih =>
    have hp := convertPartSegmentToken_out lib c out p
    simp only [renderUntilFailure]
    rw [hp]
    simp only
    split
    · rfl
    · rw [ih _ (out ++ _), ih _ (convertPartSegmentToken lib c "" p).2.1]
      simp only [String.append_assoc]

theorem convertPartSegment_out (lib : Convert) (c : HumdrumToLilypondConverter) (out : String)
    (token : HTp) (endline : Nat) :
    convertPartSegment lib c out token endline
      = ((convertPartSegment lib c "" token endline).1,
          out ++ (convertPartSegment lib c "" token endline).2.1,
          (convertPartSegment lib c "" token endline).2.2) := by
  unfold convertPartSegment
  split
  · simp
  · simp only [convertPartSegmentFrom_eq]
    exact renderUntilFailure_out lib _ c out

theorem convertSegment_out (lib : Convert) (c : HumdrumToLilypondConverter) (out : String)
    (partindex startline endline : Nat) :
    convertSegment lib c out partindex startline endline
      = ((convertSegment lib c "" partindex startline endline).1,
          out ++ (convertSegment lib c "" partindex startline endline).2.1,
          (convertSegment lib c "" partindex startline endline).2.2) := by
  unfold convertSegment
  split
  · simp
  · exact convertPartSegment_out lib c out _ endline

theorem printRelativeStartingPitch_out (lib : Convert) (c : HumdrumToLilypondConverter)
    (out : String) (partindex startline endline : Nat) :
    printRelativeStartingPitch lib c out partindex startline endline
      = (out ++ (printRelativeStartingPitch lib c "" partindex startline endline).1,
          (printRelativeStartingPitch lib c "" partindex startline endline).2) := by
  unfold printRelativeStartingPitch
  simp only
  split
  · simp
  · simp only [printMarks_eq, String.append_assoc, String.empty_append,
      apply_ite (fun r : String => out ++ r)]

theorem convertPartIteration_out (lib : Convert) (partname : String) (partindex i : Nat)
    (c : HumdrumToLilypondConverter) (out : String) :
    convertPartIteration lib partname partindex i c out
      = ((convertPartIteration lib partname partindex i c "").1,
          out ++ (convertPartIteration lib partname partindex i c "").2.1,
          (convertPartIteration lib partname partindex i c "").2.2) := by
  unfold convertPartIteration
  simp only
  rw [printRelativeStartingPitch_out lib _ (out ++ _ ++ _),
    printRelativeStartingPitch_out lib _ ("" ++ _ ++ _)]
  simp only
  rw [convertSegment_out lib _ (out ++ _ ++ _ ++ _ ++ _),
    convertSegment_out lib _ ("" ++ _ ++ _ ++ _ ++ _)]
  simp only [String.append_assoc, String.empty_append]

theorem convertPartLoop_out (lib : Convert) (partname : String) (partindex : Nat)
    (indices : List Nat) (c : HumdrumToLilypondConverter) (out : String) (status : Bool) :
    convertPartLoop lib partname partindex indices c out status
      = ((convertPartLoop lib partname partindex indices c "" status).1,
          out ++ (convertPartLoop lib partname partindex indices c "" status).2.1,
          (convertPartLoop lib partname partindex indices c "" status).2.2) := by
  induction indices generalizing c out status with
  | nil => simp [convertPartLoop]
  | cons i rest ih =>
    simp only [convertPartLoop]
    rw [convertPartIteration_out lib partname partindex i c out]
    simp only
    split
    · rfl
    · rw [ih _ (out ++ _ ++ _), ih _ ((convertPartIteration lib partname partindex i c "").2.1 ++ _)]
      simp only [String.append_assoc]

theorem convertPart_out (lib : Convert) (c : HumdrumToLilypondConverter) (out : String)
    (partname : String) (partindex : Nat) :
    convertPart lib c out partname partindex
      = ((convertPart lib c "" partname partindex).1,
          out ++ (convertPart lib c "" partname partindex).2.1,
          (convertPart lib c "" partname partindex).2.2) := by
  unfold convertPart
  simp only
  split
  · exact convertPartLoop_out lib partname partindex _ _ out true
  · rw [printRelativeStartingPitch_out lib _ (out ++ _ ++ _),
      printRelativeStartingPitch_out lib _ ("" ++ _ ++ _)]
    simp only
    rw [convertSegment_out lib _ (out ++ _ ++ _ ++ _ ++ _),
      convertSegment_out lib _ ("" ++ _ ++ _ ++ _ ++ _)]
    simp only [String.append_assoc, String.empty_append]

theorem convertIteration_out (lib : Convert) (i : Nat) (c : HumdrumToLilypondConverter)
    (tempout : String) :
    convertIteration lib i c tempout
      = ((convertIteration lib i c "").1, tempout ++ (convertIteration lib i c "").2.1,
          (convertIteration lib i c "").2.2) := by
  unfold convertIteration
  simp only
  rw [convertPart_out lib _ tempout]

theorem convertLoop_out (lib : Convert) (indices : List Nat) (c : HumdrumToLilypondConverter)
    (tempout : String) (status : Bool) :
    convertLoop lib indices c tempout status
      = ((convertLoop lib indices c "" status).1,
          tempout ++ (convertLoop lib indices c "" status).2.1,
          (convertLoop lib indices c "" status).2.2) := by
  induction indices generalizing c tempout status with
  | nil => simp [convertLoop]
  | cons i rest ih =>
    simp only [convertLoop]
    rw [convertIteration_out lib i c tempout]
    simp only
    split
    · rfl
    · rw [ih _ (tempout ++ _), ih _ (convertIteration lib i c "").2.1]
      simp only [String.append_assoc]

/-! ## Order of the document -/

theorem printErrorLines_out (messages : List String) (out : String) :
    printErrorLines messages out = out ++ printErrorLines messages "" := by
  induction messages generalizing out with
  | nil => simp [printErrorLines]
  | cons message rest ih =>
    simp only [printErrorLines]
    rw [ih (out ++ _ ++ _ ++ _), ih ("" ++ _ ++ _ ++ _)]
    simp only [String.append_assoc, String.empty_append]

theorem printErrorMessages_out (c : HumdrumToLilypondConverter) (out : String) :
    printErrorMessages c out = out ++ printErrorMessages c "" := by
  unfold printErrorMessages
  simp only
  rw [printErrorLines_out]
  split <;> simp only [String.append_assoc]

theorem printFooterComments_out (c : HumdrumToLilypondConverter) (out : String) :
    printFooterComments c out = out ++ printFooterComments c "" := by
  simp [printFooterComments]

/-- The stream written by `convert` for a file with parts, in terms of the loop over the
parts. -/
theorem convert_stream (lib : Convert) (c : HumdrumToLilypondConverter) (out : String)
    (h : c.m_infile.kernSpineStartList ≠ []) :
    (convert lib c out).2.1
      = printErrorMessages (convert lib c out).1 out
          ++ printFooterComments (convert lib c out).1
              ((convertLoop lib (List.range (preparedConverter c).m_kernstarts.length)
                  (preparedConverter c)
                  (printHeader c (printHeaderComments c "" ++ "\\version \""
                    ++ c.m_options.version ++ "\"\n\n")) true).2.1
                ++ (convert lib c out).1.m_staffout ++ (convert lib c out).1.m_scoreout) := by
  have hlen : ¬ c.m_infile.kernSpineStartList.length = 0 := by
    intro h0
    exact h (List.length_eq_zero.mp h0)
  unfold convert
  simp only [hlen, if_false]
  rfl

theorem preparedConverter_parts (c : HumdrumToLilypondConverter) :
    (preparedConverter c).m_kernstarts.length = c.m_infile.kernSpineStartList.length := by
  simp [preparedConverter, extractSegments]

set_option maxRecDepth 100000 in
/-- C18 as stated fails. For the file `!!!COM: Bach`, `**kern`, `*clefQ`, `*-` the document
starts with the error preamble (the unknown clef), and the copied header comment line comes
after it. -/
theorem convert_preamble_first :
    (convert sampleConvert (converterFor bachFile) "").2.1
      = "% Error: unknown clef: *clefQ\n% \tLine:  3\n% \tField: 1\n\n"
          ++ "%%%COM: Bach\n\n"
          ++ "\\version \"2.18.2\"\n\n\\header \x7b\n  tagline = \"\"\n\x7d\n\n"
          ++ "partI =\x7b\n  \t\t% *clefQ\n\t\t% *-\n\x7d\n\n"
          ++ "partI = \\new Staff \x7b\n  \n\x7d\n\n"
          ++ "\\score \x7b\n  <<\n  \x7b \\partI \x7d\n  >>\n\x7d\n"
      ∧ printHeaderComments (converterFor bachFile) "" = "%%%COM: Bach\n\n"
      ∧ printErrorMessages (convert sampleConvert (converterFor bachFile) "").1 ""
        = "% Error: unknown clef: *clefQ\n% \tLine:  3\n% \tField: 1\n\n" := by
  decide

/-- C18 as amended. For a file with at least one part, the document written by `convert` is, in
this order: the error preamble (empty without errors), the header comment block, the version
line, the header block, the text written by the loop over the parts (the per-segment
assignments), the staff blocks collected in `m_staffout`, the score block collected in
`m_scoreout`, and the footer comments. -/
theorem convert_document_order (lib : Convert) (c : HumdrumToLilypondConverter) (out : String)
    (h : c.m_infile.kernSpineStartList ≠ []) :
    (convert lib c out).2.1
      = out ++ printErrorMessages (convert lib c out).1 ""
          ++ printHeaderComments c ""
          ++ ("\\version \"" ++ c.m_options.version ++ "\"\n\n")
          ++ printHeader c ""
          ++ (convertLoop lib (List.range c.m_infile.kernSpineStartList.length)
              (preparedConverter c) "" true).2.1
          ++ (convert lib c out).1.m_staffout
          ++ (convert lib c out).1.m_scoreout
          ++ printFooterComments (convert lib c out).1 "" := by
  rw [convert_stream lib c out h, printErrorMessages_out, printFooterComments_out,
    convertLoop_out, preparedConverter_parts]
  simp only [printHeader, String.append_assoc, String.empty_append]

/-- Witness of amended C18: the file `!!!COM: Bach`, `**kern`, `*clefQ`, `*-`. -/
theorem convert_document_order_witness :
    (convert sampleConvert (converterFor bachFile) "").2.1
      = "" ++ printErrorMessages (convert sampleConvert (converterFor bachFile) "").1 ""
          ++ printHeaderComments (converterFor bachFile) ""
          ++ ("\\version \"" ++ (converterFor bachFile).m_options.version ++ "\"\n\n")
          ++ printHeader (converterFor bachFile) ""
          ++ (convertLoop sampleConvert
              (List.range (converterFor bachFile).m_infile.kernSpineStartList.length)
              (preparedConverter (converterFor bachFile)) "" true).2.1
          ++ (convert sampleConvert (converterFor bachFile) "").1.m_staffout
          ++ (convert sampleConvert (converterFor bachFile) "").1.m_scoreout
          ++ printFooterComments (convert sampleConvert (converterFor bachFile) "").1 "" :=
  convert_document_order sampleConvert (converterFor bachFile) "" (by decide)

/-! ## Footer comments and staff blocks -/

/-- C21 (code defect): `printFooterComments` writes nothing at all. On the file `**kern`, `4c`,
`*-`, `!!!ONB: end` the loop collects the comment `%%%ONB: end` in `tout`, but `count` is
never incremented, so the final `if (count)` discards it: the stream is returned unchanged,
for this and for every other file. -/
theorem printFooterComments_writes_nothing :
    printFooterCommentsLoop ((converterFor footerFile).m_infile.lines.drop 1).reverse "" =
        "%%%ONB: end\n" ∧
      printFooterComments (converterFor footerFile) "\\score\n" = "\\score\n" ∧
      ∀ (c : HumdrumToLilypondConverter) (out : String), printFooterComments c out = out := by
  refine ⟨by decide, by decide, ?_⟩
  intro c out
  simp [printFooterComments]

set_option maxRecDepth 100000 in
/-- C23 (code defect): for a part without labels `convertPart` writes the named block `partI`
to the stream but no reference to it into the staff buffer: on the file `!!!COM: Bach`,
`**kern`, `*clefQ`, `*-` the staff block is `partI = \new Staff` with an empty body, and
the text `\partI` occurs nowhere in the staff buffer. For the labelled part `**kern`, `*>A`,
`*clefG2`, `*-` the staff block does refer to the block `partIZA`. -/
theorem unlabelled_staff_block_is_empty :
    (convert sampleConvert (converterFor bachFile) "").1.m_staffout =
        "partI = \\new Staff \x7b\n  \n\x7d\n\n" ∧
      find (convert sampleConvert (converterFor bachFile) "").1.m_staffout "\\partI" = npos ∧
      (convert sampleConvert (converterFor bachFile) "").1.m_labels = [] ∧
      (convert sampleConvert (converterFor labelledFile) "").1.m_staffout =
        "partI = \\new Staff \x7b\n  \\partIZA \n\x7d\n\n" := by
  decide

/-! ## Rests, tonic spelling and key designations -/

theorem convertRest_states (lib : Convert) (c : HumdrumToLilypondConverter) (out : String)
    (token : TokenPtr) :
    (convertRest lib c out token).1.m_states
      = { duration := lib.recipToDuration (lib.getSubtoken token.tok 0),
          dots := characterCount (lib.getSubtoken token.tok 0) '.',
          pitch := c.m_states.pitch } := by
  unfold convertRest
  simp only
  split
  · rw [convertDuration_states]
  · rename_i h
    simp only [not_or, not_not] at h
    rw [h.1, h.2]

/-- C29. `convertRest` leaves the tracked pitch as it was and leaves the tracker with the
duration and the dot count of the rest; a data token that is a rest is rendered by `convertRest`,
and a null token changes neither the converter nor the stream. -/
theorem rest_and_null_keep_pitch (lib : Convert) (c : HumdrumToLilypondConverter) (out : String)
    (token : TokenPtr) :
    (convertRest lib c out token).1.m_states
        = { duration := lib.recipToDuration (lib.getSubtoken token.tok 0),
            dots := characterCount (lib.getSubtoken token.tok 0) '.',
            pitch := c.m_states.pitch }
      ∧ (token.tok.isNull = false → token.tok.isData = true → token.tok.isRest = true →
          (convertPartSegmentToken lib c out token).1 = (convertRest lib c out token).1)
      ∧ (token.tok.isNull = true →
          convertPartSegmentToken lib c out token = (c, out, true)
            ∧ convertDataToken lib c out token = (c, out, true)) := by
  refine ⟨convertRest_states lib c out token, ?_, ?_⟩
  · intro hnull hdata hrest
    simp [convertPartSegmentToken, convertDataToken, hnull, hdata, hrest]
  · intro hnull
    simp [convertPartSegmentToken, convertDataToken, hnull]

/-- Witness for C29: after the quarter-note middle C, the quarter rest `4r` and the null token
`.` both leave the tracked pitch 162. -/
theorem rest_and_null_keep_pitch_witness :
    (convertPartSegmentToken sampleConvert afterMiddleC "" sampleRest).1.m_states.pitch = 162
      ∧ (convertPartSegmentToken sampleConvert afterMiddleC "" sampleNull).1.m_states.pitch
        = 162 := by
  have hrest := rest_and_null_keep_pitch sampleConvert afterMiddleC "" sampleRest
  have hnull := rest_and_null_keep_pitch sampleConvert afterMiddleC "" sampleNull
  refine ⟨?_, ?_⟩
  · rw [hrest.2.1 rfl rfl rfl, hrest.1]
    rfl
  · rw [(hnull.2.2 rfl).1]
    rfl

theorem tonicLoop_eq (letters : List Char) (tonic : String) :
    tonicLoop letters tonic
      = tonic ++ concatTexts ((letters.takeWhile fun letter => letter != ':').map spellLetter) := by
  induction letters generalizing tonic with
  | nil => simp [tonicLoop, concatTexts]
  | cons letter rest ih =>
    unfold tonicLoop
    by_cases h1 : letter = ':'
    · simp [h1, concatTexts]
    · by_cases h2 : letter = '#'
      · simp [h1, h2, ih, List.takeWhile_cons, concatTexts, spellLetter, String.append_assoc]
      · by_cases h3 : letter = '-'
        · simp [h1, h3, ih, List.takeWhile_cons, concatTexts, spellLetter, String.append_assoc]
        · simp only [h1, h2, h3, if_false, ih, List.takeWhile_cons, bne_iff_ne, ne_eq,
            not_false_eq_true, decide_True, if_true, List.map_cons, concatTexts, spellLetter]
          apply String.ext
          simp [String.singleton]

/-- C25. The tonic that `convertKeySignature` derives from a key designation is the
concatenation of the spellings of its characters from index 1 up to the first `:`: `is` for
`#`, `es` for `-` and the lower-cased character otherwise; so `*E-:` gives `ees`, `*f#:` gives
`fis` and `*C:` gives `c`. When the tables accept the key signature, this tonic is the one
written after `\key`. -/
theorem designationTonic_spelled (c : HumdrumToLilypondConverter) (out : String)
    (token : TokenPtr) (accids : Int) (d : HumdrumToken)
    (haccids : tokenAccids token.tok.text = some accids)
    (hd : getKeyDesignation (some token) = some d)
    (haccept : keyBlocksAccept (designationMode d.text) accids (spelledTonic d.text) = true) :
    designationTonic d.text = spelledTonic d.text
      ∧ (convertKeySignature c out token).2.1
        = out ++ "\\key " ++ spelledTonic d.text ++ " \\" ++ designationMode d.text
      ∧ designationTonic "*E-:" = "ees" ∧ designationTonic "*f#:" = "fis"
      ∧ designationTonic "*C:" = "c" := by
  have hspell : designationTonic d.text = spelledTonic d.text := by
    unfold designationTonic spelledTonic
    rw [tonicLoop_eq]
    apply String.ext
    simp
  refine ⟨hspell, ?_, by decide, by decide, by decide⟩
  unfold convertKeySignature
  simp only [haccids, hd, hspell, haccept, if_true]

/-- Witness for C25: the empty key signature with the designation `*d:dor` is written as
`\key d \dorian`. -/
theorem designationTonic_spelled_witness :
    designationTonic "*d:dor" = spelledTonic "*d:dor"
      ∧ (convertKeySignature HumdrumToLilypondConverter.init ""
          (keySignatureWithDesignation "*k[]" "*d:dor")).2.1 = "\\key d \\dorian" := by
  have h := designationTonic_spelled HumdrumToLilypondConverter.init ""
    (keySignatureWithDesignation "*k[]" "*d:dor") 0 (keyDesignationToken "*d:dor")
    (by decide) (by decide) (by decide)
  exact ⟨h.1, h.2.1⟩

theorem scanKeyDesignation_eq (timestamp : ℚ) (stream : List HumdrumToken) :
    scanKeyDesignation timestamp stream = nearestDesignation timestamp stream := by
  induction stream with
  | nil => simp [scanKeyDesignation, nearestDesignation]
  | cons ttok rest ih =>
    unfold scanKeyDesignation nearestDesignation
    by_cases h1 : ttok.durationFromStart = timestamp
    · cases h2 : ttok.isData
      · cases h3 : ttok.isKeyDesignation
        · simp only [h1, h2, h3, if_true, Bool.false_eq_true, if_false, ih,
            List.takeWhile_cons, decide_True, Bool.not_false, Bool.and_self, List.find?_cons]
          rfl
        · simp [h1, h2, h3, List.takeWhile_cons]
      · simp [h1, h2, List.takeWhile_cons]
    · simp [h1, List.takeWhile_cons]

/-- C26. `getKeyDesignation` returns NULL for a NULL token. Otherwise it returns the nearest
key designation after the token among the tokens met before the first one that has another time
position or is a data token; only when there is none, the nearest one before the token under
the same conditions, which is NULL when there is none either. -/
theorem getKeyDesignation_spec (p : TokenPtr) (d : HumdrumToken) :
    getKeyDesignation none = none
      ∧ (nearestDesignation p.tok.durationFromStart p.after = some d →
          getKeyDesignation (some p) = some d)
      ∧ (nearestDesignation p.tok.durationFromStart p.after = none →
          getKeyDesignation (some p) = nearestDesignation p.tok.durationFromStart p.before) := by
  refine ⟨rfl, ?_, ?_⟩
  · intro h
    simp only [getKeyDesignation, scanKeyDesignation_eq, h]
  · intro h
    simp only [getKeyDesignation, scanKeyDesignation_eq, h]

/-- Witness for C26: with `*C:` before and `*G:` after the key signature, the designation after
it is returned; with `*C:` before it only, that one is. -/
theorem getKeyDesignation_spec_witness :
    getKeyDesignation (some designationOnBothSides) = some (keyDesignationToken "*G:")
      ∧ getKeyDesignation (some designationBefore) = some (keyDesignationToken "*C:") := by
  refine ⟨(getKeyDesignation_spec designationOnBothSides (keyDesignationToken "*G:")).2.1
    (by decide), ?_⟩
  rw [(getKeyDesignation_spec designationBefore (keyDesignationToken "*C:")).2.2 (by decide)]
  decide

/-! ## Tables of keys -/

theorem keyBlocksAccept_iff (mode : String) (accids : Int) (tonic : String) :
    keyBlocksAccept mode accids tonic = true ↔ tonic ∈ acceptedTonics mode accids := by
  simp only [keyBlocksAccept, acceptedTonics, List.any_eq_true, Bool.and_eq_true, beq_iff_eq,
    List.mem_flatMap, List.mem_filter, List.mem_map]
  constructor
  · rintro ⟨block, hb, hm, entry, he, h1, h2⟩
    exact ⟨block, ⟨hb, hm⟩, entry, ⟨he, h1⟩, h2.symm⟩
  · rintro ⟨block, ⟨hb, hm⟩, entry, ⟨he, h1⟩, h2⟩
    exact ⟨block, hb, hm, entry, he, h1, h2.symm⟩

theorem mem_accidentalCounts (n : Int) (h1 : -7 ≤ n) (h2 : n ≤ 7) : n ∈ accidentalCounts := by
  unfold accidentalCounts
  interval_cases n <;> simp

theorem acceptedTonics_transposed :
    ∀ entry ∈ modeOffsets, ∀ n ∈ accidentalCounts, n + entry.2 ∈ accidentalCounts →
      acceptedTonics entry.1 n = acceptedTonics "major" (n + entry.2) := by
  decide

theorem acceptedTonics_single :
    ∀ mode ∈ modeNames, ∀ n ∈ accidentalCounts, (acceptedTonics mode n).length = 1 := by
  decide

/-- C24. For each mode other than major and ionian, with its offset `k` (lydian -1,
mixolydian 1, dorian 2, minor and aeolian 3, phrygian 4, locrian 5), and every accidental count
`n` with `n` and `n + k` between -7 and 7, the tables accept a tonic for the mode at `n` exactly
when they accept it for major at `n + k`; and for each of the nine modes and every `n` between
-7 and 7 exactly one tonic is accepted. -/
theorem keyBlocks_transposed (mode : String) (k n : Int) (hmode : (mode, k) ∈ modeOffsets)
    (h1 : -7 ≤ n) (h2 : n ≤ 7) :
    (-7 ≤ n + k → n + k ≤ 7 →
        ∀ tonic, keyBlocksAccept mode n tonic = keyBlocksAccept "major" (n + k) tonic)
      ∧ ∀ m ∈ modeNames, ∃! tonic, keyBlocksAccept m n tonic = true := by
  have hn := mem_accidentalCounts n h1 h2
  refine ⟨?_, ?_⟩
  · intro h3 h4 tonic
    have h := acceptedTonics_transposed (mode, k) hmode n hn (mem_accidentalCounts _ h3 h4)
    rw [Bool.eq_iff_iff, keyBlocksAccept_iff, keyBlocksAccept_iff, h]
  · intro m hm
    obtain ⟨t, ht⟩ := List.length_eq_one.mp (acceptedTonics_single m hm n hn)
    refine ⟨t, ?_, ?_⟩
    · simp only [keyBlocksAccept_iff, ht, List.mem_singleton]
    · intro y hy
      simpa only [keyBlocksAccept_iff, ht, List.mem_singleton] using hy

/-- Witness for C24: dorian with no accidentals accepts `d`, as major with two sharps does. -/
theorem keyBlocks_transposed_witness :
    keyBlocksAccept "dorian" 0 "d" = keyBlocksAccept "major" (0 + 2) "d"
      ∧ ∃! tonic, keyBlocksAccept "locrian" 0 tonic = true :=
  ⟨(keyBlocks_transposed "dorian" 2 0 (by decide) (by decide) (by decide)).1 (by decide)
    (by decide) "d",
   (keyBlocks_transposed "dorian" 2 0 (by decide) (by decide) (by decide)).2 "locrian"
    (by decide)⟩

/-! ## Order of the segment boundaries -/

/-- The loop of `extractSegments` keeps the boundaries non-decreasing: a 0 is only recorded
while all boundaries are 0, a line index only after smaller ones. -/
theorem extractSegmentsLoop_sorted (lines : List HumdrumLine) (i : Nat) (b : Bool)
    (segs : List Nat) (labs : List String) (hsorted : segs.Pairwise fun x y => x ≤ y)
    (hbound : ∀ s ∈ segs, s ≤ i) (hzero : b = true → ∀ s ∈ segs, s = 0)
    (hhead : segs = [] ∨ segs.head? = some 0) :
    ((extractSegmentsLoop lines i b segs labs).1.Pairwise fun x y => x ≤ y)
      ∧ (∀ s ∈ (extractSegmentsLoop lines i b segs labs).1, s ≤ i + lines.length)
      ∧ ((extractSegmentsLoop lines i b segs labs).1 = []
          ∨ (extractSegmentsLoop lines i b segs labs).1.head? = some 0) := by
  induction lines generalizing i b segs labs with
  | nil => exact ⟨hsorted, by simpa [extractSegmentsLoop] using hbound, hhead⟩
  | cons line rest ih =>
    have harith : i + 1 + rest.length = i + (line :: rest).length := by
      simp only [List.length_cons]
      omega
    have hb1 : (b && !line.isData) = true → b = true := by
      intro h
      simp only [Bool.and_eq_true] at h
      exact h.1
    by_cases hl : isLabelLine line = true
    · rw [extractSegmentsLoop_label line rest i b segs labs hl, ← harith]
      apply ih
      · rw [List.pairwise_append]
        refine ⟨hsorted, List.pairwise_singleton _ _, ?_⟩
        intro x hx y hy
        rw [List.mem_singleton] at hy
        subst hy
        by_cases hc : (b && !line.isData) = true ∨ segs = []
        · rcases hc with hc | hc
          · rw [hzero (hb1 hc) x hx]
            exact Nat.zero_le _
          · rw [hc] at hx
            cases hx
        · rw [if_neg hc]
          exact hbound x hx
      · intro s hs
        rw [List.mem_append, List.mem_singleton] at hs
        rcases hs with hs | hs
        · exact Nat.le_succ_of_le (hbound s hs)
        · rw [hs]
          split <;> omega
      · intro hb s hs
        rw [List.mem_append, List.mem_singleton] at hs
        rcases hs with hs | hs
        · exact hzero (hb1 hb) s hs
        · rw [hs, if_pos (Or.inl hb)]
      · right
        rcases hhead with hh | hh
        · rw [hh]
          simp
        · cases segs with
          | nil => simp
          | cons s tail => simpa using hh
    · have hl2 : isLabelLine line = false := by simpa using hl
      rw [extractSegmentsLoop_other line rest i b segs labs hl2, ← harith]
      exact ih _ _ _ _ hsorted (fun s hs => Nat.le_succ_of_le (hbound s hs))
        (fun hb => hzero (hb1 hb)) hhead

/-- In a list that starts with `a` and ends with `n`, every `x` with `a ≤ x < n` lies between
two consecutive entries. -/
theorem between_consecutive (l : List Nat) (a n x : Nat) (hhead : l.head? = some a)
    (hlast : l.getLast? = some n) (h1 : a ≤ x) (h2 : x < n) :
    ∃ k, k + 1 < l.length ∧ l.getD k 0 ≤ x ∧ x < l.getD (k + 1) 0 := by
  induction l generalizing a with
  | nil => simp at hhead
  | cons y tail ih =>
    simp only [List.head?_cons, Option.some.injEq] at hhead
    subst hhead
    cases tail with
    | nil =>
      simp only [List.getLast?_singleton, Option.some.injEq] at hlast
      omega
    | cons z rest =>
      by_cases hz : x < z
      · exact ⟨0, by simp, by simpa using h1, by simpa using hz⟩
      · have hlast2 : (z :: rest).getLast? = some n := by
          rw [← hlast, List.getLast?_cons_cons]
        obtain ⟨k, hk1, hk2, hk3⟩ := ih z rfl hlast2 (by omega)
        refine ⟨k + 1, ?_, ?_, ?_⟩
        · simp only [List.length_cons] at hk1 ⊢
          omega
        · simpa using hk2
        · simpa using hk3

/-- C28. On a converter without recorded boundaries, the boundaries that `extractSegments`
records start with 0, end with the line count and are non-decreasing, and every line index
below the line count lies in one of the half-open ranges between consecutive boundaries. -/
theorem extractSegments_ordered (c : HumdrumToLilypondConverter) (hs : c.m_segments = []) :
    (extractSegments c).m_segments.head? = some 0
      ∧ (extractSegments c).m_segments.getLast? = some c.m_infile.getLineCount
      ∧ ((extractSegments c).m_segments.Pairwise fun x y => x ≤ y)
      ∧ ∀ x, x < c.m_infile.getLineCount →
          ∃ k, k + 1 < (extractSegments c).m_segments.length
            ∧ (extractSegments c).m_segments.getD k 0 ≤ x
            ∧ x < (extractSegments c).m_segments.getD (k + 1) 0 := by
  obtain ⟨h1, h2, h3⟩ := extractSegmentsLoop_sorted c.m_infile.lines 0 true [] c.m_labels
    List.Pairwise.nil (by simp) (by simp) (Or.inl rfl)
  have hhead : (extractSegments c).m_segments.head? = some 0 := by
    simp only [extractSegments, hs]
    rcases h3 with h3 | h3
    · rw [h3]
      rfl
    · cases hr : (extractSegmentsLoop c.m_infile.lines 0 true [] c.m_labels).1 with
      | nil => rfl
      | cons s tail =>
        rw [hr] at h3
        simpa using h3
  have hlast : (extractSegments c).m_segments.getLast? = some c.m_infile.getLineCount := by
    simp [extractSegments]
  have hsorted : (extractSegments c).m_segments.Pairwise fun x y => x ≤ y := by
    simp only [extractSegments, hs]
    cases hr : (extractSegmentsLoop c.m_infile.lines 0 true [] c.m_labels).1 with
    | nil => simp
    | cons s tail =>
      rw [hr] at h1 h2
      have hne : ((s :: tail).length == 0) = false := by simp
      rw [hne]
      simp only [Bool.false_eq_true, if_false]
      rw [List.pairwise_append]
      refine ⟨h1, List.pairwise_singleton _ _, ?_⟩
      intro x hx y hy
      rw [List.mem_singleton] at hy
      rw [hy]
      simpa [HumdrumFile.getLineCount] using h2 x hx
  exact ⟨hhead, hlast, hsorted, fun x hx =>
    between_consecutive _ 0 _ x hhead hlast (Nat.zero_le _) hx⟩

/-- Witness for C28: for the part `**kern`, `*>A`, `*>B`, `4c` the boundaries are 0, 0, 4. -/
theorem extractSegments_ordered_witness :
    (extractSegments (converterFor earlyLabelsFile)).m_segments = [0, 0, 4]
      ∧ (extractSegments (converterFor earlyLabelsFile)).m_segments.head? = some 0
      ∧ (extractSegments (converterFor earlyLabelsFile)).m_segments.getLast? = some 4 :=
  ⟨by decide, (extractSegments_ordered (converterFor earlyLabelsFile) rfl).1,
    (extractSegments_ordered (converterFor earlyLabelsFile) rfl).2.1⟩

/-! ## Members that only grow -/

theorem tracksOnly_refl (c : HumdrumToLilypondConverter) : tracksOnly c c :=
  ⟨c.m_states, [], by simp⟩

theorem tracksOnly_trans (c d e : HumdrumToLilypondConverter) (h1 : tracksOnly c d)
    (h2 : tracksOnly d e) : tracksOnly c e := by
  obtain ⟨s1, e1, rfl⟩ := h1
  obtain ⟨s2, e2, rfl⟩ := h2
  exact ⟨s2, e1 ++ e2, by simp [List.append_assoc]⟩

theorem tracksOnly_states (c : HumdrumToLilypondConverter) (states : StateVariables) :
    tracksOnly c { c with m_states := states } :=
  ⟨states, [], by simp⟩

theorem tracksOnly_addErrorMessage (c : HumdrumToLilypondConverter) (message : String)
    (token : HTp) : tracksOnly c (addErrorMessage c message token) := by
  cases token with
  | none => exact ⟨c.m_states, [message], rfl⟩
  | some p =>
    exact ⟨c.m_states, [message, "\tLine:  " ++ toString p.tok.getLineNumber,
      "\tField: " ++ toString p.tok.getFieldNumber], by simp [addErrorMessage]⟩

theorem tracksOnly_convertDuration (c : HumdrumToLilypondConverter) (out : String)
    (duration durationnodots : ℚ) (dots : Int) :
    tracksOnly c (convertDuration c out duration durationnodots dots).1 := by
  unfold convertDuration
  simp only
  split <;>
    exact ⟨{ duration := duration, dots := dots, pitch := c.m_states.pitch }, [], by simp⟩

theorem tracksOnly_convertRest (lib : Convert) (c : HumdrumToLilypondConverter) (out : String)
    (token : TokenPtr) : tracksOnly c (convertRest lib c out token).1 := by
  unfold convertRest
  simp only
  split
  · exact tracksOnly_convertDuration _ _ _ _ _
  · exact tracksOnly_refl c

theorem tracksOnly_convertNoteRhythm (lib : Convert) (c : HumdrumToLilypondConverter)
    (out : String) (stok : String) : tracksOnly c (convertNoteRhythm lib c out stok).1 := by
  unfold convertNoteRhythm
  simp only
  split
  · exact tracksOnly_convertDuration _ _ _ _ _
  · exact tracksOnly_refl c

theorem tracksOnly_convertNote (lib : Convert) (c : HumdrumToLilypondConverter) (out : String)
    (token : TokenPtr) : tracksOnly c (convertNote lib c out token).1 := by
  unfold convertNote
  simp only
  refine tracksOnly_trans c _ _ ?_ (tracksOnly_convertNoteRhythm _ _ _ _)
  split
  · exact tracksOnly_states c _
  · exact tracksOnly_refl c

theorem tracksOnly_convertDataToken (lib : Convert) (c : HumdrumToLilypondConverter)
    (out : String) (token : TokenPtr) : tracksOnly c (convertDataToken lib c out token).1 := by
  unfold convertDataToken
  split
  · exact tracksOnly_refl c
  · split
    · exact tracksOnly_refl c
    · split
      · exact tracksOnly_convertRest _ _ _ _
      · split
        · exact tracksOnly_refl c
        · exact tracksOnly_convertNote _ _ _ _

theorem tracksOnly_convertClef (c d : HumdrumToLilypondConverter) (out : String)
    (token : TokenPtr) (h : tracksOnly d c) : tracksOnly d (convertClef c out token).1 := by
  unfold convertClef
  simp only [apply_ite (fun r : HumdrumToLilypondConverter × String × Bool => tracksOnly d r.1),
    h, tracksOnly_trans d c _ h (tracksOnly_addErrorMessage c _ _), ite_self]

theorem tracksOnly_convertKeySignature (c : HumdrumToLilypondConverter) (out : String)
    (token : TokenPtr) : tracksOnly c (convertKeySignature c out token).1 := by
  unfold convertKeySignature
  simp only
  split
  · dsimp only
    exact tracksOnly_addErrorMessage c _ _
  · split
    · exact tracksOnly_refl c
    · dsimp only
      exact tracksOnly_addErrorMessage c _ _

theorem tracksOnly_convertInterpretationToken (c : HumdrumToLilypondConverter) (out : String)
    (token : HTp) : tracksOnly c (convertInterpretationToken c out token).1 := by
  unfold convertInterpretationToken
  split
  · exact tracksOnly_refl c
  · split
    · exact tracksOnly_convertClef c c _ _ (tracksOnly_refl c)
    · split
      · exact tracksOnly_convertKeySignature _ _ _
      · exact tracksOnly_refl c

theorem tracksOnly_convertPartSegmentToken (lib : Convert) (c : HumdrumToLilypondConverter)
    (out : String) (token : TokenPtr) :
    tracksOnly c (convertPartSegmentToken lib c out token).1 := by
  unfold convertPartSegmentToken
  split
  · exact tracksOnly_refl c
  · split
    · exact tracksOnly_convertDataToken _ _ _ _
    · split
      · exact tracksOnly_convertInterpretationToken _ _ _
      · split <;> exact tracksOnly_refl c

theorem tracksOnly_renderUntilFailure (lib : Convert) (ptrs : List TokenPtr)
    (c : HumdrumToLilypondConverter) (out : String) :
    tracksOnly c (renderUntilFailure lib ptrs c out).1 := by
  induction ptrs generalizing c out with
  | nil => exact tracksOnly_refl c
  | cons p rest ih =>
    simp only [renderUntilFailure]
    split
    · exact tracksOnly_convertPartSegmentToken _ _ _ _
    · exact tracksOnly_trans c _ _ (tracksOnly_convertPartSegmentToken _ _ _ _) (ih _ _)

theorem tracksOnly_convertSegment (lib : Convert) (c : HumdrumToLilypondConverter)
    (out : String) (partindex startline endline : Nat) :
    tracksOnly c (convertSegment lib c out partindex startline endline).1 := by
  unfold convertSegment
  split
  · exact tracksOnly_refl c
  · simp only [convertPartSegment]
    rw [convertPartSegmentFrom_eq]
    exact tracksOnly_renderUntilFailure _ _ _ _

theorem writesStaff_of_tracksOnly (c d : HumdrumToLilypondConverter) (h : tracksOnly c d) :
    writesStaff c d := by
  obtain ⟨s, e, rfl⟩ := h
  exact ⟨s, e, "", by simp⟩

theorem writesStaff_trans (c d e : HumdrumToLilypondConverter) (h1 : writesStaff c d)
    (h2 : writesStaff d e) : writesStaff c e := by
  obtain ⟨s1, e1, t1, rfl⟩ := h1
  obtain ⟨s2, e2, t2, rfl⟩ := h2
  exact ⟨s2, e1 ++ e2, t1 ++ t2, by simp [List.append_assoc, String.append_assoc]⟩

theorem writesStaff_update (c : HumdrumToLilypondConverter) (states : StateVariables)
    (staffout : String) (h : ∃ staff, staffout = c.m_staffout ++ staff) :
    writesStaff c { c with m_staffout := staffout, m_states := states } := by
  obtain ⟨staff, rfl⟩ := h
  exact ⟨states, [], staff, by simp⟩

theorem writesStaff_convertPartIteration (lib : Convert) (partname : String)
    (partindex i : Nat) (c : HumdrumToLilypondConverter) (out : String) :
    writesStaff c (convertPartIteration lib partname partindex i c out).1 := by
  unfold convertPartIteration
  simp only
  refine writesStaff_trans c _ _ ?_
    (writesStaff_of_tracksOnly _ _ (tracksOnly_convertSegment _ _ _ _ _ _))
  exact writesStaff_update c _ _
    ⟨"\\" ++ (partname ++ "Z" ++ c.m_labels.getD i "") ++ " ", by simp [String.append_assoc]⟩

theorem writesStaff_convertPartLoop (lib : Convert) (partname : String) (partindex : Nat)
    (indices : List Nat) (c : HumdrumToLilypondConverter) (out : String) (status : Bool) :
    writesStaff c (convertPartLoop lib partname partindex indices c out status).1 := by
  induction indices generalizing c out status with
  | nil => exact writesStaff_of_tracksOnly _ _ (tracksOnly_refl c)
  | cons i rest ih =>
    simp only [convertPartLoop]
    split
    · exact writesStaff_convertPartIteration _ _ _ _ _ _
    · exact writesStaff_trans c _ _ (writesStaff_convertPartIteration _ _ _ _ _ _) (ih _ _ _)

theorem writesStaff_convertPart (lib : Convert) (c : HumdrumToLilypondConverter) (out : String)
    (partname : String) (partindex : Nat) :
    writesStaff c (convertPart lib c out partname partindex).1 := by
  have hclear : writesStaff c { c with m_states := StateVariables.clear } :=
    writesStaff_of_tracksOnly _ _ (tracksOnly_states c _)
  unfold convertPart
  simp only
  split
  · exact writesStaff_trans c _ _ hclear (writesStaff_convertPartLoop _ _ _ _ _ _ _)
  · refine writesStaff_trans c _ _ hclear (writesStaff_of_tracksOnly _ _ ?_)
    exact tracksOnly_trans _ _ _ (tracksOnly_states _ _) (tracksOnly_convertSegment _ _ _ _ _ _)

theorem writesScore_convertIteration (lib : Convert) (i : Nat)
    (c : HumdrumToLilypondConverter) (tempout : String) :
    writesScore c (convertIteration lib i c tempout).1 (scoreLines c.m_indent [i]) := by
  unfold convertIteration
  simp only
  obtain ⟨s, e, t, h⟩ := writesStaff_convertPart lib
    { c with
      m_staffout := c.m_staffout ++ ("part" ++ arabicToRomanNumeral ((i : Int) + 1) 1)
          ++ " = \\new Staff \x7b\n" ++ c.m_indent,
      m_scoreout := c.m_scoreout ++ c.m_indent ++ "\x7b \\"
          ++ ("part" ++ arabicToRomanNumeral ((i : Int) + 1) 1) ++ " \x7d\n" }
    tempout ("part" ++ arabicToRomanNumeral ((i : Int) + 1) 1) i
  rw [h]
  exact ⟨s, e, ("part" ++ arabicToRomanNumeral ((i : Int) + 1) 1) ++ " = \\new Staff \x7b\n"
    ++ c.m_indent ++ t ++ "\n\x7d\n\n",
    by simp [scoreLines, concatTexts, partName, String.append_assoc]⟩

theorem concatTexts_append (l1 l2 : List String) :
    concatTexts (l1 ++ l2) = concatTexts l1 ++ concatTexts l2 := by
  induction l1 with
  | nil => simp [concatTexts]
  | cons text rest ih =>
    show text ++ concatTexts (rest ++ l2) = text ++ concatTexts rest ++ concatTexts l2
    rw [ih, String.append_assoc]

theorem scoreLines_append (indent : String) (l1 l2 : List Nat) :
    scoreLines indent (l1 ++ l2) = scoreLines indent l1 ++ scoreLines indent l2 := by
  simp only [scoreLines, List.map_append, concatTexts_append]

theorem writesScore_trans (c d e : HumdrumToLilypondConverter) (s1 s2 : String)
    (h1 : writesScore c d s1) (h2 : writesScore d e s2) : writesScore c e (s1 ++ s2) := by
  obtain ⟨st1, e1, t1, rfl⟩ := h1
  obtain ⟨st2, e2, t2, rfl⟩ := h2
  exact ⟨st2, e1 ++ e2, t1 ++ t2, by simp [List.append_assoc, String.append_assoc]⟩

theorem writesScore_indent (c d : HumdrumToLilypondConverter) (score : String)
    (h : writesScore c d score) : d.m_indent = c.m_indent := by
  obtain ⟨s, e, t, rfl⟩ := h
  rfl

/-- The loop of `convert` over the parts adds to the score buffer the lines of the parts it has
started, in the order of their indices: all of them when the status stays true. -/
theorem writesScore_convertLoop (lib : Convert) (indices : List Nat)
    (c : HumdrumToLilypondConverter) (tempout : String) :
    ∃ k, k ≤ indices.length
      ∧ ((convertLoop lib indices c tempout true).2.2 = true → k = indices.length)
      ∧ writesScore c (convertLoop lib indices c tempout true).1
          (scoreLines c.m_indent (indices.take k)) := by
  induction indices generalizing c tempout with
  | nil =>
    exact ⟨0, le_refl _, fun _ => rfl, c.m_states, [], "",
      by simp [convertLoop, scoreLines, concatTexts]⟩
  | cons i rest ih =>
    have h1 := writesScore_convertIteration lib i c tempout
    simp only [convertLoop, Bool.true_and]
    cases hst : (convertIteration lib i c tempout).2.2
    · refine ⟨1, by simp, by simp, ?_⟩
      simpa using h1
    · obtain ⟨k, hk1, hk2, hk3⟩ := ih (convertIteration lib i c tempout).1
        (convertIteration lib i c tempout).2.1
      refine ⟨k + 1, by simpa using hk1, ?_, ?_⟩
      · intro h
        simp only [Bool.not_true, Bool.false_eq_true, if_false] at h
        simp [hk2 h]
      · simp only [Bool.not_true, Bool.false_eq_true, if_false, List.take_succ_cons]
        rw [writesScore_indent c _ _ h1] at hk3
        have := writesScore_trans c _ _ _ _ h1 hk3
        rwa [← scoreLines_append] at this

/-- The converter left by `convert` for a file with parts, in terms of the loop over the
parts. -/
theorem convert_converter (lib : Convert) (c : HumdrumToLilypondConverter) (out : String)
    (h : c.m_infile.kernSpineStartList ≠ []) :
    (convert lib c out).1
      = { (convertLoop lib (List.range (preparedConverter c).m_kernstarts.length)
            (preparedConverter c)
            (printHeader c (printHeaderComments c "" ++ "\\version \""
              ++ c.m_options.version ++ "\"\n\n")) true).1 with
          m_scoreout :=
            (convertLoop lib (List.range (preparedConverter c).m_kernstarts.length)
              (preparedConverter c)
              (printHeader c (printHeaderComments c "" ++ "\\version \""
                ++ c.m_options.version ++ "\"\n\n")) true).1.m_scoreout
            ++ (convertLoop lib (List.range (preparedConverter c).m_kernstarts.length)
              (preparedConverter c)
              (printHeader c (printHeaderComments c "" ++ "\\version \""
                ++ c.m_options.version ++ "\"\n\n")) true).1.m_indent
            ++ ">>\n" ++ "\x7d\n" } := by
  have hlen : ¬ c.m_infile.kernSpineStartList.length = 0 := by
    intro h0
    exact h (List.length_eq_zero.mp h0)
  unfold convert
  simp only [hlen, if_false]
  rfl

theorem convert_status_stream (lib : Convert) (c : HumdrumToLilypondConverter) (out : String)
    (h : c.m_infile.kernSpineStartList ≠ []) :
    (convert lib c out).2.2
      = (convertLoop lib (List.range (preparedConverter c).m_kernstarts.length)
            (preparedConverter c)
            (printHeader c (printHeaderComments c "" ++ "\\version \""
              ++ c.m_options.version ++ "\"\n\n")) true).2.2 := by
  have hlen : ¬ c.m_infile.kernSpineStartList.length = 0 := by
    intro h0
    exact h (List.length_eq_zero.mp h0)
  unfold convert
  simp only [hlen, if_false]
  rfl

theorem extractSegments_grows (c : HumdrumToLilypondConverter) :
    (∃ added, (extractSegments c).m_segments = c.m_segments ++ added)
      ∧ ∃ added, (extractSegments c).m_labels = c.m_labels ++ added := by
  obtain ⟨h1, added, h2, _⟩ :=
    extractSegmentsLoop_counts c.m_infile.lines 0 true c.m_segments c.m_labels
  refine ⟨?_, _, h1⟩
  simp only [extractSegments, h2]
  split
  · exact ⟨added ++ [0] ++ [c.m_infile.getLineCount], by simp⟩
  · exact ⟨added ++ [c.m_infile.getLineCount], by simp⟩

/-! ## A second conversion on the same converter -/

set_option maxRecDepth 100000 in
/-- C22 as stated fails. For the part `**kern`, `*>A`, `*clefG2`, `*-` the first call of
`convert` on a new converter returns true; a second call on the same converter with the same
file returns false and writes a different text: the boundaries `[0, 4]` and the label of the
first call are still recorded, so the second call works with the boundaries `[0, 4, 0, 4]`, and
the staff and score blocks of the first call are written again. -/
theorem convert_twice_differs :
    (convertFile sampleConvert HumdrumToLilypondConverter.init "" labelledFile).2.2 = true
      ∧ (convertFile sampleConvert
          (convertFile sampleConvert HumdrumToLilypondConverter.init "" labelledFile).1 ""
          labelledFile).2.2 = false
      ∧ (convertFile sampleConvert
          (convertFile sampleConvert HumdrumToLilypondConverter.init "" labelledFile).1 ""
          labelledFile).2.1
        ≠ (convertFile sampleConvert HumdrumToLilypondConverter.init "" labelledFile).2.1
      ∧ (convertFile sampleConvert
          (convertFile sampleConvert HumdrumToLilypondConverter.init "" labelledFile).1 ""
          labelledFile).1.m_segments = [0, 4, 0, 4]
      ∧ (convertFile sampleConvert
          (convertFile sampleConvert HumdrumToLilypondConverter.init "" labelledFile).1 ""
          labelledFile).1.m_staffout
        = "partI = \\new Staff \x7b\n  \\partIZA \n\x7d\n\n"
          ++ "partI = \\new Staff \x7b\n  \\partIZA \\partIZA \n\x7d\n\n" := by
  decide

/-- C22 as amended. The conversion state is not reset between two calls of `convert` on the
same converter: whatever the converter holds before the call, the call only adds to the end of
the boundaries, the labels, the staff buffer, the score buffer and the error records, so all
that an earlier call has recorded there is still present after the next one. -/
theorem convert_keeps_earlier_state (lib : Convert) (c : HumdrumToLilypondConverter)
    (out : String) :
    (∃ added, (convert lib c out).1.m_segments = c.m_segments ++ added)
      ∧ (∃ added, (convert lib c out).1.m_labels = c.m_labels ++ added)
      ∧ (∃ added, (convert lib c out).1.m_staffout = c.m_staffout ++ added)
      ∧ (∃ added, (convert lib c out).1.m_scoreout = c.m_scoreout ++ added)
      ∧ ∃ added, (convert lib c out).1.m_errors = c.m_errors ++ added := by
  by_cases h : c.m_infile.kernSpineStartList = []
  · have hc : (convert lib c out).1 = { c with m_kernstarts := c.m_infile.kernSpineStartList } := by
      unfold convert
      simp [h]
    rw [hc]
    exact ⟨⟨[], by simp⟩, ⟨[], by simp⟩, ⟨"", by simp⟩, ⟨"", by simp⟩, ⟨[], by simp⟩⟩
  · obtain ⟨k, _, _, states, errors, staff, hloop⟩ :=
      writesScore_convertLoop lib (List.range (preparedConverter c).m_kernstarts.length)
        (preparedConverter c)
        (printHeader c (printHeaderComments c "" ++ "\\version \""
          ++ c.m_options.version ++ "\"\n\n"))
    obtain ⟨⟨segs, hsegs⟩, labs, hlabs⟩ := extractSegments_grows c
    rw [convert_converter lib c out h, hloop]
    refine ⟨⟨segs, hsegs⟩, ⟨labs, hlabs⟩, ⟨staff, rfl⟩,
      ⟨"\\score \x7b\n" ++ c.m_indent ++ "<<\n"
        ++ scoreLines c.m_indent (List.take k (List.range (preparedConverter c).m_kernstarts.length))
        ++ c.m_indent ++ ">>\n" ++ "\x7d\n", ?_⟩, ⟨errors, rfl⟩⟩
    show (preparedConverter c).m_scoreout ++ _ ++ (preparedConverter c).m_indent ++ _ ++ _ = _
    have h1 : (preparedConverter c).m_scoreout
        = c.m_scoreout ++ "\\score \x7b\n" ++ c.m_indent ++ "<<\n" := rfl
    have h2 : (preparedConverter c).m_indent = c.m_indent := rfl
    rw [h1, h2]
    simp only [String.append_assoc]

/-! ## Order of the parts -/

/-- The loop that fills `rkern`, for parts on distinct tracks within the table: the entry at
the track of the part `j` is its index, the other entries are unchanged. -/
theorem rkernLoop_spec (ks : List TokenPtr) (i0 : Nat) (rk : List Int)
    (hnodup : (ks.map fun p => p.tok.track).Nodup)
    (hrange : ∀ p ∈ ks, p.tok.track < rk.length) :
    (∀ j p, ks[j]? = some p → (rkernLoop ks i0 rk)[p.tok.track]? = some ((i0 + j : Nat) : Int))
      ∧ ∀ t, (∀ p ∈ ks, p.tok.track ≠ t) → (rkernLoop ks i0 rk)[t]? = rk[t]? := by
  induction ks generalizing i0 rk with
  | nil => exact ⟨fun j p h => by simp at h, fun t _ => rfl⟩
  | cons k rest ih =>
    simp only [List.map_cons, List.nodup_cons, List.mem_map, not_exists, not_and] at hnodup
    obtain ⟨ih1, ih2⟩ := ih (i0 + 1) (rk.set k.tok.track (i0 : Int)) hnodup.2
      (fun p hp => by
        rw [List.length_set]
        exact hrange p (List.mem_cons_of_mem _ hp))
    refine ⟨?_, ?_⟩
    · intro j p hj
      cases j with
      | zero =>
        simp only [List.getElem?_cons_zero, Option.some.injEq] at hj
        subst hj
        show (rkernLoop rest (i0 + 1) (rk.set k.tok.track (i0 : Int)))[k.tok.track]? = _
        rw [ih2 k.tok.track (fun p hp heq => hnodup.1 p hp heq),
          List.getElem?_set_self (hrange k (List.mem_cons_self _ _))]
        rfl
      | succ j =>
        simp only [List.getElem?_cons_succ] at hj
        show (rkernLoop rest (i0 + 1) (rk.set k.tok.track (i0 : Int)))[p.tok.track]? = _
        rw [ih1 j p hj]
        congr 2
        omega
    · intro t ht
      show (rkernLoop rest (i0 + 1) (rk.set k.tok.track (i0 : Int)))[t]? = _
      rw [ih2 t (fun p hp => ht p (List.mem_cons_of_mem _ hp)),
        List.getElem?_set_ne (ht k (List.mem_cons_self _ _))]

theorem preparedConverter_rkern (c : HumdrumToLilypondConverter) :
    (preparedConverter c).m_kernstarts = c.m_infile.kernSpineStartList.reverse
      ∧ (preparedConverter c).m_rkern
        = rkernLoop c.m_infile.kernSpineStartList.reverse 0
            (List.replicate (c.m_infile.spineCount + 1) (-1)) :=
  ⟨rfl, rfl⟩

/-- C30. For a file with parts on distinct tracks within the spine count, `convert` takes the
parts in reverse source order: part `i` is the spine start `n - 1 - i` of the `n` starts; the
track table holds `i` at the track of part `i` and -1 at every track that carries no part; the
score block lists the parts it has started in increasing index, all `n` of them when the
status is true; and the part with index `i` is converted under the name `part` followed by the
upper-case Roman numeral of `i + 1`. -/
theorem parts_in_reverse_order (lib : Convert) (c : HumdrumToLilypondConverter) (out : String)
    (h : c.m_infile.kernSpineStartList ≠ [])
    (hdistinct : (c.m_infile.kernSpineStartList.map fun p => p.tok.track).Nodup)
    (hrange : ∀ p ∈ c.m_infile.kernSpineStartList, p.tok.track ≤ c.m_infile.spineCount) :
    (convert lib c out).1.m_kernstarts = c.m_infile.kernSpineStartList.reverse
      ∧ (∀ i, i < c.m_infile.kernSpineStartList.length →
          (convert lib c out).1.m_kernstarts[i]?
            = c.m_infile.kernSpineStartList[c.m_infile.kernSpineStartList.length - 1 - i]?)
      ∧ (∀ (i : Nat) (p : TokenPtr), (convert lib c out).1.m_kernstarts[i]? = some p →
          (convert lib c out).1.m_rkern[p.tok.track]? = some (i : Int))
      ∧ (∀ t, t ≤ c.m_infile.spineCount →
          (∀ p ∈ c.m_infile.kernSpineStartList, p.tok.track ≠ t) →
          (convert lib c out).1.m_rkern[t]? = some (-1))
      ∧ (∃ k, k ≤ c.m_infile.kernSpineStartList.length
          ∧ ((convert lib c out).2.2 = true → k = c.m_infile.kernSpineStartList.length)
          ∧ (convert lib c out).1.m_scoreout
            = c.m_scoreout ++ "\\score \x7b\n" ++ c.m_indent ++ "<<\n"
                ++ scoreLines c.m_indent (List.range k) ++ c.m_indent ++ ">>\n" ++ "\x7d\n")
      ∧ (∀ (i : Nat) (d : HumdrumToLilypondConverter) (tempout : String),
          (convertIteration lib i d tempout).2
            = (convertPart lib
                { d with
                  m_staffout := d.m_staffout ++ partName i ++ " = \\new Staff \x7b\n" ++ d.m_indent,
                  m_scoreout := d.m_scoreout ++ d.m_indent ++ "\x7b \\" ++ partName i ++ " \x7d\n" }
                tempout (partName i) i).2)
      ∧ partName 0 = "partI" ∧ partName 1 = "partII" ∧ partName 3 = "partIV" := by
  obtain ⟨k, hk1, hk2, states, errors, staff, hloop⟩ :=
    writesScore_convertLoop lib (List.range (preparedConverter c).m_kernstarts.length)
      (preparedConverter c)
      (printHeader c (printHeaderComments c "" ++ "\\version \""
        ++ c.m_options.version ++ "\"\n\n"))
  rw [← convert_status_stream lib c out h] at hk2
  rw [List.length_range, preparedConverter_parts] at hk1 hk2
  have hks : (convert lib c out).1.m_kernstarts = c.m_infile.kernSpineStartList.reverse := by
    rw [convert_converter lib c out h, hloop]
    rfl
  have hrk : (convert lib c out).1.m_rkern
      = rkernLoop c.m_infile.kernSpineStartList.reverse 0
          (List.replicate (c.m_infile.spineCount + 1) (-1)) := by
    rw [convert_converter lib c out h, hloop]
    rfl
  obtain ⟨hr1, hr2⟩ := rkernLoop_spec c.m_infile.kernSpineStartList.reverse 0
    (List.replicate (c.m_infile.spineCount + 1) (-1))
    (by rw [List.map_reverse, List.nodup_reverse]; exact hdistinct)
    (fun p hp => by
      rw [List.length_replicate]
      exact Nat.lt_succ_of_le (hrange p (List.mem_reverse.mp hp)))
  refine ⟨hks, ?_, ?_, ?_, ⟨k, hk1, hk2, ?_⟩, fun i d tempout => rfl, by decide, by decide,
    by decide⟩
  · intro i hi
    rw [hks, List.getElem?_reverse hi]
  · intro i p hp
    rw [hks] at hp
    rw [hrk, hr1 i p hp]
    simp
  · intro t ht hp
    rw [hrk, hr2 t (fun p hp2 => hp p (List.mem_reverse.mp hp2)),
      List.getElem?_replicate_of_lt (Nat.lt_succ_of_le ht)]
  · rw [convert_converter lib c out h, hloop]
    show (preparedConverter c).m_scoreout ++ _ ++ (preparedConverter c).m_indent ++ _ ++ _ = _
    have h1 : (preparedConverter c).m_scoreout
        = c.m_scoreout ++ "\\score \x7b\n" ++ c.m_indent ++ "<<\n" := rfl
    have h2 : (preparedConverter c).m_indent = c.m_indent := rfl
    rw [h1, h2, preparedConverter_parts, List.take_range, Nat.min_eq_left hk1]

/-- Witness for C30: the score with two parts on the tracks 1 and 2. The part list holds the
start on track 2 first, the track table is -1, 1, 0. -/
theorem parts_in_reverse_order_witness :
    ((convert sampleConvert (converterFor twoPartFile) "").1.m_kernstarts.map
        fun p => p.tok.track) = [2, 1]
      ∧ (convert sampleConvert (converterFor twoPartFile) "").1.m_rkern[2]? = some 0
      ∧ (convert sampleConvert (converterFor twoPartFile) "").1.m_rkern[0]? = some (-1) := by
  have h := parts_in_reverse_order sampleConvert (converterFor twoPartFile) "" (by decide)
    (by decide) (by decide)
  refine ⟨?_, ?_, ?_⟩
  · rw [h.1]
    decide
  · have h0 := h.2.1 0 (by decide)
    exact h.2.2.1 0 _ h0
  · exact h.2.2.2.1 0 (by decide) (by decide)

/-! ## The first note of a segment -/

theorem states_addErrorMessage (c : HumdrumToLilypondConverter) (message : String)
    (token : HTp) : (addErrorMessage c message token).m_states = c.m_states := by
  cases token <;> rfl

theorem states_convertClef (c : HumdrumToLilypondConverter) (out : String) (token : TokenPtr) :
    (convertClef c out token).1.m_states = c.m_states := by
  unfold convertClef
  simp only [apply_ite (fun r : HumdrumToLilypondConverter × String × Bool => r.1.m_states),
    states_addErrorMessage, ite_self]

theorem states_convertKeySignature (c : HumdrumToLilypondConverter) (out : String)
    (token : TokenPtr) : (convertKeySignature c out token).1.m_states = c.m_states := by
  unfold convertKeySignature
  simp only
  split
  · exact states_addErrorMessage _ _ _
  · split
    · rfl
    · exact states_addErrorMessage _ _ _

theorem states_convertInterpretationToken (c : HumdrumToLilypondConverter) (out : String)
    (token : HTp) : (convertInterpretationToken c out token).1.m_states = c.m_states := by
  unfold convertInterpretationToken
  split
  · rfl
  · split
    · exact states_convertClef _ _ _
    · split
      · exact states_convertKeySignature _ _ _
      · rfl

/-- The dispatch on a token that is not sounding leaves the tracked pitch as it was. -/
theorem convertPartSegmentToken_pitch (lib : Convert) (c : HumdrumToLilypondConverter)
    (out : String) (token : TokenPtr) (h : isSounding token.tok = false) :
    (convertPartSegmentToken lib c out token).1.m_states.pitch = c.m_states.pitch := by
  unfold convertPartSegmentToken
  split
  · rfl
  · rename_i hnull
    split
    · rename_i hdata
      have hrest : token.tok.isRest = true := by
        simp only [isSounding, hdata, Bool.true_and] at h
        cases hr : token.tok.isRest
        · simp [hr, hnull] at h
        · rfl
      simp only [convertDataToken, hnull, hdata, hrest, Bool.false_eq_true, if_false,
        Bool.not_true, if_true, convertRest_states]
    · split
      · simp only [states_convertInterpretationToken]
      · split <;> rfl

theorem renderAll_pitch (lib : Convert) (ptrs : List TokenPtr)
    (c : HumdrumToLilypondConverter) (out : String)
    (h : ∀ p ∈ ptrs, isSounding p.tok = false) :
    (renderAll lib ptrs c out).1.m_states.pitch = c.m_states.pitch := by
  induction ptrs generalizing c out with
  | nil => rfl
  | cons p rest ih =>
    simp only [renderAll]
    rw [ih _ _ (fun q hq => h q (List.mem_cons_of_mem _ hq)),
      convertPartSegmentToken_pitch lib c out p (h p (List.mem_cons_self _ _))]

theorem renderUntilFailure_append (lib : Convert) (pre rest : List TokenPtr)
    (c : HumdrumToLilypondConverter) (out : String)
    (h : ∀ p ∈ pre, isRenderedChord p.tok = false) :
    renderUntilFailure lib (pre ++ rest) c out
      = renderUntilFailure lib rest (renderAll lib pre c out).1 (renderAll lib pre c out).2 := by
  induction pre generalizing c out with
  | nil => rfl
  | cons p tail ih =>
    have hp : (convertPartSegmentToken lib c out p).2.2 = true := by
      rw [convertPartSegmentToken_status, h p (List.mem_cons_self _ _)]
      rfl
    simp only [List.cons_append, renderUntilFailure, hp, Bool.true_eq_false, if_false, renderAll]
    exact ih _ _ (fun q hq => h q (List.mem_cons_of_mem _ hq))

theorem map_tok_pointersFrom (before tokens : List HumdrumToken) :
    (pointersFrom before tokens).map (fun p => p.tok) = tokens := by
  induction tokens generalizing before with
  | nil => rfl
  | cons t rest ih => simp only [pointersFrom, List.map_cons, ih]

theorem firstSoundingToken_append (endline : Nat) (pre : List HumdrumToken)
    (t : HumdrumToken) (post : List HumdrumToken)
    (hpre : ∀ x ∈ pre, x.lineIndex < endline ∧ isSounding x = false)
    (hline : t.lineIndex < endline) (hsound : isSounding t = true) :
    firstSoundingToken endline (pre ++ t :: post) = some t := by
  induction pre with
  | nil => simp [firstSoundingToken, List.takeWhile_cons, hline, hsound]
  | cons x rest ih =>
    have hx := hpre x (List.mem_cons_self _ _)
    have ih2 := ih (fun y hy => hpre y (List.mem_cons_of_mem _ hy))
    simp only [firstSoundingToken] at ih2 ⊢
    simp only [List.cons_append, List.takeWhile_cons, hx.1, decide_True, if_true,
      List.find?_cons, hx.2]
    exact ih2

theorem printRelativeStartingPitch_pitch (lib : Convert) (c : HumdrumToLilypondConverter)
    (out : String) (partindex startline endline : Nat) :
    (printRelativeStartingPitch lib c out partindex startline endline).2
      = getSegmentStartingPitch lib c partindex startline endline := by
  unfold printRelativeStartingPitch
  simp only
  split <;> rfl

/-- C27. Take a segment whose tokens, from its start token on, are `pre`, then `note`, then
`post`, where the tokens of `pre` lie in the segment and are not sounding and `note` lies in the
segment and is a sounding token that is not a chord (its first subtoken is its whole text).
Then the pitch with which `convertPart` seeds the tracker is the pitch of `note`; the traversal
of the segment renders the tokens of `pre` and reaches `note` with that pitch still tracked; and
`note` is written as the indent, the note name and the accidental, directly followed by the
rhythm: no register mark. `convertPart` calls `convertSegment` on the converter seeded in this
way, for a labelled segment and for a part without labels. -/
theorem first_note_has_no_register_mark (lib : Convert) (c : HumdrumToLilypondConverter)
    (out seedout : String) (partindex startline endline : Nat) (start : TokenPtr)
    (others pre : List TokenPtr) (note : TokenPtr) (post : List TokenPtr)
    (hstart : getStartTokens c partindex startline endline = start :: others)
    (hptrs : pointersFrom start.before (start.tok :: start.after) = pre ++ note :: post)
    (hpre : ∀ p ∈ pre, p.tok.lineIndex < endline ∧ isSounding p.tok = false)
    (hline : note.tok.lineIndex < endline) (hsound : isSounding note.tok = true)
    (hchord : note.tok.isChord = false) (hover : isPassedOver note = false)
    (hsub : lib.getSubtoken note.tok 0 = note.tok.text) :
    (seededConverter lib c seedout partindex startline endline).m_states.pitch
        = lib.kernToBase40 note.tok.text
      ∧ convertSegment lib (seededConverter lib c seedout partindex startline endline) out
          partindex startline endline
        = renderUntilFailure lib
            (note :: ((post.takeWhile fun p => p.tok.lineIndex < endline).filter
              fun p => !isPassedOver p))
            (renderAll lib (pre.filter fun p => !isPassedOver p)
              (seededConverter lib c seedout partindex startline endline) out).1
            (renderAll lib (pre.filter fun p => !isPassedOver p)
              (seededConverter lib c seedout partindex startline endline) out).2
      ∧ (renderAll lib (pre.filter fun p => !isPassedOver p)
            (seededConverter lib c seedout partindex startline endline) out).1.m_states.pitch
          = lib.kernToBase40 note.tok.text
      ∧ (∀ (d : HumdrumToLilypondConverter) (text : String),
          d.m_states.pitch = lib.kernToBase40 note.tok.text →
          convertPartSegmentToken lib d text note
            = ((convertNoteRhythm lib d
                  (text ++ d.m_indent ++ diatonicName (lib.kernToDiatonicPC note.tok.text)
                    ++ accidentalName (lib.kernToAccidentalCount note.tok.text))
                  note.tok.text).1,
               (convertNoteRhythm lib d
                  (text ++ d.m_indent ++ diatonicName (lib.kernToDiatonicPC note.tok.text)
                    ++ accidentalName (lib.kernToAccidentalCount note.tok.text))
                  note.tok.text).2.1 ++ "\t\t% " ++ note.tok.text ++ "\n",
               true))
      ∧ (∀ (partname : String) (i : Nat) (d : HumdrumToLilypondConverter) (text : String),
          convertPartIteration lib partname partindex i d text
            = convertSegment lib
                (seededConverter lib
                  { d with
                    m_staffout :=
                      d.m_staffout ++ "\\" ++ (partname ++ "Z" ++ d.m_labels.getD i "") ++ " " }
                  (text ++ (partname ++ "Z" ++ d.m_labels.getD i "") ++ " =") partindex
                  (d.m_segments.getD i 0) (d.m_segments.getD (i + 1) 0))
                ((printRelativeStartingPitch lib
                  { d with
                    m_staffout :=
                      d.m_staffout ++ "\\" ++ (partname ++ "Z" ++ d.m_labels.getD i "") ++ " " }
                  (text ++ (partname ++ "Z" ++ d.m_labels.getD i "") ++ " =") partindex
                  (d.m_segments.getD i 0) (d.m_segments.getD (i + 1) 0)).1 ++ " \x7b\n")
                partindex (d.m_segments.getD i 0) (d.m_segments.getD (i + 1) 0))
      ∧ (∀ (partname : String) (d : HumdrumToLilypondConverter) (text : String),
          d.m_labels = [] →
          (convertPart lib d text partname partindex).1
            = (convertSegment lib
                (seededConverter lib { d with m_states := StateVariables.clear }
                  (text ++ partname ++ " =") partindex 0 d.m_infile.getLineCount)
                ((printRelativeStartingPitch lib { d with m_states := StateVariables.clear }
                  (text ++ partname ++ " =") partindex 0 d.m_infile.getLineCount).1 ++ "\x7b\n")
                partindex 0 d.m_infile.getLineCount).1) := by
  have hdata := hsound
  simp only [isSounding, Bool.and_eq_true, Bool.not_eq_true'] at hdata
  have hseed : (seededConverter lib c seedout partindex startline endline).m_states.pitch
      = lib.kernToBase40 note.tok.text := by
    show (printRelativeStartingPitch lib c seedout partindex startline endline).2 = _
    rw [printRelativeStartingPitch_pitch]
    unfold getSegmentStartingPitch
    rw [hstart]
    simp only
    rw [scanStartingPitch_eq, ← map_tok_pointersFrom start.before (start.tok :: start.after),
      hptrs, List.map_append, List.map_cons,
      firstSoundingToken_append endline _ note.tok _ (by
        intro x hx
        obtain ⟨p, hp, rfl⟩ := List.mem_map.mp hx
        exact hpre p hp) hline hsound]
  have hquiet : ∀ p ∈ pre.filter (fun p => !isPassedOver p), isSounding p.tok = false :=
    fun p hp => (hpre p (List.mem_of_mem_filter hp)).2
  have hreached := renderAll_pitch lib (pre.filter fun p => !isPassedOver p)
    (seededConverter lib c seedout partindex startline endline) out hquiet
  refine ⟨hseed, ?_, by rw [hreached, hseed], ?_, fun partname i d text => rfl, ?_⟩
  · unfold convertSegment
    rw [getStartTokens_congr c (seededConverter lib c seedout partindex startline endline) rfl,
      hstart]
    simp only [convertPartSegment]
    rw [convertPartSegmentFrom_eq]
    unfold visitedPointers
    rw [hptrs, List.takeWhile_append_of_pos (fun p hp => by simpa using (hpre p hp).1),
      List.takeWhile_cons, if_pos (by simpa using hline), List.filter_append, List.filter_cons,
      if_pos (by simp [hover])]
    exact renderUntilFailure_append lib _ _ _ _ (fun p hp => by
      have := hquiet p hp
      simp only [isSounding] at this
      simp [isRenderedChord, this])
  · intro d text hd
    simp only [convertPartSegmentToken, convertDataToken, hdata.1.1, hdata.1.2, hdata.2, hchord,
      Bool.false_eq_true, if_false, if_true, Bool.not_true, convertNote, hsub, hd, registerMark,
      ne_eq, not_true_eq_false, String.append_empty, convertNote_status, convertNoteRhythm]
  · intro partname d text hlabels
    simp [convertPart, hlabels, seededConverter]

/-- Witness for C27: in the part `**kern`, `4r`, `4c`, `8.dd` the tracker is seeded with the
pitch 162 of the quarter-note C, which is still tracked when the traversal reaches that note
after the rest. -/
theorem first_note_has_no_register_mark_witness :
    (seededConverter sampleConvert (readyConverter restNoteFile) "" 0 0 4).m_states.pitch = 162
      ∧ (renderAll sampleConvert
            ([restNoteStart, restNoteRest].filter fun p => !isPassedOver p)
            (seededConverter sampleConvert (readyConverter restNoteFile) "" 0 0 4)
            "").1.m_states.pitch = 162 := by
  have h := first_note_has_no_register_mark sampleConvert (readyConverter restNoteFile) "" "" 0 0
    4 restNoteStart [] [restNoteStart, restNoteRest] restNoteNote [restNoteLast] rfl rfl
    (by decide) (by decide) (by decide) (by decide) (by decide) rfl
  exact ⟨h.1, h.2.2.1⟩

/-! ## Clef names -/

/-- C32 (code defect): for the five clef codes `*clefC2`, `*clefC5`, `*clefG1`, `*clefC1` and
`*clefF3` `convertClef` writes the name without the opening double quote, such as
`\clef mezzosoprano"`: the text holds a single double quote. For the other six codes the name
stands between two double quotes, as in `\clef "treble"`. -/
theorem convertClef_missing_quote :
    (convertClef HumdrumToLilypondConverter.init "" (clefPointer "*clefC2")).2.1
        = "\\clef mezzosoprano\""
      ∧ (convertClef HumdrumToLilypondConverter.init "" (clefPointer "*clefC5")).2.1
        = "\\clef baritone\""
      ∧ (convertClef HumdrumToLilypondConverter.init "" (clefPointer "*clefG1")).2.1
        = "\\clef french\""
      ∧ (convertClef HumdrumToLilypondConverter.init "" (clefPointer "*clefC1")).2.1
        = "\\clef soprano\""
      ∧ (convertClef HumdrumToLilypondConverter.init "" (clefPointer "*clefF3")).2.1
        = "\\clef varbaritone\""
      ∧ characterCount
          (convertClef HumdrumToLilypondConverter.init "" (clefPointer "*clefC2")).2.1
          (Char.ofNat 34) = 1
      ∧ (convertClef HumdrumToLilypondConverter.init "" (clefPointer "*clefG2")).2.1
        = "\\clef \"treble\""
      ∧ characterCount
          (convertClef HumdrumToLilypondConverter.init "" (clefPointer "*clefG2")).2.1
          (Char.ofNat 34) = 2 := by
  decide

/-! ## Roman numerals -/

/-- A `while` loop of `arabicToRomanNumeral` that may run `arabic` times writes the symbol `k`
times and stops because the value left is below `number`. -/
theorem romanWhile_spec (number : Int) (symbol : String) (hn : 1 ≤ number) (fuel : Nat)
    (arabic : Int) (output : String) (h0 : 0 ≤ arabic) (hfuel : arabic.toNat ≤ fuel) :
    ∃ k : Nat,
      romanWhile number symbol fuel arabic output
          = (arabic - k * number, output ++ repeatText symbol k)
        ∧ 0 ≤ arabic - k * number ∧ arabic - k * number < number := by
  induction fuel generalizing arabic output with
  | zero =>
    have ha : arabic = 0 := by omega
    exact ⟨0, by simp [romanWhile, repeatText], by omega, by omega⟩
  | succ fuel ih =>
    by_cases hge : arabic ≥ number
    · obtain ⟨k, h1, h2, h3⟩ := ih (arabic - number) (output ++ symbol) (by omega) (by omega)
      refine ⟨k + 1, ?_, ?_, ?_⟩
      · simp only [romanWhile, hge, if_true, h1, repeatText, String.append_assoc, Prod.mk.injEq,
          and_true]
        push_cast
        ring
      · push_cast
        linarith
      · push_cast
        linarith
    · exact ⟨0, by simp [romanWhile, hge, repeatText], by simpa using h0, by simpa using hge⟩

theorem concatTexts_replicate (text : String) (k : Nat) :
    concatTexts (List.replicate k text) = repeatText text k := by
  induction k with
  | zero => rfl
  | succ k ih => simp only [List.replicate_succ, concatTexts, repeatText, ih]

/-- The `for` loop of `arabicToRomanNumeral` over a table of positive, strictly decreasing
values writes symbols of the table in non-increasing order of value; their values and the value
left, which is below every value of the table, add up to `arabic`. -/
theorem romanFor_spec (table : List (Int × String)) (hpos : ∀ e ∈ table, 1 ≤ e.1)
    (hsorted : table.Pairwise fun a b => a.1 > b.1) (arabic : Int) (output : String)
    (h0 : 0 ≤ arabic) :
    ∃ (syms : List (Int × String)) (left : Int),
      (∀ s ∈ syms, s ∈ table) ∧ (syms.Pairwise fun a b => a.1 ≥ b.1)
        ∧ (syms.map Prod.fst).sum + left = arabic ∧ 0 ≤ left ∧ left ≤ arabic
        ∧ (∀ e ∈ table, left < e.1)
        ∧ romanFor table arabic output = output ++ concatTexts (syms.map Prod.snd) := by
  induction table generalizing arabic output with
  | nil =>
    exact ⟨[], arabic, by simp, List.Pairwise.nil, by simp, h0, le_refl _, by simp,
      by simp [romanFor, concatTexts]⟩
  | cons entry rest ih =>
    rw [List.pairwise_cons] at hsorted
    obtain ⟨k, hk1, hk2, hk3⟩ := romanWhile_spec entry.1 entry.2
      (hpos entry (List.mem_cons_self _ _)) arabic.toNat arabic output h0 (le_refl _)
    obtain ⟨syms, left, hs1, hs2, hs3, hs4, hs5, hs6, hs7⟩ :=
      ih (fun e he => hpos e (List.mem_cons_of_mem _ he)) hsorted.2
        (arabic - k * entry.1) (output ++ repeatText entry.2 k) hk2
    have hk0 : (0 : Int) ≤ k * entry.1 :=
      mul_nonneg (Int.ofNat_nonneg k) (by linarith [hpos entry (List.mem_cons_self _ _)])
    refine ⟨List.replicate k entry ++ syms, left, ?_, ?_, ?_, hs4, by linarith, ?_, ?_⟩
    · intro s hs
      rw [List.mem_append] at hs
      rcases hs with hs | hs
      · rw [(List.mem_replicate.mp hs).2]
        exact List.mem_cons_self _ _
      · exact List.mem_cons_of_mem _ (hs1 s hs)
    · rw [List.pairwise_append]
      refine ⟨?_, hs2, ?_⟩
      · rw [List.pairwise_replicate]
        right
        exact le_refl _
      · intro a ha b hb
        rw [(List.mem_replicate.mp ha).2]
        exact le_of_lt (hsorted.1 b (hs1 b hb))
    · simp only [List.map_append, List.map_replicate, List.sum_append, List.sum_replicate,
        nsmul_eq_mul]
      linarith
    · intro e he
      rw [List.mem_cons] at he
      rcases he with he | he
      · rw [he]
        linarith
      · exact hs6 e he
    · simp only [romanFor, hk1, hs7, List.map_append, List.map_replicate, concatTexts_append,
        concatTexts_replicate, String.append_assoc]

theorem decodeValues_single (a : Int) (t : List Int) (h : ∀ b rest, t = b :: rest → b ≤ a) :
    decodeValues (a :: t) = a + decodeValues t := by
  cases t with
  | nil => simp [decodeValues]
  | cons b rest =>
    have hb : ¬ a < b := not_lt.mpr (h b rest rfl)
    simp [decodeValues, hb]

theorem decodeValues_pair (a b : Int) (t : List Int) (hab : a < b)
    (h : ∀ c rest, t = c :: rest → c ≤ b) :
    decodeValues (a :: b :: t) = b - a + decodeValues t := by
  simp only [decodeValues, hab, if_true]
  rw [decodeValues_single b t h]
  ring

/-- The letter values of a symbol of the table, followed by letter values that do not start
above the last letter of the symbol, are read as the value of the symbol plus the rest. -/
theorem decodeValues_symbol :
    ∀ e ∈ romanTable, ∀ t : List Int,
      (∀ b rest, t = b :: rest → b ≤ ((e.2.toList.map letterValue).getLast?).getD 0) →
      decodeValues (e.2.toList.map letterValue ++ t) = e.1 + decodeValues t := by
  intro e he t h
  simp only [romanTable, List.mem_cons, List.mem_singleton, List.not_mem_nil, or_false] at he
  rcases he with rfl | rfl | rfl | rfl | rfl | rfl | rfl | rfl | rfl | rfl | rfl | rfl | rfl
  all_goals first
    | exact decodeValues_single _ t h
    | exact decodeValues_pair _ _ t (by decide) h

theorem romanTable_adjacent :
    ∀ e ∈ romanTable, ∀ f ∈ romanTable, f.1 ≤ e.1 →
      ∃ tail, f.2.toList.map letterValue
          = (((f.2.toList.map letterValue).head?).getD 0) :: tail
        ∧ ((f.2.toList.map letterValue).head?).getD 0
          ≤ ((e.2.toList.map letterValue).getLast?).getD 0 := by
  intro e he f hf hle
  simp only [romanTable, List.mem_cons, List.mem_singleton, List.not_mem_nil, or_false] at he hf
  rcases hf with rfl | rfl | rfl | rfl | rfl | rfl | rfl | rfl | rfl | rfl | rfl | rfl | rfl <;>
    refine ⟨_, rfl, ?_⟩ <;>
    rcases he with rfl | rfl | rfl | rfl | rfl | rfl | rfl | rfl | rfl | rfl | rfl | rfl | rfl <;>
    first
      | decide
      | exact absurd hle (by decide)

/-- A text made of symbols of the table in non-increasing order of value is read as the sum of
their values. -/
theorem romanValue_concat (syms : List (Int × String)) (hmem : ∀ s ∈ syms, s ∈ romanTable)
    (hsorted : syms.Pairwise fun a b => a.1 ≥ b.1) :
    romanValue (concatTexts (syms.map Prod.snd)) = (syms.map Prod.fst).sum := by
  induction syms with
  | nil => rfl
  | cons e rest ih =>
    rw [List.pairwise_cons] at hsorted
    have ih2 := ih (fun s hs => hmem s (List.mem_cons_of_mem _ hs)) hsorted.2
    have hside : ∀ b tail,
        List.map letterValue (concatTexts (rest.map Prod.snd)).data = b :: tail →
        b ≤ ((e.2.toList.map letterValue).getLast?).getD 0 := by
      intro b tail hb
      cases rest with
      | nil => simp [concatTexts] at hb
      | cons f rest2 =>
        obtain ⟨ftail, hf1, hf2⟩ := romanTable_adjacent e (hmem e (List.mem_cons_self _ _)) f
          (hmem f (List.mem_cons_of_mem _ (List.mem_cons_self _ _)))
          (hsorted.1 f (List.mem_cons_self _ _))
        simp only [List.map_cons, concatTexts, String.data_append, List.map_append] at hb
        simp only [String.toList] at hf1
        rw [hf1] at hb
        simp only [List.cons_append, List.cons.injEq] at hb
        rw [← hb.1]
        exact hf2
    have hsym := decodeValues_symbol e (hmem e (List.mem_cons_self _ _)) _ hside
    simp only [romanValue, String.toList] at ih2 hsym ⊢
    simp only [List.map_cons, concatTexts, String.data_append, List.map_append, List.sum_cons]
    rw [hsym, ih2]

theorem toLower_append (a b : String) : (a ++ b).toLower = a.toLower ++ b.toLower := by
  unfold String.toLower
  rw [String.map_eq, String.map_eq, String.map_eq]
  apply String.ext
  simp

theorem romanWhile_lower (number : Int) (symbol : String) (fuel : Nat) (arabic : Int)
    (output : String) :
    romanWhile number symbol.toLower fuel arabic output.toLower
      = ((romanWhile number symbol fuel arabic output).1,
          (romanWhile number symbol fuel arabic output).2.toLower) := by
  induction fuel generalizing arabic output with
  | zero => rfl
  | succ fuel ih =>
    simp only [romanWhile]
    split
    · rw [← toLower_append, ih]
    · rfl

theorem romanFor_lower (table : List (Int × String)) (arabic : Int) (output : String) :
    romanFor (table.map fun e => (e.1, e.2.toLower)) arabic output.toLower
      = (romanFor table arabic output).toLower := by
  induction table generalizing arabic output with
  | nil => rfl
  | cons entry rest ih =>
    simp only [List.map_cons, romanFor, romanWhile_lower, ih]

theorem arabicToRomanNumeral_upper (n casetype : Int) (hn : 1 ≤ n) (hc : casetype ≠ 0) :
    arabicToRomanNumeral n casetype = romanFor romanTable n "" := by
  have hlt : ¬ n < 1 := not_lt.mpr hn
  simp only [arabicToRomanNumeral, hlt, if_false, hc, ne_eq, not_false_eq_true, if_true]
  rfl

theorem romanTable_lower :
    (romanTable.map fun e => (e.1, e.2.toLower))
      = [(1000, "m"), (900, "cm"), (500, "d"), (400, "cd"), (100, "c"), (90, "xc"), (50, "l"),
         (40, "xl"), (10, "x"), (9, "ix"), (5, "v"), (4, "iv"), (1, "i")] := by
  simp only [romanTable, List.map, String.toLower, String.map_eq]
  decide

theorem arabicToRomanNumeral_lower (n : Int) (hn : 1 ≤ n) :
    arabicToRomanNumeral n 0
      = romanFor (romanTable.map fun e => (e.1, e.2.toLower)) n "" := by
  have hlt : ¬ n < 1 := not_lt.mpr hn
  rw [romanTable_lower]
  simp only [arabicToRomanNumeral, hlt, if_false, ne_eq, not_true_eq_false]
  rfl

theorem arabicToRomanNumeral_symbols (n : Int) (hn : 1 ≤ n) :
    ∃ syms : List (Int × String),
      (∀ s ∈ syms, s ∈ romanTable) ∧ (syms.Pairwise fun a b => a.1 ≥ b.1)
        ∧ (syms.map Prod.fst).sum = n
        ∧ arabicToRomanNumeral n 1 = concatTexts (syms.map Prod.snd) := by
  obtain ⟨syms, left, h1, h2, h3, h4, _, h6, h7⟩ :=
    romanFor_spec romanTable (by decide) (by decide) n "" (by omega)
  have hleft : left < 1 := h6 (1, "I") (by decide)
  refine ⟨syms, h1, h2, by omega, ?_⟩
  rw [arabicToRomanNumeral_upper n 1 hn (by decide), h7, String.empty_append]

theorem romanValue_arabicToRomanNumeral (n : Int) (hn : 1 ≤ n) :
    romanValue (arabicToRomanNumeral n 1) = n := by
  obtain ⟨syms, h1, h2, h3, h4⟩ := arabicToRomanNumeral_symbols n hn
  rw [h4, romanValue_concat syms h1 h2, h3]

theorem append_left_cancel_text (p a b : String) (h : p ++ a = p ++ b) : a = b := by
  apply String.ext
  have hdata := congrArg String.data h
  simpa using hdata

theorem toLower_empty : ("" : String).toLower = "" := by
  rw [String.toLower, String.map_eq]
  rfl

/-- C31. For `n ≥ 1` `arabicToRomanNumeral` returns the concatenation of symbols of the table
M, CM, D, CD, C, XC, L, XL, X, IX, V, IV, I in non-increasing order of value whose values add up
to `n`; every `while` loop stops because the value left is below the value of its symbol, not
because the bound on its iterations is used up. Different numbers `n, m ≥ 1` give different
texts, so different part indices give different part names. For `n < 1` the result is empty; a
`casetype` other than 0 gives the upper-case form, and `casetype` 0 gives its lower-case
form. -/
theorem arabicToRomanNumeral_spec (n casetype : Int) :
    (n < 1 → arabicToRomanNumeral n casetype = "")
      ∧ (1 ≤ n →
          ∃ syms : List (Int × String),
            (∀ s ∈ syms, s ∈ romanTable) ∧ (syms.Pairwise fun a b => a.1 ≥ b.1)
              ∧ (syms.map Prod.fst).sum = n
              ∧ arabicToRomanNumeral n 1 = concatTexts (syms.map Prod.snd))
      ∧ (∀ (number : Int) (symbol output : String), 1 ≤ number → 0 ≤ n →
          (romanWhile number symbol n.toNat n output).1 < number)
      ∧ (1 ≤ n → ∀ m : Int, 1 ≤ m →
          arabicToRomanNumeral n 1 = arabicToRomanNumeral m 1 → n = m)
      ∧ (∀ i j : Nat, partName i = partName j → i = j)
      ∧ (casetype ≠ 0 → arabicToRomanNumeral n casetype = arabicToRomanNumeral n 1)
      ∧ arabicToRomanNumeral n 0 = (arabicToRomanNumeral n 1).toLower := by
  have hinj : ∀ a b : Int, 1 ≤ a → 1 ≤ b →
      arabicToRomanNumeral a 1 = arabicToRomanNumeral b 1 → a = b := by
    intro a b ha hb hab
    rw [← romanValue_arabicToRomanNumeral a ha, ← romanValue_arabicToRomanNumeral b hb, hab]
  refine ⟨?_, arabicToRomanNumeral_symbols n, ?_, fun hn m hm h => hinj n m hn hm h, ?_, ?_, ?_⟩
  · intro hn
    simp only [arabicToRomanNumeral, hn, if_true]
  · intro number symbol output hnumber hn
    obtain ⟨k, h1, _, h3⟩ := romanWhile_spec number symbol hnumber n.toNat n output hn (le_refl _)
    rw [h1]
    exact h3
  · intro i j hij
    have := hinj ((i : Int) + 1) ((j : Int) + 1) (by omega) (by omega)
      (append_left_cancel_text "part" _ _ hij)
    omega
  · intro hc
    by_cases hn : 1 ≤ n
    · exact (arabicToRomanNumeral_upper n casetype hn hc).trans
        (arabicToRomanNumeral_upper n 1 hn (by decide)).symm
    · have hlt : n < 1 := not_le.mp hn
      simp only [arabicToRomanNumeral, hlt, if_true]
  · by_cases hn : 1 ≤ n
    · have h1 := arabicToRomanNumeral_lower n hn
      have h2 := arabicToRomanNumeral_upper n 1 hn (by decide)
      have h3 := romanFor_lower romanTable n ""
      rw [toLower_empty] at h3
      exact h1.trans (h3.trans (congrArg String.toLower h2.symm))
    · have hlt : n < 1 := not_le.mp hn
      have h1 : arabicToRomanNumeral n 0 = "" := by simp only [arabicToRomanNumeral, hlt, if_true]
      have h2 : arabicToRomanNumeral n 1 = "" := by simp only [arabicToRomanNumeral, hlt, if_true]
      rw [h1, h2, toLower_empty]

/-- Witness for C31: 4 is written `IV`, in lower case `iv`, and 0 is written as the empty
text. -/
theorem arabicToRomanNumeral_spec_witness :
    arabicToRomanNumeral 0 1 = ""
      ∧ arabicToRomanNumeral 4 1 = "IV"
      ∧ arabicToRomanNumeral 4 0 = (arabicToRomanNumeral 4 1).toLower
      ∧ arabicToRomanNumeral 4 2 = arabicToRomanNumeral 4 1 :=
  ⟨(arabicToRomanNumeral_spec 0 1).1 (by decide), by decide,
    (arabicToRomanNumeral_spec 4 0).2.2.2.2.2.2,
    (arabicToRomanNumeral_spec 4 2).2.2.2.2.2.1 (by decide)⟩

/-! ## The tracker across segments -/

theorem characterCount_nonneg (text : String) (symbol : Char) :
    0 ≤ characterCount text symbol := by
  unfold characterCount
  exact Int.ofNat_nonneg _

/-- The dispatch on a token that is not rendered as a note or rest leaves the tracker as it
was. -/
theorem convertPartSegmentToken_states (lib : Convert) (c : HumdrumToLilypondConverter)
    (out : String) (token : TokenPtr) (h : isTimed token.tok = false) :
    (convertPartSegmentToken lib c out token).1.m_states = c.m_states := by
  unfold convertPartSegmentToken
  split
  · rfl
  · rename_i hnull
    split
    · rename_i hdata
      have hn : token.tok.isNull = false := by simpa using hnull
      simp only [isTimed, hdata, hn, Bool.not_false, Bool.and_self, Bool.true_and,
        Bool.or_eq_false_iff, Bool.not_eq_false'] at h
      simp only [convertDataToken, hn, hdata, h.1, h.2, Bool.false_eq_true, if_false,
        Bool.not_true, if_true, convertChord]
    · split
      · simp only [states_convertInterpretationToken]
      · split <;> rfl

theorem renderUntilFailure_states (lib : Convert) (ptrs : List TokenPtr)
    (c : HumdrumToLilypondConverter) (out : String)
    (h : ∀ p ∈ ptrs, isTimed p.tok = false) :
    (renderUntilFailure lib ptrs c out).1.m_states = c.m_states := by
  induction ptrs generalizing c out with
  | nil => rfl
  | cons p rest ih =>
    have hp := convertPartSegmentToken_states lib c out p (h p (List.mem_cons_self _ _))
    simp only [renderUntilFailure]
    split
    · exact hp
    · rw [ih _ _ (fun q hq => h q (List.mem_cons_of_mem _ hq)), hp]

theorem renderAll_states (lib : Convert) (ptrs : List TokenPtr)
    (c : HumdrumToLilypondConverter) (out : String)
    (h : ∀ p ∈ ptrs, isTimed p.tok = false) :
    (renderAll lib ptrs c out).1.m_states = c.m_states := by
  induction ptrs generalizing c out with
  | nil => rfl
  | cons p rest ih =>
    simp only [renderAll]
    rw [ih _ _ (fun q hq => h q (List.mem_cons_of_mem _ hq)),
      convertPartSegmentToken_states lib c out p (h p (List.mem_cons_self _ _))]

/-- With the dot count -1 in the tracker, a rest and the rhythm of a note go through
`convertDuration`. -/
theorem sentinel_reaches_convertDuration (lib : Convert) (c : HumdrumToLilypondConverter)
    (out : String) (token : TokenPtr) (stok : String) (h : c.m_states.dots = -1) :
    convertRest lib c out token
        = ((convertDuration c (out ++ "r") (lib.recipToDuration (lib.getSubtoken token.tok 0))
              (lib.recipToDurationNoDots (lib.getSubtoken token.tok 0))
              (characterCount (lib.getSubtoken token.tok 0) '.')).1,
            convertArticulations
              (convertDuration c (out ++ "r") (lib.recipToDuration (lib.getSubtoken token.tok 0))
                (lib.recipToDurationNoDots (lib.getSubtoken token.tok 0))
                (characterCount (lib.getSubtoken token.tok 0) '.')).2
              token.tok.text,
            true)
      ∧ convertNoteRhythm lib c out stok
        = ((convertDuration c out (lib.recipToDuration stok) (lib.recipToDurationNoDots stok)
              (characterCount stok '.')).1,
            convertArticulations
              ((convertDuration c out (lib.recipToDuration stok) (lib.recipToDurationNoDots stok)
                (characterCount stok '.')).2 ++ tieText stok ++ slurText stok)
              stok,
            true) := by
  have h1 : characterCount (lib.getSubtoken token.tok 0) '.' ≠ c.m_states.dots := by
    have := characterCount_nonneg (lib.getSubtoken token.tok 0) '.'
    omega
  have h2 : characterCount stok '.' ≠ c.m_states.dots := by
    have := characterCount_nonneg stok '.'
    omega
  constructor
  · simp only [convertRest, ne_eq, h1, not_false_eq_true, true_or, if_true]
  · simp only [convertNoteRhythm, ne_eq, h2, not_false_eq_true, true_or, if_true]

/-- With the duration and the dot count of the token in the tracker, a rest and the rhythm of a
note leave the converter as it was and write no duration text. -/
theorem equal_rhythm_writes_no_duration (lib : Convert) (c : HumdrumToLilypondConverter)
    (out : String) (token : TokenPtr) :
    (c.m_states.duration = lib.recipToDuration (lib.getSubtoken token.tok 0) →
        c.m_states.dots = characterCount (lib.getSubtoken token.tok 0) '.' →
        convertRest lib c out token = (c, convertArticulations (out ++ "r") token.tok.text, true))
      ∧ ∀ stok, c.m_states.duration = lib.recipToDuration stok →
          c.m_states.dots = characterCount stok '.' →
          convertNoteRhythm lib c out stok
            = (c, convertArticulations (out ++ tieText stok ++ slurText stok) stok, true) := by
  constructor
  · intro hd hn
    simp only [convertRest, ne_eq, hd, hn, not_true_eq_false, or_self, if_false]
  · intro stok hd hn
    simp only [convertNoteRhythm, ne_eq, hd, hn, not_true_eq_false, or_self, if_false]

/-- After a note or a rest has been rendered by the dispatch, the tracker holds its duration
and dot count. -/
theorem convertPartSegmentToken_tracks (lib : Convert) (c : HumdrumToLilypondConverter)
    (out : String) (token : TokenPtr) (h : isTimed token.tok = true) :
    (convertPartSegmentToken lib c out token).1.m_states.duration
        = lib.recipToDuration (lib.getSubtoken token.tok 0)
      ∧ (convertPartSegmentToken lib c out token).1.m_states.dots
        = characterCount (lib.getSubtoken token.tok 0) '.' := by
  simp only [isTimed, Bool.and_eq_true, Bool.not_eq_true', Bool.or_eq_true] at h
  have hkind : token.tok.isRest = true ∨ token.tok.isChord = false := h.2
  have := convertDataToken_tracks lib c out token h.1.1 h.1.2 hkind
  simpa only [convertPartSegmentToken, h.1.1, h.1.2, Bool.false_eq_true, if_false, if_true]
    using this

/-- The traversal of a segment whose tokens, from its start token on, are `pre` (no data token
other than null tokens), then `first`: the tokens of `pre` are dispatched, the tracker is then
as it was at the start, and the traversal goes on with `first`. -/
theorem convertSegment_reaches (lib : Convert) (k : HumdrumToLilypondConverter) (out : String)
    (partindex startline endline : Nat) (start : TokenPtr) (others pre : List TokenPtr)
    (first : TokenPtr) (post : List TokenPtr)
    (hstart : getStartTokens k partindex startline endline = start :: others)
    (hptrs : pointersFrom start.before (start.tok :: start.after) = pre ++ first :: post)
    (hpre : ∀ p ∈ pre, p.tok.lineIndex < endline ∧ (p.tok.isData && !p.tok.isNull) = false)
    (hline : first.tok.lineIndex < endline) (hover : isPassedOver first = false) :
    convertSegment lib k out partindex startline endline
        = renderUntilFailure lib
            (first :: ((post.takeWhile fun p => p.tok.lineIndex < endline).filter
              fun p => !isPassedOver p))
            (renderAll lib (pre.filter fun p => !isPassedOver p) k out).1
            (renderAll lib (pre.filter fun p => !isPassedOver p) k out).2
      ∧ (renderAll lib (pre.filter fun p => !isPassedOver p) k out).1.m_states = k.m_states := by
  have hquiet : ∀ p ∈ pre.filter (fun p => !isPassedOver p), isTimed p.tok = false := by
    intro p hp
    have h := (hpre p (List.mem_of_mem_filter hp)).2
    simp only [isTimed, h, Bool.false_and]
  refine ⟨?_, renderAll_states lib _ k out hquiet⟩
  unfold convertSegment
  rw [hstart]
  simp only [convertPartSegment]
  rw [convertPartSegmentFrom_eq]
  unfold visitedPointers
  rw [hptrs, List.takeWhile_append_of_pos (fun p hp => by simpa using (hpre p hp).1),
    List.takeWhile_cons, if_pos (by simpa using hline), List.filter_append, List.filter_cons,
    if_pos (by simp [hover])]
  exact renderUntilFailure_append lib _ _ _ _ (fun p hp => by
    have h := (hpre p (List.mem_of_mem_filter hp)).2
    simp only [isRenderedChord, h, Bool.false_and])

/-- C33. The tracker is set to its sentinels (duration -1, dots -1, pitch -99999) at the start
of `convertPart` and not at the segment boundaries. Take a segment `[startline, endline)` of a
part whose tokens, from its start token on, are `pre` (no data token other than null tokens),
then the note or rest `first`. When it is the segment with index `i` of a labelled part, the
loop body `convertPartIteration`, run on the converter `d`, dispatches the tokens of `pre` and
reaches `first` with the duration and dot count that `d` tracked when the loop body was
entered; and the loop hands the converter left by one segment to the loop body of the next.
When the part has no labels, `convertPart` reaches `first` with the sentinels -1 and -1; with
labels it runs the loop from the cleared tracker. With the dot count -1 a rest or note always
goes through `convertDuration`; with the duration and dot count of the token in the tracker,
which is what the last note or rest rendered leaves there and what tokens of other kinds do not
change, no duration text is written. -/
theorem tracker_cleared_once_per_part (lib : Convert) (d : HumdrumToLilypondConverter)
    (partindex startline endline : Nat) (start : TokenPtr)
    (others pre : List TokenPtr) (first : TokenPtr) (post : List TokenPtr)
    (hstart : getStartTokens d partindex startline endline = start :: others)
    (hptrs : pointersFrom start.before (start.tok :: start.after) = pre ++ first :: post)
    (hpre : ∀ p ∈ pre, p.tok.lineIndex < endline ∧ (p.tok.isData && !p.tok.isNull) = false)
    (hline : first.tok.lineIndex < endline) (hover : isPassedOver first = false)
    (htimed : isTimed first.tok = true) :
    (∀ (c : HumdrumToLilypondConverter) (text partname : String),
        convertPart lib c text partname partindex
          = convertPart lib { c with m_states := StateVariables.clear } text partname partindex)
      ∧ StateVariables.clear = { duration := -1, dots := -1, pitch := -99999 }
      ∧ (∀ (partname : String) (i : Nat) (text : String),
          d.m_segments.getD i 0 = startline → d.m_segments.getD (i + 1) 0 = endline →
          convertPartIteration lib partname partindex i d text
              = renderUntilFailure lib
                  (first :: ((post.takeWhile fun p => p.tok.lineIndex < endline).filter
                    fun p => !isPassedOver p))
                  (renderAll lib (pre.filter fun p => !isPassedOver p)
                    (seededConverter lib
                      { d with
                        m_staffout :=
                          d.m_staffout ++ "\\" ++ (partname ++ "Z" ++ d.m_labels.getD i "") ++ " " }
                      (text ++ (partname ++ "Z" ++ d.m_labels.getD i "") ++ " =") partindex
                      startline endline)
                    ((printRelativeStartingPitch lib
                      { d with
                        m_staffout :=
                          d.m_staffout ++ "\\" ++ (partname ++ "Z" ++ d.m_labels.getD i "") ++ " " }
                      (text ++ (partname ++ "Z" ++ d.m_labels.getD i "") ++ " =") partindex
                      startline endline).1 ++ " \x7b\n")).1
                  (renderAll lib (pre.filter fun p => !isPassedOver p)
                    (seededConverter lib
                      { d with
                        m_staffout :=
                          d.m_staffout ++ "\\" ++ (partname ++ "Z" ++ d.m_labels.getD i "") ++ " " }
                      (text ++ (partname ++ "Z" ++ d.m_labels.getD i "") ++ " =") partindex
                      startline endline)
                    ((printRelativeStartingPitch lib
                      { d with
                        m_staffout :=
                          d.m_staffout ++ "\\" ++ (partname ++ "Z" ++ d.m_labels.getD i "") ++ " " }
                      (text ++ (partname ++ "Z" ++ d.m_labels.getD i "") ++ " =") partindex
                      startline endline).1 ++ " \x7b\n")).2
            ∧ (renderAll lib (pre.filter fun p => !isPassedOver p)
                (seededConverter lib
                  { d with
                    m_staffout :=
                      d.m_staffout ++ "\\" ++ (partname ++ "Z" ++ d.m_labels.getD i "") ++ " " }
                  (text ++ (partname ++ "Z" ++ d.m_labels.getD i "") ++ " =") partindex
                  startline endline)
                ((printRelativeStartingPitch lib
                  { d with
                    m_staffout :=
                      d.m_staffout ++ "\\" ++ (partname ++ "Z" ++ d.m_labels.getD i "") ++ " " }
                  (text ++ (partname ++ "Z" ++ d.m_labels.getD i "") ++ " =") partindex
                  startline endline).1 ++ " \x7b\n")).1.m_states.duration = d.m_states.duration
            ∧ (renderAll lib (pre.filter fun p => !isPassedOver p)
                (seededConverter lib
                  { d with
                    m_staffout :=
                      d.m_staffout ++ "\\" ++ (partname ++ "Z" ++ d.m_labels.getD i "") ++ " " }
                  (text ++ (partname ++ "Z" ++ d.m_labels.getD i "") ++ " =") partindex
                  startline endline)
                ((printRelativeStartingPitch lib
                  { d with
                    m_staffout :=
                      d.m_staffout ++ "\\" ++ (partname ++ "Z" ++ d.m_labels.getD i "") ++ " " }
                  (text ++ (partname ++ "Z" ++ d.m_labels.getD i "") ++ " =") partindex
                  startline endline).1 ++ " \x7b\n")).1.m_states.dots = d.m_states.dots)
      ∧ (∀ (partname : String) (i : Nat) (rest : List Nat) (c : HumdrumToLilypondConverter)
          (text : String), (convertPartIteration lib partname partindex i c text).2.2 = true →
          convertPartLoop lib partname partindex (i :: rest) c text true
            = convertPartLoop lib partname partindex rest
                (convertPartIteration lib partname partindex i c text).1
                ((convertPartIteration lib partname partindex i c text).2.1 ++ "\x7d\n\n") true)
      ∧ (∀ (partname text : String), d.m_labels ≠ [] →
          convertPart lib d text partname partindex
            = convertPartLoop lib partname partindex (List.range (d.m_segments.length - 1))
                { d with m_states := StateVariables.clear } text true)
      ∧ (∀ (partname text : String), d.m_labels = [] → startline = 0 →
          endline = d.m_infile.getLineCount →
          convertPart lib d text partname partindex
              = ((renderUntilFailure lib
                    (first :: ((post.takeWhile fun p => p.tok.lineIndex < endline).filter
                      fun p => !isPassedOver p))
                    (renderAll lib (pre.filter fun p => !isPassedOver p)
                      (seededConverter lib { d with m_states := StateVariables.clear }
                        (text ++ partname ++ " =") partindex startline endline)
                      ((printRelativeStartingPitch lib { d with m_states := StateVariables.clear }
                        (text ++ partname ++ " =") partindex startline endline).1 ++ "\x7b\n")).1
                    (renderAll lib (pre.filter fun p => !isPassedOver p)
                      (seededConverter lib { d with m_states := StateVariables.clear }
                        (text ++ partname ++ " =") partindex startline endline)
                      ((printRelativeStartingPitch lib { d with m_states := StateVariables.clear }
                        (text ++ partname ++ " =") partindex startline endline).1
                        ++ "\x7b\n")).2).1,
                  (renderUntilFailure lib
                    (first :: ((post.takeWhile fun p => p.tok.lineIndex < endline).filter
                      fun p => !isPassedOver p))
                    (renderAll lib (pre.filter fun p => !isPassedOver p)
                      (seededConverter lib { d with m_states := StateVariables.clear }
                        (text ++ partname ++ " =") partindex startline endline)
                      ((printRelativeStartingPitch lib { d with m_states := StateVariables.clear }
                        (text ++ partname ++ " =") partindex startline endline).1 ++ "\x7b\n")).1
                    (renderAll lib (pre.filter fun p => !isPassedOver p)
                      (seededConverter lib { d with m_states := StateVariables.clear }
                        (text ++ partname ++ " =") partindex startline endline)
                      ((printRelativeStartingPitch lib { d with m_states := StateVariables.clear }
                        (text ++ partname ++ " =") partindex startline endline).1
                        ++ "\x7b\n")).2).2.1 ++ "\x7d\n\n",
                  (renderUntilFailure lib
                    (first :: ((post.takeWhile fun p => p.tok.lineIndex < endline).filter
                      fun p => !isPassedOver p))
                    (renderAll lib (pre.filter fun p => !isPassedOver p)
                      (seededConverter lib { d with m_states := StateVariables.clear }
                        (text ++ partname ++ " =") partindex startline endline)
                      ((printRelativeStartingPitch lib { d with m_states := StateVariables.clear }
                        (text ++ partname ++ " =") partindex startline endline).1 ++ "\x7b\n")).1
                    (renderAll lib (pre.filter fun p => !isPassedOver p)
                      (seededConverter lib { d with m_states := StateVariables.clear }
                        (text ++ partname ++ " =") partindex startline endline)
                      ((printRelativeStartingPitch lib { d with m_states := StateVariables.clear }
                        (text ++ partname ++ " =") partindex startline endline).1
                        ++ "\x7b\n")).2).2.2)
            ∧ (renderAll lib (pre.filter fun p => !isPassedOver p)
                (seededConverter lib { d with m_states := StateVariables.clear }
                  (text ++ partname ++ " =") partindex startline endline)
                ((printRelativeStartingPitch lib { d with m_states := StateVariables.clear }
                  (text ++ partname ++ " =") partindex startline endline).1
                  ++ "\x7b\n")).1.m_states.duration = -1
            ∧ (renderAll lib (pre.filter fun p => !isPassedOver p)
                (seededConverter lib { d with m_states := StateVariables.clear }
                  (text ++ partname ++ " =") partindex startline endline)
                ((printRelativeStartingPitch lib { d with m_states := StateVariables.clear }
                  (text ++ partname ++ " =") partindex startline endline).1
                  ++ "\x7b\n")).1.m_states.dots = -1)
      ∧ (∀ (ptrs : List TokenPtr) (c : HumdrumToLilypondConverter) (text : String),
          (∀ p ∈ ptrs, isTimed p.tok = false) →
          (renderUntilFailure lib ptrs c text).1.m_states = c.m_states)
      ∧ (∀ (c : HumdrumToLilypondConverter) (text stok : String), c.m_states.dots = -1 →
          convertRest lib c text first
              = ((convertDuration c (text ++ "r")
                    (lib.recipToDuration (lib.getSubtoken first.tok 0))
                    (lib.recipToDurationNoDots (lib.getSubtoken first.tok 0))
                    (characterCount (lib.getSubtoken first.tok 0) '.')).1,
                  convertArticulations
                    (convertDuration c (text ++ "r")
                      (lib.recipToDuration (lib.getSubtoken first.tok 0))
                      (lib.recipToDurationNoDots (lib.getSubtoken first.tok 0))
                      (characterCount (lib.getSubtoken first.tok 0) '.')).2
                    first.tok.text,
                  true)
            ∧ convertNoteRhythm lib c text stok
              = ((convertDuration c text (lib.recipToDuration stok)
                    (lib.recipToDurationNoDots stok) (characterCount stok '.')).1,
                  convertArticulations
                    ((convertDuration c text (lib.recipToDuration stok)
                      (lib.recipToDurationNoDots stok) (characterCount stok '.')).2
                      ++ tieText stok ++ slurText stok)
                    stok,
                  true))
      ∧ (∀ (c : HumdrumToLilypondConverter) (text : String),
          c.m_states.duration = lib.recipToDuration (lib.getSubtoken first.tok 0) →
          c.m_states.dots = characterCount (lib.getSubtoken first.tok 0) '.' →
          convertRest lib c text first
              = (c, convertArticulations (text ++ "r") first.tok.text, true)
            ∧ convertNoteRhythm lib c text (lib.getSubtoken first.tok 0)
              = (c, convertArticulations
                  (text ++ tieText (lib.getSubtoken first.tok 0)
                    ++ slurText (lib.getSubtoken first.tok 0))
                  (lib.getSubtoken first.tok 0), true))
      ∧ (∀ (c : HumdrumToLilypondConverter) (text : String),
          (convertPartSegmentToken lib c text first).1.m_states.duration
              = lib.recipToDuration (lib.getSubtoken first.tok 0)
            ∧ (convertPartSegmentToken lib c text first).1.m_states.dots
              = characterCount (lib.getSubtoken first.tok 0) '.') := by
  refine ⟨fun c text partname => rfl, rfl, ?_, ?_, ?_, ?_,
    fun ptrs c text h => renderUntilFailure_states lib ptrs c text h,
    fun c text stok h => sentinel_reaches_convertDuration lib c text first stok h,
    fun c text hd hn =>
      ⟨(equal_rhythm_writes_no_duration lib c text first).1 hd hn,
        (equal_rhythm_writes_no_duration lib c text first).2 _ hd hn⟩,
    fun c text => convertPartSegmentToken_tracks lib c text first htimed⟩
  · intro partname i text hs he
    have hiter : convertPartIteration lib partname partindex i d text
        = convertSegment lib
            (seededConverter lib
              { d with
                m_staffout :=
                  d.m_staffout ++ "\\" ++ (partname ++ "Z" ++ d.m_labels.getD i "") ++ " " }
              (text ++ (partname ++ "Z" ++ d.m_labels.getD i "") ++ " =") partindex
              (d.m_segments.getD i 0) (d.m_segments.getD (i + 1) 0))
            ((printRelativeStartingPitch lib
              { d with
                m_staffout :=
                  d.m_staffout ++ "\\" ++ (partname ++ "Z" ++ d.m_labels.getD i "") ++ " " }
              (text ++ (partname ++ "Z" ++ d.m_labels.getD i "") ++ " =") partindex
              (d.m_segments.getD i 0) (d.m_segments.getD (i + 1) 0)).1 ++ " \x7b\n")
            partindex (d.m_segments.getD i 0) (d.m_segments.getD (i + 1) 0) := rfl
    rw [hs, he] at hiter
    obtain ⟨h1, h2⟩ := convertSegment_reaches lib
      (seededConverter lib
        { d with
          m_staffout :=
            d.m_staffout ++ "\\" ++ (partname ++ "Z" ++ d.m_labels.getD i "") ++ " " }
        (text ++ (partname ++ "Z" ++ d.m_labels.getD i "") ++ " =") partindex startline endline)
      ((printRelativeStartingPitch lib
        { d with
          m_staffout :=
            d.m_staffout ++ "\\" ++ (partname ++ "Z" ++ d.m_labels.getD i "") ++ " " }
        (text ++ (partname ++ "Z" ++ d.m_labels.getD i "") ++ " =") partindex
        startline endline).1 ++ " \x7b\n")
      partindex startline endline start others pre first post
      ((getStartTokens_congr d _ rfl _ _ _).trans hstart) hptrs hpre hline hover
    refine ⟨hiter.trans h1, ?_, ?_⟩
    · rw [h2]
      rfl
    · rw [h2]
      rfl
  · intro partname i rest c text h
    simp only [convertPartLoop, h, Bool.and_self, Bool.not_true, Bool.false_eq_true, if_false]
  · intro partname text hlabels
    have hlen : d.m_labels.length > 0 := List.length_pos.mpr hlabels
    simp only [convertPart, hlen, if_true]
  · intro partname text hlabels hs he
    have hpart : convertPart lib d text partname partindex
        = ((convertSegment lib
              (seededConverter lib { d with m_states := StateVariables.clear }
                (text ++ partname ++ " =") partindex 0 d.m_infile.getLineCount)
              ((printRelativeStartingPitch lib { d with m_states := StateVariables.clear }
                (text ++ partname ++ " =") partindex 0 d.m_infile.getLineCount).1 ++ "\x7b\n")
              partindex 0 d.m_infile.getLineCount).1,
            (convertSegment lib
              (seededConverter lib { d with m_states := StateVariables.clear }
                (text ++ partname ++ " =") partindex 0 d.m_infile.getLineCount)
              ((printRelativeStartingPitch lib { d with m_states := StateVariables.clear }
                (text ++ partname ++ " =") partindex 0 d.m_infile.getLineCount).1 ++ "\x7b\n")
              partindex 0 d.m_infile.getLineCount).2.1 ++ "\x7d\n\n",
            (convertSegment lib
              (seededConverter lib { d with m_states := StateVariables.clear }
                (text ++ partname ++ " =") partindex 0 d.m_infile.getLineCount)
              ((printRelativeStartingPitch lib { d with m_states := StateVariables.clear }
                (text ++ partname ++ " =") partindex 0 d.m_infile.getLineCount).1 ++ "\x7b\n")
              partindex 0 d.m_infile.getLineCount).2.2) := by
      simp [convertPart, hlabels, seededConverter]
    rw [← hs, ← he] at hpart
    obtain ⟨h1, h2⟩ := convertSegment_reaches lib
      (seededConverter lib { d with m_states := StateVariables.clear }
        (text ++ partname ++ " =") partindex startline endline)
      ((printRelativeStartingPitch lib { d with m_states := StateVariables.clear }
        (text ++ partname ++ " =") partindex startline endline).1 ++ "\x7b\n")
      partindex startline endline start others pre first post
      ((getStartTokens_congr d _ rfl _ _ _).trans hstart) hptrs hpre hline hover
    rw [h1] at hpart
    refine ⟨hpart, ?_, ?_⟩
    · rw [h2]
      rfl
    · rw [h2]
      rfl

/-- Witness for C33: in the part `**kern`, `*>A`, `4c`, `*>B`, `4r` with the boundaries 0, 3, 5
the second segment starts with the label `*>B`; the loop body for it reaches the rest `4r` with
the duration and dot count that the converter tracked when the loop body was entered, here
those of the quarter note. -/
theorem tracker_cleared_once_per_part_witness :
    (renderAll sampleConvert ([twoLabelSecond].filter fun p => !isPassedOver p)
        (seededConverter sampleConvert
          { { extractSegments (readyConverter twoLabelFile) with
              m_states := { duration := 1, dots := 0, pitch := 162 } } with
            m_staffout := "" ++ "\\" ++ ("partI" ++ "Z" ++ "B") ++ " " }
          ("" ++ ("partI" ++ "Z" ++ "B") ++ " =") 0 3 5)
        ((printRelativeStartingPitch sampleConvert
          { { extractSegments (readyConverter twoLabelFile) with
              m_states := { duration := 1, dots := 0, pitch := 162 } } with
            m_staffout := "" ++ "\\" ++ ("partI" ++ "Z" ++ "B") ++ " " }
          ("" ++ ("partI" ++ "Z" ++ "B") ++ " =") 0 3 5).1 ++ " \x7b\n")).1.m_states.dots = 0 :=
  ((tracker_cleared_once_per_part sampleConvert
    { extractSegments (readyConverter twoLabelFile) with
      m_states := { duration := 1, dots := 0, pitch := 162 } }
    0 3 5 twoLabelSecond [] [twoLabelSecond] twoLabelRest [] rfl rfl (by decide) (by decide)
    (by decide) (by decide)).2.2.1 "partI" 1 "" (by decide) (by decide)).2.2

end Hum2ly
